import Mathlib

/-!
Verification of the market-pulse limit order book core.

This file is a shallow embedding, in Lean 4, of the C++ core of the
market-pulse repository: the `Order` entity (src/Order.cpp), the
`OrderBook` with its price levels and id index (src/OrderBook.cpp), the
`MatchingEngine` (src/MatchingEngine.cpp) and the `OrderQueue`
(src/OrderQueue.cpp).  Each Lean definition mirrors the corresponding C++
function line by line.

Modelling conventions:
* `Quantity` is `uint32_t` in C++.  Quantities are modelled as `Nat`;
  every subtraction or sum the C++ performs on a `Quantity` that could
  wrap is modelled with explicit arithmetic modulo `W = 2^32`
  (`sub32`, and `% W` after additions).
* `Price` is `double` in C++.  The core only ever compares prices and
  uses them as (exactly compared) ordered map keys, so prices are
  modelled as `Int`, a faithful model of the linear order of the
  non-NaN doubles actually used.
* `OrderId` is `uint64_t`; ids are only compared for equality, so they
  are modelled as `Nat`.
* Timestamps (`std::chrono::steady_clock::time_point`) are read from the
  wall clock and never inspected by any of the verified operations, so
  the `m_timestamp` field of `Order` and the `timestamp` field of
  `Trade` are not modelled.
* The C++ `std::map` of price levels is modelled as a sorted
  `List PriceLevel` (bids descending, asks ascending) and the
  `std::unordered_map` id index as an association list; heap `Order*`
  pointers shared between the id index and the level lists are modelled
  by storing order ids in the levels and resolving them through the id
  index, which is faithful because resident ids are unique.
-/

namespace orderbook

/-- The modulus of the C++ `Quantity` type (`uint32_t`), i.e. `2^32`. -/
def W : Nat := 4294967296

/-- `uint32_t` subtraction `a - b` (wraps modulo `2^32`) for `a b < W`. -/
def sub32 (a b : Nat) : Nat := (W + a - b) % W

/-- `Side` enum from Common.h. -/
inductive Side where
  | BUY
  | SELL
deriving DecidableEq, Repr

/-- `OrderType` enum from Common.h. -/
inductive OrderType where
  | LIMIT
  | MARKET
deriving DecidableEq, Repr

/-- `OrderStatus` enum from Common.h. -/
inductive OrderStatus where
  | NEW
  | OPEN
  | FILLED
  | PARTIAL
  | CANCELLED
  | REJECTED
deriving DecidableEq, Repr

/-- The `Order` class (Order.h / Order.cpp).  Field names drop the C++
`m_` prefix; the timestamp field is not modelled (see the file header). -/
structure Order where
  id : Nat
  side : Side
  type : OrderType
  price : Int
  quantity : Nat
  filledQty : Nat
  status : OrderStatus
deriving DecidableEq, Repr

/-- The `Order::Order(id, side, type, price, quantity)` constructor:
`m_filledQty(0), m_status(OrderStatus::NEW)`. -/
def mkOrder (id : Nat) (side : Side) (type : OrderType) (price : Int)
    (quantity : Nat) : Order :=
  { id := id, side := side, type := type, price := price,
    quantity := quantity, filledQty := 0, status := OrderStatus.NEW }

/-- `Order::getRemainingQty`: `m_quantity - m_filledQty` in `uint32_t`. -/
def Order.getRemainingQty (o : Order) : Nat := sub32 o.quantity o.filledQty

/-- `Order::isActive`: status is NEW, OPEN or PARTIAL. -/
def Order.isActive (o : Order) : Bool :=
  o.status = OrderStatus.NEW || o.status = OrderStatus.OPEN ||
    o.status = OrderStatus.PARTIAL

/-- `Order::fill(qty)`: fails if `qty > remaining`; otherwise adds to
`m_filledQty` and recomputes the status. -/
def Order.fill (o : Order) (qty : Nat) : Bool × Order :=
  if qty > o.getRemainingQty then
    (false, o)
  else
    let f := (o.filledQty + qty) % W
    let st :=
      if f = o.quantity then OrderStatus.FILLED
      else if 0 < f then OrderStatus.PARTIAL
      else o.status
    (true, { o with filledQty := f, status := st })

/-- `Order::cancel()`: sets CANCELLED only when the order is active. -/
def Order.cancel (o : Order) : Order :=
  if o.isActive then { o with status := OrderStatus.CANCELLED } else o

/-- `Order::modifyPrice(newPrice)`: only LIMIT orders with zero fill. -/
def Order.modifyPrice (o : Order) (newPrice : Int) : Bool × Order :=
  if o.type ≠ OrderType.LIMIT ∨ 0 < o.filledQty then
    (false, o)
  else
    (true, { o with price := newPrice })

/-- `Order::modifyQuantity(newQuantity)`: fails if below the filled
quantity; on success sets the quantity and marks FILLED when
`m_filledQty == m_quantity`. -/
def Order.modifyQuantity (o : Order) (newQuantity : Nat) : Bool × Order :=
  if newQuantity < o.filledQty then
    (false, o)
  else
    let st := if o.filledQty = newQuantity then OrderStatus.FILLED else o.status
    (true, { o with quantity := newQuantity, status := st })

/-- Well-formedness of an order as a C++ value: the documented fill
invariant together with the `uint32_t` range of its quantity. -/
def Order.WF (o : Order) : Prop := o.filledQty ≤ o.quantity ∧ o.quantity < W

instance (o : Order) : Decidable o.WF := by unfold Order.WF; infer_instance

/-!
## OrderQueue (OrderQueue.h / OrderQueue.cpp)

The queue is a `std::queue<Order>` guarded by a mutex, a condition
variable and a sticky `std::atomic<bool> m_shutdown`.  The sequential
model below captures the state a caller observes inside the critical
section.  `pop()` blocks until `!m_queue.empty() || m_shutdown`; in a
model where no other thread runs while we wait, a `pop` whose predicate
is false blocks forever, which the model renders as the outer `none`.
`popWithTimeout` under the same single-waiter assumption either sees the
predicate true immediately (and behaves like `pop`) or times out.
-/

/-- State of an `OrderQueue`: the queued items front-first, plus the
sticky shutdown flag. -/
structure OrderQueue where
  items : List Order
  m_shutdown : Bool
deriving DecidableEq, Repr

/-- `OrderQueue::push`: enqueue at the back (then notify one waiter). -/
def OrderQueue.push (s : OrderQueue) (o : Order) : OrderQueue :=
  { s with items := s.items ++ [o] }

/-- `OrderQueue::tryPop`: never blocks. -/
def OrderQueue.tryPop (s : OrderQueue) : Option Order × OrderQueue :=
  match s.items with
  | [] => (none, s)
  | x :: xs => (some x, { s with items := xs })

/-- `OrderQueue::pop`: the outer `none` models blocking forever (the wait
predicate `!empty || shutdown` is false and no producer runs); otherwise
returns `std::nullopt` exactly on shutdown-with-empty-queue, else the
front item. -/
def OrderQueue.pop (s : OrderQueue) : Option (Option Order × OrderQueue) :=
  if s.items = [] ∧ s.m_shutdown = false then
    none
  else if s.m_shutdown ∧ s.items = [] then
    some (none, s)
  else
    match s.items with
    | [] => some (none, s)
    | x :: xs => some (some x, { s with items := xs })

/-- `OrderQueue::popWithTimeout(ms)`: if the wait predicate holds at
entry, `wait_for` returns `gotItem = true` immediately; otherwise (no
producer running) the timeout expires and `gotItem = false`. -/
def OrderQueue.popWithTimeout (s : OrderQueue) (timeoutMs : Nat) :
    Option Order × OrderQueue :=
  let gotItem := ¬s.items = [] ∨ s.m_shutdown
  if ¬gotItem ∨ (s.m_shutdown ∧ s.items = []) then
    (none, s)
  else
    match s.items with
    | [] => (none, s)
    | x :: xs => (some x, { s with items := xs })

/-- `OrderQueue::empty`. -/
def OrderQueue.empty (s : OrderQueue) : Bool := s.items.isEmpty

/-- `OrderQueue::size`. -/
def OrderQueue.size (s : OrderQueue) : Nat := s.items.length

/-- `OrderQueue::clear`: discards all queued items. -/
def OrderQueue.clear (s : OrderQueue) : OrderQueue := { s with items := [] }

/-- `OrderQueue::shutdown`: sets the sticky flag (then notifies all). -/
def OrderQueue.shutdown (s : OrderQueue) : OrderQueue :=
  { s with m_shutdown := true }

/-!
## OrderBook (OrderBook.h / OrderBook.cpp)

`m_orderMap : std::unordered_map<OrderId, Order*>` is modelled as an
association list with unique keys; the heap `Order` object a pointer
refers to is the value bound to its id, and mutation through the pointer
is `mapInsert` (replace the binding).  `m_bids` / `m_asks`
(`std::map<Price, PriceLevel, cmp>`) are modelled as lists of levels kept
sorted descending / ascending by price; levels store the ids of their
resident orders.
-/

/-- The id index `m_orderMap`, as an association list. -/
abbrev OrderMap := List (Nat × Order)

/-- Lookup in `m_orderMap` (`find`). -/
def mapLookup : OrderMap → Nat → Option Order
  | [], _ => none
  | (j, o) :: rest, i => if j = i then some o else mapLookup rest i

/-- `m_orderMap.erase(id)`: removes the (unique) binding for `id`. -/
def mapErase : OrderMap → Nat → OrderMap
  | [], _ => []
  | (j, o) :: rest, i => if j = i then rest else (j, o) :: mapErase rest i

/-- `m_orderMap[id] = order`, and also mutation of the heap object a
binding points to: replace the binding if present, else append. -/
def mapInsert : OrderMap → Nat → Order → OrderMap
  | [], i, o => [(i, o)]
  | (j, p) :: rest, i, o =>
    if j = i then (j, o) :: rest else (j, p) :: mapInsert rest i o

/-- The `PriceLevel` struct (OrderBook.h): a price, the cached total
remaining quantity (`uint32_t`), and the FIFO of resident order ids
(`std::list<Order*>`). -/
structure PriceLevel where
  price : Int
  totalQuantity : Nat
  orders : List Nat
deriving DecidableEq, Repr

/-- `PriceLevel::addOrder`: push the order at the back and add its
remaining quantity to the cached total. -/
def PriceLevel.addOrder (l : PriceLevel) (o : Order) : PriceLevel :=
  { l with orders := l.orders ++ [o.id],
           totalQuantity := (l.totalQuantity + o.getRemainingQty) % W }

/-- `PriceLevel::removeOrder`: if the order is present, subtract its
current remaining quantity from the cached total and unlink it. -/
def PriceLevel.removeOrder (l : PriceLevel) (o : Order) : PriceLevel :=
  if o.id ∈ l.orders then
    { l with totalQuantity := sub32 l.totalQuantity o.getRemainingQty,
             orders := l.orders.erase o.id }
  else l

/-- `PriceLevel::isEmpty`. -/
def PriceLevel.isEmpty (l : PriceLevel) : Bool := l.orders.isEmpty

/-- The `OrderBook` class state. -/
structure OrderBook where
  bids : List PriceLevel
  asks : List PriceLevel
  orderMap : OrderMap
deriving DecidableEq, Repr

/-- A default-constructed `OrderBook`. -/
def emptyBook : OrderBook := ⟨[], [], []⟩

/-- `m_bids.find(p)` / `m_asks.find(p)` on the level list. -/
def findLevel (lvls : List PriceLevel) (p : Int) : Option PriceLevel :=
  lvls.find? (fun l => l.price == p)

/-- In-place mutation of the level at price `p` (`std::map` iterator
dereference); prices are unique so at most one level is touched. -/
def updateLevel (lvls : List PriceLevel) (p : Int)
    (f : PriceLevel → PriceLevel) : List PriceLevel :=
  lvls.map (fun l => if l.price = p then f l else l)

/-- `m_bids.erase(it)` / `m_asks.erase(it)` for the level at price `p`. -/
def eraseLevel (lvls : List PriceLevel) (p : Int) : List PriceLevel :=
  lvls.filter (fun l => !(l.price == p))

/-- `m_bids[price] = PriceLevel{...}` when absent: sorted insertion into
the descending bid map. -/
def insertLevelDesc : List PriceLevel → PriceLevel → List PriceLevel
  | [], l => [l]
  | x :: xs, l =>
    if x.price < l.price then l :: x :: xs else x :: insertLevelDesc xs l

/-- `m_asks[price] = PriceLevel{...}` when absent: sorted insertion into
the ascending ask map. -/
def insertLevelAsc : List PriceLevel → PriceLevel → List PriceLevel
  | [], l => [l]
  | x :: xs, l =>
    if l.price < x.price then l :: x :: xs else x :: insertLevelAsc xs l

/-- `OrderBook::addToBook`: create the side's level at the order's price
if absent, then `PriceLevel::addOrder`. -/
def OrderBook.addToBook (b : OrderBook) (o : Order) : OrderBook :=
  match o.side with
  | Side.BUY =>
    match findLevel b.bids o.price with
    | some _ =>
      { b with bids := updateLevel b.bids o.price (fun l => l.addOrder o) }
    | none =>
      let lvl0 : PriceLevel := { price := o.price, totalQuantity := 0, orders := [] }
      { b with bids := insertLevelDesc b.bids (lvl0.addOrder o) }
  | Side.SELL =>
    match findLevel b.asks o.price with
    | some _ =>
      { b with asks := updateLevel b.asks o.price (fun l => l.addOrder o) }
    | none =>
      let lvl0 : PriceLevel := { price := o.price, totalQuantity := 0, orders := [] }
      { b with asks := insertLevelAsc b.asks (lvl0.addOrder o) }

/-- `OrderBook::removeFromBook`: `PriceLevel::removeOrder` on the level
at the order's price, erasing the level if it becomes empty. -/
def OrderBook.removeFromBook (b : OrderBook) (o : Order) : OrderBook :=
  match o.side with
  | Side.BUY =>
    match findLevel b.bids o.price with
    | none => b
    | some lvl =>
      let lvl' := lvl.removeOrder o
      if lvl'.isEmpty then { b with bids := eraseLevel b.bids o.price }
      else { b with bids := updateLevel b.bids o.price (fun _ => lvl') }
  | Side.SELL =>
    match findLevel b.asks o.price with
    | none => b
    | some lvl =>
      let lvl' := lvl.removeOrder o
      if lvl'.isEmpty then { b with asks := eraseLevel b.asks o.price }
      else { b with asks := updateLevel b.asks o.price (fun _ => lvl') }

/-- `OrderBook::addOrder`: reject duplicate ids, else copy the order into
the id index and `addToBook` it. -/
def OrderBook.addOrder (b : OrderBook) (o : Order) : Bool × OrderBook :=
  match mapLookup b.orderMap o.id with
  | some _ => (false, b)
  | none =>
    let b1 := { b with orderMap := mapInsert b.orderMap o.id o }
    (true, b1.addToBook o)

/-- `OrderBook::cancelOrder`: reject unknown or inactive ids; otherwise
remove from the book and mark CANCELLED in place (the id-index record is
retained). -/
def OrderBook.cancelOrder (b : OrderBook) (orderId : Nat) : Bool × OrderBook :=
  match mapLookup b.orderMap orderId with
  | none => (false, b)
  | some o =>
    if ¬o.isActive then (false, b)
    else
      let b1 := b.removeFromBook o
      (true, { b1 with orderMap := mapInsert b1.orderMap orderId o.cancel })

/-- `OrderBook::modifyOrderPrice`: remove from the current level, attempt
`Order::modifyPrice`, and re-insert at the new price on success or at the
original price on failure. -/
def OrderBook.modifyOrderPrice (b : OrderBook) (orderId : Nat)
    (newPrice : Int) : Bool × OrderBook :=
  match mapLookup b.orderMap orderId with
  | none => (false, b)
  | some o =>
    if ¬o.isActive then (false, b)
    else
      let b1 := b.removeFromBook o
      match o.modifyPrice newPrice with
      | (false, _) => (false, b1.addToBook o)
      | (true, o') =>
        let b2 := { b1 with orderMap := mapInsert b1.orderMap orderId o' }
        (true, b2.addToBook o')

/-- `OrderBook::modifyOrderQuantity`: attempt `Order::modifyQuantity` and
on success add the remaining-quantity delta (`uint32_t` arithmetic) to
the resident level's cached total.  The C++ guards the level update with
`m_bids.count(price)` / `m_asks.count(price)`; `updateLevel` on an absent
price is already the identity, which subsumes that guard. -/
def OrderBook.modifyOrderQuantity (b : OrderBook) (orderId : Nat)
    (newQuantity : Nat) : Bool × OrderBook :=
  match mapLookup b.orderMap orderId with
  | none => (false, b)
  | some o =>
    if ¬o.isActive then (false, b)
    else
      let oldRemaining := o.getRemainingQty
      match o.modifyQuantity newQuantity with
      | (false, _) => (false, b)
      | (true, o') =>
        let b1 := { b with orderMap := mapInsert b.orderMap orderId o' }
        let diff := sub32 o'.getRemainingQty oldRemaining
        let bump := fun (l : PriceLevel) =>
          { l with totalQuantity := (l.totalQuantity + diff) % W }
        match o'.side with
        | Side.BUY => (true, { b1 with bids := updateLevel b1.bids o'.price bump })
        | Side.SELL => (true, { b1 with asks := updateLevel b1.asks o'.price bump })

/-- The `while (!level.orders.empty() && filled < quantity)` loop of
`OrderBook::fillQuantityAtPrice`, acting on the level's id FIFO and the
id index; `q` is the still-unfilled part of the requested quantity.
Returns (quantity filled, surviving FIFO, new id index).  A dangling id
(absent from the index) is undefined behaviour in the C++ (`Order*`
dereference); the model skips it, and every theorem below assumes
well-formedness, under which the case is unreachable. -/
def fillLoop : OrderMap → Nat → List Nat → Nat × List Nat × OrderMap
  | m, _, [] => (0, [], m)
  | m, q, i :: rest =>
    if q = 0 then (0, i :: rest, m)
    else
      match mapLookup m i with
      | none => fillLoop m q rest
      | some o =>
        let t := min o.getRemainingQty q
        let o' := (o.fill t).2
        if o'.getRemainingQty = 0 then
          let r := fillLoop (mapErase m o.id) (q - t) rest
          (t + r.1, r.2.1, r.2.2)
        else
          (t, i :: rest, mapInsert m i o')

/-- `OrderBook::fillQuantityAtPrice(side, price, quantity)`: run the FIFO
fill loop on the level at `price` (0 if absent), subtract the filled
amount from the cached total, and erase the level when its total reaches
0 or its FIFO is exhausted. -/
def OrderBook.fillQuantityAtPrice (b : OrderBook) (side : Side)
    (price : Int) (quantity : Nat) : Nat × OrderBook :=
  match side with
  | Side.BUY =>
    match findLevel b.bids price with
    | none => (0, b)
    | some lvl =>
      let r := fillLoop b.orderMap quantity lvl.orders
      let total' := sub32 lvl.totalQuantity r.1
      if total' = 0 ∨ r.2.1 = [] then
        (r.1, { b with bids := eraseLevel b.bids price, orderMap := r.2.2 })
      else
        (r.1, { b with
          bids := updateLevel b.bids price
            (fun l => { l with totalQuantity := total', orders := r.2.1 }),
          orderMap := r.2.2 })
  | Side.SELL =>
    match findLevel b.asks price with
    | none => (0, b)
    | some lvl =>
      let r := fillLoop b.orderMap quantity lvl.orders
      let total' := sub32 lvl.totalQuantity r.1
      if total' = 0 ∨ r.2.1 = [] then
        (r.1, { b with asks := eraseLevel b.asks price, orderMap := r.2.2 })
      else
        (r.1, { b with
          asks := updateLevel b.asks price
            (fun l => { l with totalQuantity := total', orders := r.2.1 }),
          orderMap := r.2.2 })

/-- `OrderBook::getQuantityAtPrice`. -/
def OrderBook.getQuantityAtPrice (b : OrderBook) (side : Side)
    (price : Int) : Nat :=
  match side with
  | Side.BUY => match findLevel b.bids price with
    | some l => l.totalQuantity
    | none => 0
  | Side.SELL => match findLevel b.asks price with
    | some l => l.totalQuantity
    | none => 0

/-- `OrderBook::getTopBids(n)`: the first `n` (price, cached total)
pairs of the descending bid map. -/
def OrderBook.getTopBids (b : OrderBook) (n : Nat) : List (Int × Nat) :=
  (b.bids.take n).map (fun l => (l.price, l.totalQuantity))

/-- `OrderBook::getTopAsks(n)`. -/
def OrderBook.getTopAsks (b : OrderBook) (n : Nat) : List (Int × Nat) :=
  (b.asks.take n).map (fun l => (l.price, l.totalQuantity))

/-- `OrderBook::getBidLevelCount`. -/
def OrderBook.getBidLevelCount (b : OrderBook) : Nat := b.bids.length

/-- `OrderBook::getAskLevelCount`. -/
def OrderBook.getAskLevelCount (b : OrderBook) : Nat := b.asks.length

/-- `OrderBook::getTotalOrderCount`: the size of `m_orderMap`. -/
def OrderBook.getTotalOrderCount (b : OrderBook) : Nat := b.orderMap.length

/-!
## MatchingEngine (MatchingEngine.h / MatchingEngine.cpp)

The engine holds a reference to the book; its methods are modelled as
functions threading the book state.  The running statistics
(`m_tradeCount`, `m_totalVolume`) and the synchronous trade callbacks
observe the produced trade list and are not modelled separately; no
claim refers to them.
-/

/-- The `Trade` record (timestamp not modelled, see the file header). -/
structure Trade where
  buyOrderId : Nat
  sellOrderId : Nat
  price : Int
  quantity : Nat
deriving DecidableEq, Repr

/-- The level loop of `MatchingEngine::matchBuyOrder` over the ask
snapshot: stop when filled, or (LIMIT only) when the ask price exceeds
the order's limit; otherwise consume book liquidity at this level and
record one trade if anything actually filled. -/
def matchBuyLoop : List (Int × Nat) → Order → OrderBook →
    List Trade × Order × OrderBook
  | [], o, b => ([], o, b)
  | (askPrice, askQty) :: rest, o, b =>
    if o.getRemainingQty = 0 then ([], o, b)
    else if o.type = OrderType.LIMIT ∧ o.price < askPrice then ([], o, b)
    else
      let matchQty := min o.getRemainingQty askQty
      let r := b.fillQuantityAtPrice Side.SELL askPrice matchQty
      if r.1 = 0 then matchBuyLoop rest o r.2
      else
        let o' := (o.fill r.1).2
        let tr : Trade :=
          { buyOrderId := o.id, sellOrderId := 0,
            price := askPrice, quantity := r.1 }
        let res := matchBuyLoop rest o' r.2
        (tr :: res.1, res.2.1, res.2.2)

/-- `MatchingEngine::matchBuyOrder`: snapshot up to 100 ask levels
(best, i.e. lowest, first) and run the level loop. -/
def matchBuyOrder (b : OrderBook) (o : Order) :
    List Trade × Order × OrderBook :=
  matchBuyLoop (b.getTopAsks 100) o b

/-- The level loop of `MatchingEngine::matchSellOrder` over the bid
snapshot: stop when filled, or (LIMIT only) when the bid price is below
the order's limit. -/
def matchSellLoop : List (Int × Nat) → Order → OrderBook →
    List Trade × Order × OrderBook
  | [], o, b => ([], o, b)
  | (bidPrice, bidQty) :: rest, o, b =>
    if o.getRemainingQty = 0 then ([], o, b)
    else if o.type = OrderType.LIMIT ∧ bidPrice < o.price then ([], o, b)
    else
      let matchQty := min o.getRemainingQty bidQty
      let r := b.fillQuantityAtPrice Side.BUY bidPrice matchQty
      if r.1 = 0 then matchSellLoop rest o r.2
      else
        let o' := (o.fill r.1).2
        let tr : Trade :=
          { buyOrderId := 0, sellOrderId := o.id,
            price := bidPrice, quantity := r.1 }
        let res := matchSellLoop rest o' r.2
        (tr :: res.1, res.2.1, res.2.2)

/-- `MatchingEngine::matchSellOrder`: snapshot up to 100 bid levels
(best, i.e. highest, first) and run the level loop. -/
def matchSellOrder (b : OrderBook) (o : Order) :
    List Trade × Order × OrderBook :=
  matchSellLoop (b.getTopBids 100) o b

/-- `MatchingEngine::processOrder`: match against the opposite side,
then add any LIMIT remainder to the book as a resting order (the
`addOrder` success flag is ignored by the C++). -/
def processOrder (b : OrderBook) (o : Order) :
    List Trade × Order × OrderBook :=
  let r := if o.side = Side.BUY then matchBuyOrder b o else matchSellOrder b o
  let b' :=
    if 0 < r.2.1.getRemainingQty ∧ r.2.1.type = OrderType.LIMIT then
      (r.2.2.addOrder r.2.1).2
    else r.2.2
  (r.1, r.2.1, b')

/-!
## Semantic measures used by the statements

These are not source functions: they are measures of the model used to
phrase the claims (aggregate remaining quantity of a FIFO, membership
counts), defined so that every statement is decidable on concrete
inputs.
-/

/-- The current remaining quantity of the order an id refers to
(0 for a dangling id, which well-formedness excludes). -/
def remOf (m : OrderMap) (i : Nat) : Nat :=
  match mapLookup m i with
  | some o => o.getRemainingQty
  | none => 0

/-- Aggregate remaining quantity of a FIFO of order ids. -/
def sumRemaining (m : OrderMap) (ids : List Nat) : Nat :=
  (ids.map (remOf m)).sum

/-- Number of price levels (both sides) whose FIFO contains `i`. -/
def levelsContaining (b : OrderBook) (i : Nat) : Nat :=
  ((b.bids ++ b.asks).filter (fun l => l.orders.contains i)).length

/-- `OptP x P` holds when `x = some a` and `P a` (used to state facts
about id-index lookups decidably). -/
def OptP {α : Type} : Option α → (α → Prop) → Prop
  | none, _ => False
  | some a, P => P a

instance {α : Type} (x : Option α) (P : α → Prop) [∀ a, Decidable (P a)] :
    Decidable (OptP x P) :=
  match x with
  | none => isFalse (fun h => h)
  | some a => inferInstanceAs (Decidable (P a))

/-- Every id of a level resolves in the id index to an order of the
level's side and price whose stored id matches its key and whose fill
state is a valid `uint32_t` state. -/
def LevelBound (m : OrderMap) (sd : Side) (l : PriceLevel) : Prop :=
  ∀ i ∈ l.orders, OptP (mapLookup m i)
    (fun o => o.id = i ∧ o.side = sd ∧ o.price = l.price ∧ o.WF)

instance (m : OrderMap) (sd : Side) (l : PriceLevel) :
    Decidable (LevelBound m sd l) := by
  unfold LevelBound; infer_instance

/-- Per-level well-formedness: non-empty duplicate-free FIFO, accurate
cached total in `uint32_t` range, and all ids bound (`LevelBound`). -/
def LevelWF (m : OrderMap) (sd : Side) (l : PriceLevel) : Prop :=
  l.orders ≠ [] ∧ l.orders.Nodup ∧
    l.totalQuantity = sumRemaining m l.orders ∧ l.totalQuantity < W ∧
    LevelBound m sd l

instance (m : OrderMap) (sd : Side) (l : PriceLevel) :
    Decidable (LevelWF m sd l) := by
  unfold LevelWF; infer_instance

/-- Well-formedness of a whole `OrderBook` state: bids sorted strictly
descending, asks strictly ascending, every level well-formed for its
side, no id resident in two levels, and unique id-index keys.  This is
the invariant the C++ maintains under its single book-wide lock. -/
def OrderBook.WF (b : OrderBook) : Prop :=
  List.Pairwise (fun l1 l2 => l2.price < l1.price) b.bids ∧
  List.Pairwise (fun l1 l2 => l1.price < l2.price) b.asks ∧
  (∀ l ∈ b.bids, LevelWF b.orderMap Side.BUY l) ∧
  (∀ l ∈ b.asks, LevelWF b.orderMap Side.SELL l) ∧
  ((b.bids ++ b.asks).map PriceLevel.orders).flatten.Nodup ∧
  (b.orderMap.map Prod.fst).Nodup

instance (b : OrderBook) : Decidable b.WF := by
  unfold OrderBook.WF; infer_instance

/-!
## Theorems

First general lemmas about the embedded operations, then one theorem per
claim (with its witness or counterexample).
-/

theorem sub32_eq_sub {a b : Nat} (hba : b ≤ a) (ha : a < W) :
    sub32 a b = a - b := by
  unfold sub32
  have h : W + a - b = W + (a - b) := by omega
  rw [h, Nat.add_mod_left, Nat.mod_eq_of_lt (by omega)]

theorem sub32_self {a : Nat} : sub32 a a = 0 := by
  unfold sub32
  have h : W + a - a = W := by omega
  rw [h, Nat.mod_self]

theorem Order.WF.filled_lt {o : Order} (h : o.WF) : o.filledQty < W :=
  lt_of_le_of_lt h.1 h.2

theorem wf_iff (o : Order) :
    o.WF ↔ o.filledQty ≤ o.quantity ∧ o.quantity < W := Iff.rfl

theorem remaining_eq {o : Order} (h : o.WF) :
    o.getRemainingQty = o.quantity - o.filledQty :=
  sub32_eq_sub h.1 h.2

/-- On a well-formed order, `fill` with `qty ≤ remaining` succeeds, adds
`qty` to the filled quantity without wrapping, and recomputes the status. -/
theorem fill_eq {o : Order} (h : o.WF) {qty : Nat}
    (hq : qty ≤ o.quantity - o.filledQty) :
    o.fill qty = (true,
      { o with filledQty := o.filledQty + qty,
               status :=
                 if o.filledQty + qty = o.quantity then OrderStatus.FILLED
                 else if 0 < o.filledQty + qty then OrderStatus.PARTIAL
                 else o.status }) := by
  unfold Order.fill
  rw [remaining_eq h, if_neg (by omega)]
  have hlt : o.filledQty + qty < W := by
    have h1 := h.1; have h2 := h.2; omega
  simp only [Nat.mod_eq_of_lt hlt]

/-- `fill` never touches identity, side, type, price or quantity. -/
theorem fill_frame (o : Order) (qty : Nat) :
    ((o.fill qty).2).id = o.id ∧ ((o.fill qty).2).side = o.side ∧
    ((o.fill qty).2).type = o.type ∧ ((o.fill qty).2).price = o.price ∧
    ((o.fill qty).2).quantity = o.quantity := by
  unfold Order.fill
  by_cases h : qty > o.getRemainingQty <;> simp [h]

/-- C3 counterexample: `Order::fill` does not check for a terminal
status.  A partially filled then cancelled order (quantity 10, filled 4,
status CANCELLED) accepts `fill(3)`: the call returns true and mutates
the order (its status even reverts to PARTIAL), contradicting the claim
that no operation on a terminal order ever changes its state. -/
theorem fill_on_cancelled_mutates_cex :
    ((((mkOrder 1 Side.BUY OrderType.LIMIT 100 10).fill 4).2).cancel.status
        = OrderStatus.CANCELLED) ∧
      (((((mkOrder 1 Side.BUY OrderType.LIMIT 100 10).fill 4).2).cancel.fill 3).1
        = true) ∧
      ((((mkOrder 1 Side.BUY OrderType.LIMIT 100 10).fill 4).2).cancel.fill 3).2 ≠
        (((mkOrder 1 Side.BUY OrderType.LIMIT 100 10).fill 4).2).cancel := by
  decide

/-- C3 (amended): `cancel()` leaves a FILLED or CANCELLED order
unchanged, and a FILLED order whose filled quantity equals its quantity
is immune to `fill` (failure for positive amounts, identity for zero);
but `fill`, `modifyPrice` and `modifyQuantity` check only fill-based
conditions, so each can succeed and mutate a terminal order (see the
counterexample). -/
theorem terminal_cancel_fill_safe (o : Order) (hwf : o.WF)
    (hterm : o.status = OrderStatus.FILLED ∨ o.status = OrderStatus.CANCELLED) :
    o.cancel = o ∧
    (o.status = OrderStatus.FILLED → o.filledQty = o.quantity →
      ∀ q : Nat, (o.fill q).1 = false ∨ (o.fill q).2 = o) := by
  constructor
  · unfold Order.cancel Order.isActive
    rcases hterm with h | h <;> simp [h]
  · intro hf hq q
    have hrem : o.getRemainingQty = 0 := by
      rw [remaining_eq hwf]; omega
    rcases Nat.eq_zero_or_pos q with hq0 | hq0
    · right
      subst hq0
      unfold Order.fill
      rw [hrem, if_neg (by omega)]
      simp only [Nat.add_zero, Nat.mod_eq_of_lt hwf.filled_lt]
      have : (if o.filledQty = o.quantity then OrderStatus.FILLED
          else if 0 < o.filledQty then OrderStatus.PARTIAL else o.status) =
            o.status := by
        rw [if_pos hq, hf]
      rw [this]
    · left
      unfold Order.fill
      rw [hrem, if_pos (by omega)]

/-- C4 counterexample: fill an order of quantity 10 completely (status
becomes FILLED), then `modifyQuantity(20)`: the call succeeds and leaves
the status FILLED while `filled = 10 ≠ 20 = quantity`, so
`status == FILLED ⇔ filled == quantity` is not an invariant. -/
theorem filled_status_iff_cex :
    ((((mkOrder 1 Side.BUY OrderType.LIMIT 100 10).fill 10).2.modifyQuantity 20).2.status
        = OrderStatus.FILLED) ∧
      ((((mkOrder 1 Side.BUY OrderType.LIMIT 100 10).fill 10).2.modifyQuantity 20).2.filledQty
        ≠ (((mkOrder 1 Side.BUY OrderType.LIMIT 100 10).fill 10).2.modifyQuantity 20).2.quantity) := by
  decide

/-- C4 (amended): with quantities in `uint32_t` range, the invariant
`0 ≤ filled ≤ quantity` holds after construction and is preserved by
`fill`, `cancel`, `modifyPrice` and `modifyQuantity`; and after a
successful `fill` of a positive amount the status is FILLED exactly when
`filled = quantity`.  The unrestricted equivalence
`status == FILLED ⇔ filled == quantity` fails (see the counterexample). -/
theorem order_invariant_preserved (idv : Nat) (sd : Side) (ty : OrderType)
    (p : Int) (q0 : Nat) (hq0 : q0 < W) (o : Order) (hwf : o.WF) (qty : Nat)
    (np : Int) (nq : Nat) (hnq : nq < W) :
    (mkOrder idv sd ty p q0).WF ∧
    ((o.fill qty).2).WF ∧
    (o.cancel).WF ∧
    ((o.modifyPrice np).2).WF ∧
    ((o.modifyQuantity nq).2).WF ∧
    (0 < qty → (o.fill qty).1 = true →
      (((o.fill qty).2).status = OrderStatus.FILLED ↔
        ((o.fill qty).2).filledQty = ((o.fill qty).2).quantity)) := by
  obtain ⟨h1, h2⟩ := hwf
  refine ⟨⟨Nat.zero_le _, hq0⟩, ?_, ?_, ?_, ?_, ?_⟩
  · by_cases h : qty ≤ o.quantity - o.filledQty
    · rw [fill_eq ⟨h1, h2⟩ h, wf_iff]
      refine ⟨?_, h2⟩
      simp only
      omega
    · unfold Order.fill
      rw [remaining_eq ⟨h1, h2⟩, if_pos (by omega)]
      exact ⟨h1, h2⟩
  · unfold Order.cancel
    by_cases h : o.isActive
    · rw [if_pos h, wf_iff]
      exact ⟨h1, h2⟩
    · rw [if_neg h]
      exact ⟨h1, h2⟩
  · unfold Order.modifyPrice
    by_cases h : o.type ≠ OrderType.LIMIT ∨ 0 < o.filledQty
    · rw [if_pos h]
      exact ⟨h1, h2⟩
    · rw [if_neg h, wf_iff]
      exact ⟨h1, h2⟩
  · unfold Order.modifyQuantity
    by_cases h : nq < o.filledQty
    · rw [if_pos h]
      exact ⟨h1, h2⟩
    · rw [if_neg h, wf_iff]
      refine ⟨?_, hnq⟩
      simp only
      omega
  · intro hpos hsucc
    have hle : qty ≤ o.quantity - o.filledQty := by
      by_contra hcon
      rw [Order.fill, remaining_eq ⟨h1, h2⟩, if_pos (by omega)] at hsucc
      simp at hsucc
    rw [fill_eq ⟨h1, h2⟩ hle]
    by_cases he : o.filledQty + qty = o.quantity
    · rw [if_pos he]
      simp [he]
    · rw [if_neg he, if_pos (show 0 < o.filledQty + qty by omega)]
      simp only
      exact iff_of_false (by simp) he

/-- C8: `shutdown` is idempotent (state-level) and sticky across every
operation; after shutdown, `pop` never blocks and both `pop` and
`popWithTimeout` return `none` exactly when the queue is empty, and
while items remain they are handed out front-first (FIFO). -/
theorem shutdown_idempotent_pop (s : OrderQueue) :
    s.shutdown.shutdown = s.shutdown ∧
    (∀ o : Order, (s.shutdown.push o).m_shutdown = true) ∧
    ((s.shutdown.tryPop).2.m_shutdown = true ∧
      (s.shutdown.clear).m_shutdown = true) ∧
    (s.items = [] → s.shutdown.pop = some (none, s.shutdown) ∧
      ∀ ms, s.shutdown.popWithTimeout ms = (none, s.shutdown)) ∧
    (∀ x xs, s.items = x :: xs →
      s.shutdown.pop = some (some x, ⟨xs, true⟩) ∧
      ∀ ms, s.shutdown.popWithTimeout ms = (some x, ⟨xs, true⟩)) := by
  refine ⟨rfl, fun o => rfl, ⟨?_, rfl⟩, ?_, ?_⟩
  · unfold OrderQueue.tryPop OrderQueue.shutdown
    cases s.items <;> rfl
  · intro h
    unfold OrderQueue.pop OrderQueue.popWithTimeout OrderQueue.shutdown
    simp [h]
  · intro x xs h
    unfold OrderQueue.pop OrderQueue.popWithTimeout OrderQueue.shutdown
    simp [h]

/-- C8 witness: a queue holding one concrete order, shut down, hands out
that order and then reports `none`. -/
theorem shutdown_idempotent_pop_witness :
    OrderQueue.pop (OrderQueue.shutdown ⟨[mkOrder 1 Side.BUY OrderType.LIMIT 100 10], false⟩) =
      some (some (mkOrder 1 Side.BUY OrderType.LIMIT 100 10), ⟨[], true⟩) :=
  ((shutdown_idempotent_pop ⟨[mkOrder 1 Side.BUY OrderType.LIMIT 100 10], false⟩).2.2.2.2
    (mkOrder 1 Side.BUY OrderType.LIMIT 100 10) [] rfl).1

/-- C3 witness: a fully filled concrete order (FILLED, filled = quantity
= 5) is left unchanged by `cancel`. -/
theorem terminal_cancel_fill_safe_witness :
    (((mkOrder 2 Side.SELL OrderType.LIMIT 50 5).fill 5).2).cancel =
      (((mkOrder 2 Side.SELL OrderType.LIMIT 50 5).fill 5).2) :=
  (terminal_cancel_fill_safe (((mkOrder 2 Side.SELL OrderType.LIMIT 50 5).fill 5).2)
    (by decide) (by decide)).1

/-- C4 witness: the invariant theorem applied to a concrete partially
filled order and concrete arguments. -/
theorem order_invariant_preserved_witness :
    ((((mkOrder 3 Side.BUY OrderType.LIMIT 7 9).fill 4).2.fill 2).2).WF :=
  (order_invariant_preserved 3 Side.BUY OrderType.LIMIT 7 9 (by decide)
    (((mkOrder 3 Side.BUY OrderType.LIMIT 7 9).fill 4).2) (by decide) 2 0 0
    (by decide)).2.1

/-! ### Lemmas about the id index (association list) -/

theorem mapLookup_insert_self (m : OrderMap) (i : Nat) (o : Order) :
    mapLookup (mapInsert m i o) i = some o := by
  induction m with
  | nil => simp [mapInsert, mapLookup]
  | cons e rest ih =>
    obtain ⟨j, p⟩ := e
    by_cases h : j = i <;> simp [mapInsert, mapLookup, h, ih]

theorem mapLookup_insert_ne (m : OrderMap) {i j : Nat} (o : Order)
    (h : j ≠ i) : mapLookup (mapInsert m i o) j = mapLookup m j := by
  induction m with
  | nil =>
    simp only [mapInsert, mapLookup]
    rw [if_neg (fun he => h he.symm)]
  | cons e rest ih =>
    obtain ⟨k, p⟩ := e
    by_cases hk : k = i
    · subst hk
      rw [mapInsert, if_pos rfl]
      unfold mapLookup
      rw [if_neg (fun he => h he.symm), if_neg (fun he => h he.symm)]
    · rw [mapInsert, if_neg hk, mapLookup, mapLookup]
      by_cases hkj : k = j
      · rw [if_pos hkj, if_pos hkj]
      · rw [if_neg hkj, if_neg hkj]
        exact ih

theorem length_mapInsert_none (m : OrderMap) (i : Nat) (o : Order)
    (h : mapLookup m i = none) :
    (mapInsert m i o).length = m.length + 1 := by
  induction m with
  | nil => rfl
  | cons e rest ih =>
    obtain ⟨j, p⟩ := e
    by_cases hj : j = i
    · rw [mapLookup, if_pos hj] at h
      exact absurd h (by simp)
    · rw [mapLookup, if_neg hj] at h
      simp [mapInsert, hj, ih h]

theorem length_mapInsert_some (m : OrderMap) (i : Nat) (o x : Order)
    (h : mapLookup m i = some x) :
    (mapInsert m i o).length = m.length := by
  induction m with
  | nil => simp [mapLookup] at h
  | cons e rest ih =>
    obtain ⟨j, p⟩ := e
    by_cases hj : j = i
    · simp [mapInsert, hj]
    · rw [mapLookup, if_neg hj] at h
      simp [mapInsert, hj, ih h]

theorem mapLookup_erase_ne (m : OrderMap) {i j : Nat} (h : j ≠ i) :
    mapLookup (mapErase m i) j = mapLookup m j := by
  induction m with
  | nil => rfl
  | cons e rest ih =>
    obtain ⟨k, p⟩ := e
    by_cases hk : k = i
    · subst hk
      rw [mapErase, if_pos rfl, mapLookup, if_neg (fun he => h he.symm)]
    · rw [mapErase, if_neg hk, mapLookup, mapLookup]
      by_cases hkj : k = j
      · rw [if_pos hkj, if_pos hkj]
      · rw [if_neg hkj, if_neg hkj]
        exact ih

theorem mapLookup_eq_none_of_not_mem (m : OrderMap) (i : Nat)
    (h : i ∉ m.map Prod.fst) : mapLookup m i = none := by
  induction m with
  | nil => rfl
  | cons e rest ih =>
    obtain ⟨j, p⟩ := e
    simp only [List.map_cons, List.mem_cons] at h
    push_neg at h
    rw [mapLookup, if_neg (fun he => h.1 he.symm)]
    exact ih h.2

theorem mem_of_mapLookup_some {m : OrderMap} {i : Nat} {o : Order}
    (h : mapLookup m i = some o) : i ∈ m.map Prod.fst := by
  induction m with
  | nil => simp [mapLookup] at h
  | cons e rest ih =>
    obtain ⟨j, p⟩ := e
    by_cases hj : j = i
    · simp [hj]
    · rw [mapLookup, if_neg hj] at h
      simp [ih h]

theorem mapLookup_erase_self (m : OrderMap) (i : Nat)
    (hnd : (m.map Prod.fst).Nodup) : mapLookup (mapErase m i) i = none := by
  induction m with
  | nil => rfl
  | cons e rest ih =>
    obtain ⟨j, p⟩ := e
    simp only [List.map_cons, List.nodup_cons] at hnd
    by_cases hj : j = i
    · subst hj
      rw [mapErase, if_pos rfl]
      exact mapLookup_eq_none_of_not_mem rest j hnd.1
    · rw [mapErase, if_neg hj, mapLookup, if_neg hj]
      exact ih hnd.2

theorem length_mapErase_some (m : OrderMap) (i : Nat) (x : Order)
    (h : mapLookup m i = some x) :
    (mapErase m i).length + 1 = m.length := by
  induction m with
  | nil => simp [mapLookup] at h
  | cons e rest ih =>
    obtain ⟨j, p⟩ := e
    by_cases hj : j = i
    · simp [mapErase, hj]
    · rw [mapLookup, if_neg hj] at h
      simp [mapErase, hj, ih h]

theorem keys_mapErase_sublist (m : OrderMap) (i : Nat) :
    ((mapErase m i).map Prod.fst).Sublist (m.map Prod.fst) := by
  induction m with
  | nil => simp [mapErase]
  | cons e rest ih =>
    obtain ⟨j, p⟩ := e
    by_cases hj : j = i
    · simp [mapErase, hj]
    · simp [mapErase, hj]
      exact ih

theorem keys_mapInsert_some (m : OrderMap) (i : Nat) (o x : Order)
    (h : mapLookup m i = some x) :
    (mapInsert m i o).map Prod.fst = m.map Prod.fst := by
  induction m with
  | nil => simp [mapLookup] at h
  | cons e rest ih =>
    obtain ⟨j, p⟩ := e
    by_cases hj : j = i
    · simp [mapInsert, hj]
    · rw [mapLookup, if_neg hj] at h
      simp [mapInsert, hj, ih h]

theorem keys_mapInsert_none (m : OrderMap) (i : Nat) (o : Order)
    (h : mapLookup m i = none) :
    (mapInsert m i o).map Prod.fst = m.map Prod.fst ++ [i] := by
  induction m with
  | nil => rfl
  | cons e rest ih =>
    obtain ⟨j, p⟩ := e
    by_cases hj : j = i
    · rw [mapLookup, if_pos hj] at h
      exact absurd h (by simp)
    · rw [mapLookup, if_neg hj] at h
      simp [mapInsert, hj, ih h]

/-! ### Lemmas about the price-level lists -/

theorem length_updateLevel (lvls : List PriceLevel) (p : Int)
    (f : PriceLevel → PriceLevel) :
    (updateLevel lvls p f).length = lvls.length := by
  simp [updateLevel]

theorem findLevel_nil (p : Int) : findLevel [] p = none := rfl

theorem price_eq_of_findLevel_some {lvls : List PriceLevel} {p : Int}
    {l : PriceLevel} (h : findLevel lvls p = some l) : l.price = p := by
  have := List.find?_some h
  simpa using this

theorem mem_of_findLevel_some {lvls : List PriceLevel} {p : Int}
    {l : PriceLevel} (h : findLevel lvls p = some l) : l ∈ lvls :=
  List.mem_of_find?_eq_some h

theorem findLevel_eq_none_iff {lvls : List PriceLevel} {p : Int} :
    findLevel lvls p = none ↔ ∀ l ∈ lvls, l.price ≠ p := by
  unfold findLevel
  rw [List.find?_eq_none]
  simp

theorem findLevel_updateLevel_self {lvls : List PriceLevel} {p : Int}
    {l : PriceLevel} (f : PriceLevel → PriceLevel)
    (hf : findLevel lvls p = some l) (hp : (f l).price = l.price) :
    findLevel (updateLevel lvls p f) p = some (f l) := by
  induction lvls with
  | nil => simp [findLevel] at hf
  | cons x xs ih =>
    by_cases hx : x.price = p
    · rw [findLevel, List.find?_cons_of_pos _ (by simp [hx])] at hf
      injection hf with hf
      subst hf
      rw [updateLevel, List.map_cons, if_pos hx, findLevel,
        List.find?_cons_of_pos _ (by simp [hp, hx])]
    · rw [findLevel, List.find?_cons_of_neg _ (by simp [hx])] at hf
      rw [updateLevel, List.map_cons, if_neg hx, findLevel,
        List.find?_cons_of_neg _ (by simp [hx])]
      exact ih hf

theorem findLevel_updateLevel_ne {lvls : List PriceLevel} {p p' : Int}
    (f : PriceLevel → PriceLevel) (hne : p' ≠ p)
    (hf : ∀ l, (f l).price = l.price) :
    findLevel (updateLevel lvls p f) p' = findLevel lvls p' := by
  induction lvls with
  | nil => rfl
  | cons x xs ih =>
    by_cases hx : x.price = p
    · have hxp : x.price ≠ p' := by rw [hx]; exact fun he => hne he.symm
      rw [updateLevel, List.map_cons, if_pos hx, findLevel,
        List.find?_cons_of_neg _ (by simp [hf x, hxp]), findLevel,
        List.find?_cons_of_neg _ (by simp [hxp])]
      exact ih
    · rw [updateLevel, List.map_cons, if_neg hx]
      by_cases hx' : x.price = p'
      · rw [findLevel, List.find?_cons_of_pos _ (by simp [hx']), findLevel,
          List.find?_cons_of_pos _ (by simp [hx'])]
      · rw [findLevel, List.find?_cons_of_neg _ (by simp [hx']), findLevel,
          List.find?_cons_of_neg _ (by simp [hx'])]
        exact ih

theorem eraseLevel_of_findLevel_none {lvls : List PriceLevel} {p : Int}
    (h : findLevel lvls p = none) : eraseLevel lvls p = lvls := by
  rw [findLevel_eq_none_iff] at h
  unfold eraseLevel
  rw [List.filter_eq_self]
  intro l hl
  simpa using h l hl

theorem length_eraseLevel_some {lvls : List PriceLevel} {p : Int}
    {l : PriceLevel} (hp : (lvls.map PriceLevel.price).Nodup)
    (hf : findLevel lvls p = some l) :
    (eraseLevel lvls p).length + 1 = lvls.length := by
  induction lvls with
  | nil => simp [findLevel] at hf
  | cons x xs ih =>
    simp only [List.map_cons, List.nodup_cons] at hp
    by_cases hx : x.price = p
    · have hnone : findLevel xs p = none := by
        rw [findLevel_eq_none_iff]
        intro l' hl' he
        exact hp.1 (by rw [← hx] at he; rw [← he]; exact List.mem_map_of_mem _ hl')
      rw [eraseLevel, List.filter_cons_of_neg (by simp [hx])]
      have := eraseLevel_of_findLevel_none hnone
      rw [eraseLevel] at this
      rw [this]
      simp
    · rw [findLevel, List.find?_cons_of_neg _ (by simp [hx])] at hf
      rw [eraseLevel, List.filter_cons_of_pos (by simp [hx])]
      simp only [List.length_cons]
      rw [← ih hp.2 hf]
      rfl

theorem findLevel_eraseLevel_ne {lvls : List PriceLevel} {p p' : Int}
    (hne : p' ≠ p) :
    findLevel (eraseLevel lvls p) p' = findLevel lvls p' := by
  induction lvls with
  | nil => rfl
  | cons x xs ih =>
    unfold eraseLevel at ih ⊢
    rw [List.filter_cons]
    by_cases hx : x.price = p
    · rw [if_neg (by simp [hx])]
      unfold findLevel
      unfold findLevel at ih
      rw [List.find?_cons_of_neg _ (by simp [hx]; exact fun he => hne he.symm)]
      exact ih
    · rw [if_pos (by simp [hx])]
      unfold findLevel
      unfold findLevel at ih
      by_cases hx' : x.price = p'
      · rw [List.find?_cons_of_pos _ (by simp [hx']),
          List.find?_cons_of_pos _ (by simp [hx'])]
      · rw [List.find?_cons_of_neg _ (by simp [hx']),
          List.find?_cons_of_neg _ (by simp [hx'])]
        exact ih

theorem length_insertLevelDesc (lvls : List PriceLevel) (l : PriceLevel) :
    (insertLevelDesc lvls l).length = lvls.length + 1 := by
  induction lvls with
  | nil => rfl
  | cons x xs ih =>
    rw [insertLevelDesc]
    by_cases h : x.price < l.price <;> simp [h, ih]

theorem length_insertLevelAsc (lvls : List PriceLevel) (l : PriceLevel) :
    (insertLevelAsc lvls l).length = lvls.length + 1 := by
  induction lvls with
  | nil => rfl
  | cons x xs ih =>
    rw [insertLevelAsc]
    by_cases h : l.price < x.price <;> simp [h, ih]

theorem findLevel_insertLevelDesc_self {lvls : List PriceLevel}
    {l : PriceLevel} (h : findLevel lvls l.price = none) :
    findLevel (insertLevelDesc lvls l) l.price = some l := by
  induction lvls with
  | nil => simp [insertLevelDesc, findLevel]
  | cons x xs ih =>
    rw [findLevel_eq_none_iff] at h
    have hx : x.price ≠ l.price := h x (by simp)
    rw [insertLevelDesc]
    by_cases hlt : x.price < l.price
    · rw [if_pos hlt, findLevel, List.find?_cons_of_pos _ (by simp)]
    · rw [if_neg hlt, findLevel, List.find?_cons_of_neg _ (by simp [hx])]
      exact ih (by rw [findLevel_eq_none_iff]; intro l' hl'; exact h l' (by simp [hl']))

theorem findLevel_insertLevelAsc_self {lvls : List PriceLevel}
    {l : PriceLevel} (h : findLevel lvls l.price = none) :
    findLevel (insertLevelAsc lvls l) l.price = some l := by
  induction lvls with
  | nil => simp [insertLevelAsc, findLevel]
  | cons x xs ih =>
    rw [findLevel_eq_none_iff] at h
    have hx : x.price ≠ l.price := h x (by simp)
    rw [insertLevelAsc]
    by_cases hlt : l.price < x.price
    · rw [if_pos hlt, findLevel, List.find?_cons_of_pos _ (by simp)]
    · rw [if_neg hlt, findLevel, List.find?_cons_of_neg _ (by simp [hx])]
      exact ih (by rw [findLevel_eq_none_iff]; intro l' hl'; exact h l' (by simp [hl']))

theorem eraseLevel_insertLevelDesc {lvls : List PriceLevel}
    {l : PriceLevel} (h : findLevel lvls l.price = none) :
    eraseLevel (insertLevelDesc lvls l) l.price = lvls := by
  induction lvls with
  | nil => simp [insertLevelDesc, eraseLevel]
  | cons x xs ih =>
    rw [findLevel_eq_none_iff] at h
    have hx : x.price ≠ l.price := h x (by simp)
    rw [insertLevelDesc]
    by_cases hlt : x.price < l.price
    · rw [if_pos hlt, eraseLevel, List.filter_cons_of_neg (by simp),
        List.filter_cons_of_pos (by simp [hx])]
      have : findLevel xs l.price = none := by
        rw [findLevel_eq_none_iff]; intro l' hl'; exact h l' (by simp [hl'])
      have h2 := eraseLevel_of_findLevel_none this
      rw [eraseLevel] at h2
      rw [h2]
    · rw [if_neg hlt, eraseLevel, List.filter_cons_of_pos (by simp [hx])]
      have h2 := ih (by rw [findLevel_eq_none_iff]; intro l' hl'; exact h l' (by simp [hl']))
      rw [eraseLevel] at h2
      rw [h2]

theorem eraseLevel_insertLevelAsc {lvls : List PriceLevel}
    {l : PriceLevel} (h : findLevel lvls l.price = none) :
    eraseLevel (insertLevelAsc lvls l) l.price = lvls := by
  induction lvls with
  | nil => simp [insertLevelAsc, eraseLevel]
  | cons x xs ih =>
    rw [findLevel_eq_none_iff] at h
    have hx : x.price ≠ l.price := h x (by simp)
    rw [insertLevelAsc]
    by_cases hlt : l.price < x.price
    · rw [if_pos hlt, eraseLevel, List.filter_cons_of_neg (by simp),
        List.filter_cons_of_pos (by simp [hx])]
      have : findLevel xs l.price = none := by
        rw [findLevel_eq_none_iff]; intro l' hl'; exact h l' (by simp [hl'])
      have h2 := eraseLevel_of_findLevel_none this
      rw [eraseLevel] at h2
      rw [h2]
    · rw [if_neg hlt, eraseLevel, List.filter_cons_of_pos (by simp [hx])]
      have h2 := ih (by rw [findLevel_eq_none_iff]; intro l' hl'; exact h l' (by simp [hl']))
      rw [eraseLevel] at h2
      rw [h2]

/-! ### Frame lemmas for addToBook / removeFromBook -/

theorem orderMap_addToBook (b : OrderBook) (o : Order) :
    (b.addToBook o).orderMap = b.orderMap := by
  unfold OrderBook.addToBook
  cases o.side
  · cases findLevel b.bids o.price <;> rfl
  · cases findLevel b.asks o.price <;> rfl

theorem orderMap_removeFromBook (b : OrderBook) (o : Order) :
    (b.removeFromBook o).orderMap = b.orderMap := by
  unfold OrderBook.removeFromBook
  cases o.side
  · cases findLevel b.bids o.price
    · rfl
    · dsimp only
      split <;> rfl
  · cases findLevel b.asks o.price
    · rfl
    · dsimp only
      split <;> rfl

theorem asks_addToBook_buy (b : OrderBook) (o : Order) (h : o.side = Side.BUY) :
    (b.addToBook o).asks = b.asks := by
  unfold OrderBook.addToBook
  rw [h]
  cases findLevel b.bids o.price <;> rfl

theorem bids_addToBook_sell (b : OrderBook) (o : Order) (h : o.side = Side.SELL) :
    (b.addToBook o).bids = b.bids := by
  unfold OrderBook.addToBook
  rw [h]
  cases findLevel b.asks o.price <;> rfl

theorem asks_removeFromBook_buy (b : OrderBook) (o : Order) (h : o.side = Side.BUY) :
    (b.removeFromBook o).asks = b.asks := by
  unfold OrderBook.removeFromBook
  rw [h]
  cases findLevel b.bids o.price
  · rfl
  · dsimp only
    split <;> rfl

theorem bids_removeFromBook_sell (b : OrderBook) (o : Order) (h : o.side = Side.SELL) :
    (b.removeFromBook o).bids = b.bids := by
  unfold OrderBook.removeFromBook
  rw [h]
  cases findLevel b.asks o.price
  · rfl
  · dsimp only
    split <;> rfl

theorem prices_nodup_of_sorted_desc {lvls : List PriceLevel}
    (h : List.Pairwise (fun l1 l2 => l2.price < l1.price) lvls) :
    (lvls.map PriceLevel.price).Nodup := by
  unfold List.Nodup
  rw [List.pairwise_map]
  exact h.imp (fun hab => ne_of_gt hab)

theorem prices_nodup_of_sorted_asc {lvls : List PriceLevel}
    (h : List.Pairwise (fun l1 l2 => l1.price < l2.price) lvls) :
    (lvls.map PriceLevel.price).Nodup := by
  unfold List.Nodup
  rw [List.pairwise_map]
  exact h.imp (fun hab => ne_of_lt hab)

theorem removeOrder_addOrder_self (l : PriceLevel) (o : Order)
    (h : o.id ∉ l.orders) :
    (l.addOrder o).removeOrder o =
      { l with totalQuantity :=
          sub32 ((l.totalQuantity + o.getRemainingQty) % W) o.getRemainingQty } := by
  unfold PriceLevel.addOrder PriceLevel.removeOrder
  dsimp only
  rw [if_pos (by simp), List.erase_append_right _ h, List.erase_cons_head,
    List.append_nil]

/-- Adding an order to its side's level structure and immediately
removing it restores the level counts (and, when the level was created
by the add, the exact level lists). -/
theorem levels_add_remove (b : OrderBook) (o : Order)
    (hbne : ∀ l ∈ b.bids, l.orders ≠ [])
    (hane : ∀ l ∈ b.asks, l.orders ≠ [])
    (hbni : ∀ l ∈ b.bids, o.id ∉ l.orders)
    (hani : ∀ l ∈ b.asks, o.id ∉ l.orders) :
    ((b.addToBook o).removeFromBook o).bids.length = b.bids.length ∧
    ((b.addToBook o).removeFromBook o).asks.length = b.asks.length := by
  cases hs : o.side
  case BUY =>
    refine ⟨?_, by rw [asks_removeFromBook_buy _ _ hs, asks_addToBook_buy _ _ hs]⟩
    unfold OrderBook.addToBook
    rw [hs]
    cases hfind : findLevel b.bids o.price with
    | some lvl =>
      dsimp only
      unfold OrderBook.removeFromBook
      rw [hs]
      dsimp only
      rw [findLevel_updateLevel_self (fun l => l.addOrder o) hfind rfl]
      dsimp only
      have hni : o.id ∉ lvl.orders := hbni lvl (mem_of_findLevel_some hfind)
      have hne : ((lvl.addOrder o).removeOrder o).isEmpty = false := by
        rw [removeOrder_addOrder_self lvl o hni]
        show lvl.orders.isEmpty = false
        cases hlo : lvl.orders with
        | nil => exact absurd hlo (hbne lvl (mem_of_findLevel_some hfind))
        | cons a as => rfl
      rw [hne]
      rw [if_neg (by simp)]
      dsimp only
      rw [length_updateLevel, length_updateLevel]
    | none =>
      unfold OrderBook.removeFromBook
      rw [hs]
      have hfind2 : findLevel b.bids ((PriceLevel.addOrder { price := o.price, totalQuantity := 0, orders := [] } o).price) = none := hfind
      have hfl2 : findLevel (insertLevelDesc b.bids (PriceLevel.addOrder { price := o.price, totalQuantity := 0, orders := [] } o)) o.price = some (PriceLevel.addOrder { price := o.price, totalQuantity := 0, orders := [] } o) := findLevel_insertLevelDesc_self hfind2
      rw [hfl2]
      dsimp only
      have hemp : ((PriceLevel.addOrder { price := o.price, totalQuantity := 0, orders := [] } o).removeOrder o).isEmpty = true := by
        rw [removeOrder_addOrder_self _ o (by simp)]
        rfl
      rw [if_pos hemp]
      dsimp only
      have her2 : eraseLevel (insertLevelDesc b.bids (PriceLevel.addOrder { price := o.price, totalQuantity := 0, orders := [] } o)) o.price = b.bids := eraseLevel_insertLevelDesc hfind2
      rw [her2]
  case SELL =>
    refine ⟨by rw [bids_removeFromBook_sell _ _ hs, bids_addToBook_sell _ _ hs], ?_⟩
    unfold OrderBook.addToBook
    rw [hs]
    cases hfind : findLevel b.asks o.price with
    | some lvl =>
      dsimp only
      unfold OrderBook.removeFromBook
      rw [hs]
      dsimp only
      rw [findLevel_updateLevel_self (fun l => l.addOrder o) hfind rfl]
      dsimp only
      have hni : o.id ∉ lvl.orders := hani lvl (mem_of_findLevel_some hfind)
      have hne : ((lvl.addOrder o).removeOrder o).isEmpty = false := by
        rw [removeOrder_addOrder_self lvl o hni]
        show lvl.orders.isEmpty = false
        cases hlo : lvl.orders with
        | nil => exact absurd hlo (hane lvl (mem_of_findLevel_some hfind))
        | cons a as => rfl
      rw [hne]
      rw [if_neg (by simp)]
      dsimp only
      rw [length_updateLevel, length_updateLevel]
    | none =>
      unfold OrderBook.removeFromBook
      rw [hs]
      have hfind2 : findLevel b.asks ((PriceLevel.addOrder { price := o.price, totalQuantity := 0, orders := [] } o).price) = none := hfind
      have hfl2 : findLevel (insertLevelAsc b.asks (PriceLevel.addOrder { price := o.price, totalQuantity := 0, orders := [] } o)) o.price = some (PriceLevel.addOrder { price := o.price, totalQuantity := 0, orders := [] } o) := findLevel_insertLevelAsc_self hfind2
      rw [hfl2]
      dsimp only
      have hemp : ((PriceLevel.addOrder { price := o.price, totalQuantity := 0, orders := [] } o).removeOrder o).isEmpty = true := by
        rw [removeOrder_addOrder_self _ o (by simp)]
        rfl
      rw [if_pos hemp]
      dsimp only
      have her2 : eraseLevel (insertLevelAsc b.asks (PriceLevel.addOrder { price := o.price, totalQuantity := 0, orders := [] } o)) o.price = b.asks := eraseLevel_insertLevelAsc hfind2
      rw [her2]

/-- C5 counterexample: on an empty book, `addOrder` of a fresh NEW order
followed immediately by `cancelOrder` of its id leaves
`getTotalOrderCount() = 1`, not the 0 it was before the add: the
cancelled record is retained in the id index. -/
theorem add_cancel_count_cex :
    emptyBook.getTotalOrderCount = 0 ∧
      (((emptyBook.addOrder (mkOrder 1 Side.BUY OrderType.LIMIT 100 10)).2.cancelOrder 1).2.getTotalOrderCount = 1) := by
  decide

/-- C5 (amended): on a well-formed book, `addOrder` of an active order
with a fresh id followed immediately by `cancelOrder` of that id
restores `getBidLevelCount()` and `getAskLevelCount()` to their values
before the add, but leaves `getTotalOrderCount()` one greater than
before: `cancelOrder` removes the order from its price level yet retains
the CANCELLED record in the id index. -/
theorem add_cancel_roundtrip (b : OrderBook) (o : Order) (hwf : b.WF)
    (hact : o.isActive = true)
    (hfresh : mapLookup b.orderMap o.id = none) :
    ((((b.addOrder o).2).cancelOrder o.id).2).getBidLevelCount = b.getBidLevelCount ∧
    ((((b.addOrder o).2).cancelOrder o.id).2).getAskLevelCount = b.getAskLevelCount ∧
    ((((b.addOrder o).2).cancelOrder o.id).2).getTotalOrderCount = b.getTotalOrderCount + 1 := by
  obtain ⟨hbs, has, hbl, hal, hdisj, hkeys⟩ := hwf
  have hadd : (b.addOrder o).2 =
      OrderBook.addToBook { b with orderMap := mapInsert b.orderMap o.id o } o := by
    unfold OrderBook.addOrder
    rw [hfresh]
  have hmapeq : ((b.addOrder o).2).orderMap = mapInsert b.orderMap o.id o := by
    rw [hadd, orderMap_addToBook]
  have hlook : mapLookup ((b.addOrder o).2).orderMap o.id = some o := by
    rw [hmapeq]
    exact mapLookup_insert_self _ _ _
  have hcanc : ((b.addOrder o).2.cancelOrder o.id).2 =
      { ((b.addOrder o).2.removeFromBook o) with
          orderMap := mapInsert (((b.addOrder o).2.removeFromBook o)).orderMap o.id o.cancel } := by
    unfold OrderBook.cancelOrder
    rw [hlook]
    dsimp only
    rw [hact]
    rw [if_neg (by simp)]
  have hbne : ∀ l ∈ b.bids, l.orders ≠ [] := fun l hl => (hbl l hl).1
  have hane : ∀ l ∈ b.asks, l.orders ≠ [] := fun l hl => (hal l hl).1
  have hbni : ∀ l ∈ b.bids, o.id ∉ l.orders := by
    intro l hl hmem
    have hb := (hbl l hl).2.2.2.2 o.id hmem
    rw [hfresh] at hb
    exact hb
  have hani : ∀ l ∈ b.asks, o.id ∉ l.orders := by
    intro l hl hmem
    have hb := (hal l hl).2.2.2.2 o.id hmem
    rw [hfresh] at hb
    exact hb
  have hlar := levels_add_remove { b with orderMap := mapInsert b.orderMap o.id o } o
    hbne hane hbni hani
  refine ⟨?_, ?_, ?_⟩
  · rw [hcanc]
    unfold OrderBook.getBidLevelCount
    dsimp only
    rw [hadd]
    exact hlar.1
  · rw [hcanc]
    unfold OrderBook.getAskLevelCount
    dsimp only
    rw [hadd]
    exact hlar.2
  · rw [hcanc]
    unfold OrderBook.getTotalOrderCount
    dsimp only
    rw [hadd]
    have hm2 : ((OrderBook.addToBook { b with orderMap := mapInsert b.orderMap o.id o } o).removeFromBook o).orderMap
        = mapInsert b.orderMap o.id o := by
      rw [orderMap_removeFromBook, orderMap_addToBook]
    rw [hm2]
    rw [length_mapInsert_some _ _ _ o (mapLookup_insert_self _ _ _)]
    exact length_mapInsert_none _ _ _ hfresh

/-- C5 witness: concrete instantiation on the empty book; the level
counts return to 0 while the order count ends at 1. -/
theorem add_cancel_roundtrip_witness :
    ((((emptyBook.addOrder (mkOrder 1 Side.BUY OrderType.LIMIT 100 10)).2).cancelOrder
        (mkOrder 1 Side.BUY OrderType.LIMIT 100 10).id).2).getTotalOrderCount =
      emptyBook.getTotalOrderCount + 1 :=
  (add_cancel_roundtrip emptyBook (mkOrder 1 Side.BUY OrderType.LIMIT 100 10)
    (by decide) (by decide) (by decide)).2.2

theorem sumRemaining_nil (m : OrderMap) : sumRemaining m [] = 0 := rfl

theorem sumRemaining_cons (m : OrderMap) (i : Nat) (ids : List Nat) :
    sumRemaining m (i :: ids) = remOf m i + sumRemaining m ids := by
  simp [sumRemaining]

theorem remOf_le_sumRemaining (m : OrderMap) {i : Nat} {ids : List Nat}
    (h : i ∈ ids) : remOf m i ≤ sumRemaining m ids := by
  induction ids with
  | nil => simp at h
  | cons x xs ih =>
    rw [sumRemaining_cons]
    rcases List.mem_cons.mp h with he | hm
    · subst he
      exact Nat.le_add_right _ _
    · exact le_trans (ih hm) (Nat.le_add_left _ _)

theorem findLevel_eraseLevel_self (lvls : List PriceLevel) (p : Int) :
    findLevel (eraseLevel lvls p) p = none := by
  induction lvls with
  | nil => rfl
  | cons x xs ih =>
    unfold eraseLevel at ih ⊢
    rw [List.filter_cons]
    by_cases hx : x.price = p
    · rw [if_neg (by simp [hx])]
      exact ih
    · rw [if_pos (by simp [hx])]
      unfold findLevel at ih ⊢
      rw [List.find?_cons_of_neg _ (by simp [hx])]
      exact ih

theorem sub32_add_cancel {a r : Nat} (ha : a < W) (hr : r ≤ a) :
    (sub32 a r + r) % W = a := by
  unfold sub32 W
  unfold W at ha
  omega

theorem add_sub32_zero {t r : Nat} (ht : t < W) (hr : r ≤ t) :
    (t + sub32 0 r) % W = t - r := by
  unfold sub32 W
  unfold W at ht
  omega

/-- C9: on a well-formed book, `modifyOrderQuantity(id, filled)` on a
resident active order succeeds, marks the order FILLED in place, reduces
the level's cached total by the old remaining quantity, and leaves the
zero-remaining FILLED order resident in its level's FIFO and in the id
index (total order count unchanged) — whereas `fillQuantityAtPrice`
consuming the order's remaining quantity (here: the singleton-level
case) removes it from both the level and the id index. -/
theorem modify_qty_to_filled (b : OrderBook) (o : Order) (hwf : b.WF)
    (hlook : mapLookup b.orderMap o.id = some o) (hact : o.isActive = true)
    (lvl : PriceLevel)
    (hfind : findLevel (match o.side with | Side.BUY => b.bids | Side.SELL => b.asks) o.price = some lvl)
    (hmem : o.id ∈ lvl.orders) :
    (b.modifyOrderQuantity o.id o.filledQty).1 = true ∧
    mapLookup ((b.modifyOrderQuantity o.id o.filledQty).2).orderMap o.id =
      some { o with quantity := o.filledQty, status := OrderStatus.FILLED } ∧
    ((b.modifyOrderQuantity o.id o.filledQty).2).getTotalOrderCount = b.getTotalOrderCount ∧
    findLevel (match o.side with | Side.BUY => ((b.modifyOrderQuantity o.id o.filledQty).2).bids | Side.SELL => ((b.modifyOrderQuantity o.id o.filledQty).2).asks) o.price =
      some { price := lvl.price, totalQuantity := lvl.totalQuantity - o.getRemainingQty, orders := lvl.orders } ∧
    (lvl.orders = [o.id] → 0 < o.getRemainingQty →
      mapLookup ((b.fillQuantityAtPrice o.side o.price o.getRemainingQty).2).orderMap o.id = none ∧
      findLevel (match o.side with | Side.BUY => ((b.fillQuantityAtPrice o.side o.price o.getRemainingQty).2).bids | Side.SELL => ((b.fillQuantityAtPrice o.side o.price o.getRemainingQty).2).asks) o.price = none) := by
  obtain ⟨hbs, has, hbl, hal, hdisj, hkeys⟩ := hwf
  have hmq : o.modifyQuantity o.filledQty =
      (true, { o with quantity := o.filledQty, status := OrderStatus.FILLED }) := by
    unfold Order.modifyQuantity
    rw [if_neg (by omega), if_pos rfl]
  have hrz : ({ o with quantity := o.filledQty, status := OrderStatus.FILLED } : Order).getRemainingQty = 0 := sub32_self
  cases hs : o.side
  case BUY =>
    rw [hs] at hfind
    dsimp only at hfind
    have hlwf : LevelWF b.orderMap Side.BUY lvl := hbl lvl (mem_of_findLevel_some hfind)
    have howf : o.WF := by
      have hb := hlwf.2.2.2.2 o.id hmem
      rw [hlook] at hb
      exact hb.2.2.2
    have hrle : o.getRemainingQty ≤ lvl.totalQuantity := by
      rw [hlwf.2.2.1]
      have hro : remOf b.orderMap o.id = o.getRemainingQty := by
        unfold remOf
        rw [hlook]
      rw [← hro]
      exact remOf_le_sumRemaining _ hmem
    have heval : b.modifyOrderQuantity o.id o.filledQty =
        (true, { b with
            orderMap := mapInsert b.orderMap o.id { id := o.id, side := Side.BUY, type := o.type, price := o.price, quantity := o.filledQty, filledQty := o.filledQty, status := OrderStatus.FILLED },
            bids := updateLevel b.bids o.price (fun l => { l with totalQuantity := (l.totalQuantity + sub32 0 o.getRemainingQty) % W }) }) := by
      unfold OrderBook.modifyOrderQuantity
      rw [hlook]
      dsimp only
      rw [hact]
      rw [if_neg (by simp)]
      rw [hmq]
      dsimp only
      rw [hrz, hs]
    rw [heval]
    dsimp only
    refine ⟨rfl, mapLookup_insert_self _ _ _, ?_, ?_, ?_⟩
    · unfold OrderBook.getTotalOrderCount
      dsimp only
      exact length_mapInsert_some _ _ _ o hlook
    · rw [findLevel_updateLevel_self _ hfind rfl]
      rw [add_sub32_zero hlwf.2.2.2.1 hrle]
    · intro hsing hpos
      have hloop : fillLoop b.orderMap o.getRemainingQty [o.id] =
          (o.getRemainingQty, [], mapErase b.orderMap o.id) := by
        unfold fillLoop
        rw [if_neg (by omega)]
        rw [hlook]
        dsimp only
        rw [Nat.min_self]
        have hfz : ((o.fill o.getRemainingQty).2).getRemainingQty = 0 := by
          rw [remaining_eq howf, fill_eq howf (le_refl _)]
          unfold Order.getRemainingQty
          dsimp only
          have hq : o.filledQty + (o.quantity - o.filledQty) = o.quantity := by
            have := howf.1
            omega
          rw [hq]
          exact sub32_self
        rw [hfz]
        rw [if_pos rfl]
        unfold fillLoop
        rfl
      have hfill : b.fillQuantityAtPrice Side.BUY o.price o.getRemainingQty =
          (o.getRemainingQty, { b with bids := eraseLevel b.bids o.price, orderMap := mapErase b.orderMap o.id }) := by
        unfold OrderBook.fillQuantityAtPrice
        rw [hfind]
        dsimp only
        rw [hsing, hloop]
        dsimp only
        rw [if_pos (Or.inr rfl)]
      rw [hfill]
      dsimp only
      exact ⟨mapLookup_erase_self _ _ hkeys, findLevel_eraseLevel_self _ _⟩
  case SELL =>
    rw [hs] at hfind
    dsimp only at hfind
    have hlwf : LevelWF b.orderMap Side.SELL lvl := hal lvl (mem_of_findLevel_some hfind)
    have howf : o.WF := by
      have hb := hlwf.2.2.2.2 o.id hmem
      rw [hlook] at hb
      exact hb.2.2.2
    have hrle : o.getRemainingQty ≤ lvl.totalQuantity := by
      rw [hlwf.2.2.1]
      have hro : remOf b.orderMap o.id = o.getRemainingQty := by
        unfold remOf
        rw [hlook]
      rw [← hro]
      exact remOf_le_sumRemaining _ hmem
    have heval : b.modifyOrderQuantity o.id o.filledQty =
        (true, { b with
            orderMap := mapInsert b.orderMap o.id { id := o.id, side := Side.SELL, type := o.type, price := o.price, quantity := o.filledQty, filledQty := o.filledQty, status := OrderStatus.FILLED },
            asks := updateLevel b.asks o.price (fun l => { l with totalQuantity := (l.totalQuantity + sub32 0 o.getRemainingQty) % W }) }) := by
      unfold OrderBook.modifyOrderQuantity
      rw [hlook]
      dsimp only
      rw [hact]
      rw [if_neg (by simp)]
      rw [hmq]
      dsimp only
      rw [hrz, hs]
    rw [heval]
    dsimp only
    refine ⟨rfl, mapLookup_insert_self _ _ _, ?_, ?_, ?_⟩
    · unfold OrderBook.getTotalOrderCount
      dsimp only
      exact length_mapInsert_some _ _ _ o hlook
    · rw [findLevel_updateLevel_self _ hfind rfl]
      rw [add_sub32_zero hlwf.2.2.2.1 hrle]
    · intro hsing hpos
      have hloop : fillLoop b.orderMap o.getRemainingQty [o.id] =
          (o.getRemainingQty, [], mapErase b.orderMap o.id) := by
        unfold fillLoop
        rw [if_neg (by omega)]
        rw [hlook]
        dsimp only
        rw [Nat.min_self]
        have hfz : ((o.fill o.getRemainingQty).2).getRemainingQty = 0 := by
          rw [remaining_eq howf, fill_eq howf (le_refl _)]
          unfold Order.getRemainingQty
          dsimp only
          have hq : o.filledQty + (o.quantity - o.filledQty) = o.quantity := by
            have := howf.1
            omega
          rw [hq]
          exact sub32_self
        rw [hfz]
        rw [if_pos rfl]
        unfold fillLoop
        rfl
      have hfill : b.fillQuantityAtPrice Side.SELL o.price o.getRemainingQty =
          (o.getRemainingQty, { b with asks := eraseLevel b.asks o.price, orderMap := mapErase b.orderMap o.id }) := by
        unfold OrderBook.fillQuantityAtPrice
        rw [hfind]
        dsimp only
        rw [hsing, hloop]
        dsimp only
        rw [if_pos (Or.inr rfl)]
      rw [hfill]
      dsimp only
      exact ⟨mapLookup_erase_self _ _ hkeys, findLevel_eraseLevel_self _ _⟩

/-- C9 witness: a concrete one-order book; shrinking the order's
quantity to its filled amount (4) succeeds and leaves the id-index size
unchanged at 1. -/
theorem modify_qty_to_filled_witness :
    ((OrderBook.modifyOrderQuantity ⟨[⟨100, 6, [1]⟩], [], [(1, ⟨1, Side.BUY, OrderType.LIMIT, 100, 10, 4, OrderStatus.PARTIAL⟩)]⟩ 1 4).2).getTotalOrderCount =
      (⟨[⟨100, 6, [1]⟩], [], [(1, ⟨1, Side.BUY, OrderType.LIMIT, 100, 10, 4, OrderStatus.PARTIAL⟩)]⟩ : OrderBook).getTotalOrderCount :=
  (modify_qty_to_filled
    ⟨[⟨100, 6, [1]⟩], [], [(1, ⟨1, Side.BUY, OrderType.LIMIT, 100, 10, 4, OrderStatus.PARTIAL⟩)]⟩
    ⟨1, Side.BUY, OrderType.LIMIT, 100, 10, 4, OrderStatus.PARTIAL⟩
    (by decide) (by decide) (by decide) ⟨100, 6, [1]⟩ (by decide) (by decide)).2.2.1

/-- C10: on a well-formed book, a failed `modifyOrderPrice` on a
partially filled order A standing at the front of its level (with B and
possibly others behind it) returns false, leaves the id index untouched,
and re-inserts A at the BACK of the same level's FIFO, behind B — losing
A's time priority although its price is unchanged.  The level's cached
total is restored exactly. -/
theorem failed_modify_price_moves_to_back (b : OrderBook) (oA : Order)
    (p' : Int) (hwf : b.WF)
    (hlook : mapLookup b.orderMap oA.id = some oA)
    (hact : oA.isActive = true) (hfill : 0 < oA.filledQty)
    (lvl : PriceLevel) (jB : Nat) (rest : List Nat)
    (hfind : findLevel (match oA.side with | Side.BUY => b.bids | Side.SELL => b.asks) oA.price = some lvl)
    (hord : lvl.orders = oA.id :: jB :: rest) :
    (b.modifyOrderPrice oA.id p').1 = false ∧
    ((b.modifyOrderPrice oA.id p').2).orderMap = b.orderMap ∧
    findLevel (match oA.side with | Side.BUY => ((b.modifyOrderPrice oA.id p').2).bids | Side.SELL => ((b.modifyOrderPrice oA.id p').2).asks) oA.price =
      some { price := lvl.price, totalQuantity := lvl.totalQuantity, orders := jB :: rest ++ [oA.id] } := by
  obtain ⟨hbs, has, hbl, hal, hdisj, hkeys⟩ := hwf
  have hmp : oA.modifyPrice p' = (false, oA) := by
    unfold Order.modifyPrice
    rw [if_pos (Or.inr hfill)]
  have hrm : lvl.removeOrder oA = { price := lvl.price, totalQuantity := sub32 lvl.totalQuantity oA.getRemainingQty, orders := jB :: rest } := by
    unfold PriceLevel.removeOrder
    rw [if_pos (by rw [hord]; exact List.mem_cons_self _ _)]
    rw [hord, List.erase_cons_head]
  cases hs : oA.side
  case BUY =>
    rw [hs] at hfind
    dsimp only at hfind
    have hlwf : LevelWF b.orderMap Side.BUY lvl := hbl lvl (mem_of_findLevel_some hfind)
    have hrle : oA.getRemainingQty ≤ lvl.totalQuantity := by
      rw [hlwf.2.2.1]
      have hro : remOf b.orderMap oA.id = oA.getRemainingQty := by
        unfold remOf
        rw [hlook]
      rw [← hro]
      exact remOf_le_sumRemaining _ (by rw [hord]; exact List.mem_cons_self _ _)
    have hremove : b.removeFromBook oA = { b with bids := updateLevel b.bids oA.price (fun _ => { price := lvl.price, totalQuantity := sub32 lvl.totalQuantity oA.getRemainingQty, orders := jB :: rest }) } := by
      unfold OrderBook.removeFromBook
      rw [hs]
      dsimp only
      rw [hfind]
      dsimp only
      rw [hrm]
      rw [if_neg (by simp [PriceLevel.isEmpty])]
    have heval : b.modifyOrderPrice oA.id p' = (false, (b.removeFromBook oA).addToBook oA) := by
      unfold OrderBook.modifyOrderPrice
      rw [hlook]
      dsimp only
      rw [hact]
      rw [if_neg (by simp)]
      rw [hmp]
    rw [heval]
    dsimp only
    refine ⟨rfl, ?_, ?_⟩
    · rw [orderMap_addToBook, orderMap_removeFromBook]
    · have hfind2 : findLevel ((b.removeFromBook oA).bids) oA.price = some { price := lvl.price, totalQuantity := sub32 lvl.totalQuantity oA.getRemainingQty, orders := jB :: rest } := by
        rw [hremove]
        dsimp only
        exact findLevel_updateLevel_self _ hfind rfl
      unfold OrderBook.addToBook
      rw [hs]
      dsimp only
      rw [hfind2]
      dsimp only
      rw [hremove]
      dsimp only
      rw [findLevel_updateLevel_self (fun l => l.addOrder oA)
        (findLevel_updateLevel_self _ hfind rfl) rfl]
      unfold PriceLevel.addOrder
      dsimp only
      rw [sub32_add_cancel hlwf.2.2.2.1 hrle]
  case SELL =>
    rw [hs] at hfind
    dsimp only at hfind
    have hlwf : LevelWF b.orderMap Side.SELL lvl := hal lvl (mem_of_findLevel_some hfind)
    have hrle : oA.getRemainingQty ≤ lvl.totalQuantity := by
      rw [hlwf.2.2.1]
      have hro : remOf b.orderMap oA.id = oA.getRemainingQty := by
        unfold remOf
        rw [hlook]
      rw [← hro]
      exact remOf_le_sumRemaining _ (by rw [hord]; exact List.mem_cons_self _ _)
    have hremove : b.removeFromBook oA = { b with asks := updateLevel b.asks oA.price (fun _ => { price := lvl.price, totalQuantity := sub32 lvl.totalQuantity oA.getRemainingQty, orders := jB :: rest }) } := by
      unfold OrderBook.removeFromBook
      rw [hs]
      dsimp only
      rw [hfind]
      dsimp only
      rw [hrm]
      rw [if_neg (by simp [PriceLevel.isEmpty])]
    have heval : b.modifyOrderPrice oA.id p' = (false, (b.removeFromBook oA).addToBook oA) := by
      unfold OrderBook.modifyOrderPrice
      rw [hlook]
      dsimp only
      rw [hact]
      rw [if_neg (by simp)]
      rw [hmp]
    rw [heval]
    dsimp only
    refine ⟨rfl, ?_, ?_⟩
    · rw [orderMap_addToBook, orderMap_removeFromBook]
    · have hfind2 : findLevel ((b.removeFromBook oA).asks) oA.price = some { price := lvl.price, totalQuantity := sub32 lvl.totalQuantity oA.getRemainingQty, orders := jB :: rest } := by
        rw [hremove]
        dsimp only
        exact findLevel_updateLevel_self _ hfind rfl
      unfold OrderBook.addToBook
      rw [hs]
      dsimp only
      rw [hfind2]
      dsimp only
      rw [hremove]
      dsimp only
      rw [findLevel_updateLevel_self (fun l => l.addOrder oA)
        (findLevel_updateLevel_self _ hfind rfl) rfl]
      unfold PriceLevel.addOrder
      dsimp only
      rw [sub32_add_cancel hlwf.2.2.2.1 hrle]

/-- C10 witness: concrete two-order level at price 100; order 1
(partially filled) fails its price modification and reappears behind
order 2. -/
theorem failed_modify_price_moves_to_back_witness :
    findLevel ((OrderBook.modifyOrderPrice ⟨[⟨100, 11, [1, 2]⟩], [], [(1, ⟨1, Side.BUY, OrderType.LIMIT, 100, 10, 4, OrderStatus.PARTIAL⟩), (2, ⟨2, Side.BUY, OrderType.LIMIT, 100, 5, 0, OrderStatus.NEW⟩)]⟩ 1 105).2).bids 100 =
      some ⟨100, 11, [2, 1]⟩ :=
  (failed_modify_price_moves_to_back
    ⟨[⟨100, 11, [1, 2]⟩], [], [(1, ⟨1, Side.BUY, OrderType.LIMIT, 100, 10, 4, OrderStatus.PARTIAL⟩), (2, ⟨2, Side.BUY, OrderType.LIMIT, 100, 5, 0, OrderStatus.NEW⟩)]⟩
    ⟨1, Side.BUY, OrderType.LIMIT, 100, 10, 4, OrderStatus.PARTIAL⟩ 105
    (by decide) (by decide) (by decide) (by decide) ⟨100, 11, [1, 2]⟩ 2 []
    (by decide) (by decide)).2.2

/-! ### Counting the levels that contain a given order id -/

theorem filter_containing_nil {ls : List PriceLevel} {i : Nat}
    (hni : ∀ l ∈ ls, i ∉ l.orders) :
    ls.filter (fun l => l.orders.contains i) = [] := by
  rw [List.filter_eq_nil_iff]
  intro l hl
  simp [hni l hl]

theorem flatten_mem_of_level {ls : List PriceLevel} {l : PriceLevel}
    (hl : l ∈ ls) {i : Nat} (hi : i ∈ l.orders) :
    i ∈ ((ls.map PriceLevel.orders).flatten) := by
  rw [List.mem_flatten]
  exact ⟨l.orders, List.mem_map_of_mem _ hl, hi⟩

theorem containing_unique_append {l1s l2s : List PriceLevel}
    (hnd : (((l1s ++ l2s).map PriceLevel.orders).flatten).Nodup)
    {lvl : PriceLevel} (h1 : lvl ∈ l1s) {i : Nat} (hi : i ∈ lvl.orders) :
    ∀ l ∈ l2s, i ∉ l.orders := by
  intro l hl hmem
  rw [List.map_append, List.flatten_append, List.nodup_append] at hnd
  exact hnd.2.2 (flatten_mem_of_level h1 hi) (flatten_mem_of_level hl hmem)

theorem others_not_containing {ls : List PriceLevel}
    (hnd : ((ls.map PriceLevel.orders).flatten).Nodup)
    {lvl : PriceLevel} (hmem : lvl ∈ ls) {i : Nat} (hi : i ∈ lvl.orders) :
    ∀ l ∈ ls, l ≠ lvl → i ∉ l.orders := by
  induction ls with
  | nil => intro l hl; simp at hl
  | cons x xs ih =>
    rw [List.map_cons, List.flatten_cons, List.nodup_append] at hnd
    intro l hl hne hmem2
    rcases List.mem_cons.mp hmem with hlvl | hlvl
    · rcases List.mem_cons.mp hl with he | he
      · exact hne (he.trans hlvl.symm ▸ rfl)
      · subst hlvl
        exact hnd.2.2 hi (flatten_mem_of_level he hmem2)
    · rcases List.mem_cons.mp hl with he | he
      · subst he
        exact hnd.2.2 hmem2 (flatten_mem_of_level hlvl hi)
      · exact ih (by
          have := hnd.2.1
          exact this) hlvl l he hne hmem2

theorem updateLevel_id {lvls : List PriceLevel} {p : Int}
    (f : PriceLevel → PriceLevel) (h : ∀ l ∈ lvls, l.price ≠ p) :
    updateLevel lvls p f = lvls := by
  induction lvls with
  | nil => rfl
  | cons x xs ih =>
    unfold updateLevel
    rw [List.map_cons, if_neg (h x (List.mem_cons_self _ _))]
    have h2 := ih (fun l hl => h l (List.mem_cons_of_mem _ hl))
    unfold updateLevel at h2
    rw [h2]

theorem count_updateLevel_mem {lvls : List PriceLevel} {p : Int}
    (f : PriceLevel → PriceLevel) {lvl : PriceLevel} {i : Nat}
    (hnd : (lvls.map PriceLevel.price).Nodup)
    (hfind : findLevel lvls p = some lvl)
    (hni : ∀ l ∈ lvls, i ∉ l.orders)
    (hf : i ∈ (f lvl).orders) :
    ((updateLevel lvls p f).filter (fun l => l.orders.contains i)).length = 1 := by
  induction lvls with
  | nil => simp [findLevel] at hfind
  | cons x xs ih =>
    simp only [List.map_cons, List.nodup_cons] at hnd
    by_cases hx : x.price = p
    · rw [findLevel, List.find?_cons_of_pos _ (by simp [hx])] at hfind
      injection hfind with hfind
      subst hfind
      unfold updateLevel
      rw [List.map_cons, if_pos hx]
      have hxs : updateLevel xs p f = xs := by
        refine updateLevel_id f ?_
        intro l hl he
        apply hnd.1
        have hpe : l.price = x.price := by rw [he, hx]
        rw [← hpe]
        exact List.mem_map_of_mem _ hl
      have hxs2 : List.map (fun l => if l.price = p then f l else l) xs = xs := hxs
      rw [hxs2]
      rw [List.filter_cons_of_pos (by simp [hf])]
      rw [filter_containing_nil (fun l hl => hni l (List.mem_cons_of_mem _ hl))]
      rfl
    · rw [findLevel, List.find?_cons_of_neg _ (by simp [hx])] at hfind
      unfold updateLevel
      rw [List.map_cons, if_neg hx]
      rw [List.filter_cons_of_neg (by simp [hni x (List.mem_cons_self _ _)])]
      exact ih hnd.2 hfind (fun l hl => hni l (List.mem_cons_of_mem _ hl))

theorem count_insertLevelDesc_mem {lvls : List PriceLevel}
    {newl : PriceLevel} {i : Nat}
    (hni : ∀ l ∈ lvls, i ∉ l.orders) (hnew : i ∈ newl.orders) :
    ((insertLevelDesc lvls newl).filter (fun l => l.orders.contains i)).length = 1 := by
  induction lvls with
  | nil =>
    unfold insertLevelDesc
    rw [List.filter_cons_of_pos (by simp [hnew])]
    rfl
  | cons x xs ih =>
    unfold insertLevelDesc
    by_cases hlt : x.price < newl.price
    · rw [if_pos hlt]
      rw [List.filter_cons_of_pos (by simp [hnew])]
      rw [filter_containing_nil hni]
      rfl
    · rw [if_neg hlt]
      rw [List.filter_cons_of_neg (by simp [hni x (List.mem_cons_self _ _)])]
      exact ih (fun l hl => hni l (List.mem_cons_of_mem _ hl))

theorem count_insertLevelAsc_mem {lvls : List PriceLevel}
    {newl : PriceLevel} {i : Nat}
    (hni : ∀ l ∈ lvls, i ∉ l.orders) (hnew : i ∈ newl.orders) :
    ((insertLevelAsc lvls newl).filter (fun l => l.orders.contains i)).length = 1 := by
  induction lvls with
  | nil =>
    unfold insertLevelAsc
    rw [List.filter_cons_of_pos (by simp [hnew])]
    rfl
  | cons x xs ih =>
    unfold insertLevelAsc
    by_cases hlt : newl.price < x.price
    · rw [if_pos hlt]
      rw [List.filter_cons_of_pos (by simp [hnew])]
      rw [filter_containing_nil hni]
      rfl
    · rw [if_neg hlt]
      rw [List.filter_cons_of_neg (by simp [hni x (List.mem_cons_self _ _)])]
      exact ih (fun l hl => hni l (List.mem_cons_of_mem _ hl))

theorem prices_updateLevel {lvls : List PriceLevel} {p : Int}
    (f : PriceLevel → PriceLevel)
    (hf : ∀ l ∈ lvls, l.price = p → (f l).price = l.price) :
    (updateLevel lvls p f).map PriceLevel.price = lvls.map PriceLevel.price := by
  induction lvls with
  | nil => rfl
  | cons x xs ih =>
    unfold updateLevel
    rw [List.map_cons, List.map_cons, List.map_cons]
    have htl : List.map PriceLevel.price (List.map (fun l => if l.price = p then f l else l) xs)
        = List.map PriceLevel.price xs := by
      have h2 := ih (fun l hl => hf l (List.mem_cons_of_mem _ hl))
      unfold updateLevel at h2
      exact h2
    rw [htl]
    by_cases hx : x.price = p
    · rw [if_pos hx, hf x (List.mem_cons_self _ _) hx]
    · rw [if_neg hx]

theorem prices_eraseLevel_sublist (lvls : List PriceLevel) (p : Int) :
    ((eraseLevel lvls p).map PriceLevel.price).Sublist
      (lvls.map PriceLevel.price) :=
  (List.filter_sublist _).map _

/-- After `removeFromBook`, the per-side price lists are still
duplicate-free. -/
theorem removeFromBook_prices (b : OrderBook) (o : Order)
    (hbnd : (b.bids.map PriceLevel.price).Nodup)
    (hand : (b.asks.map PriceLevel.price).Nodup) :
    (((b.removeFromBook o).bids.map PriceLevel.price).Nodup) ∧
    (((b.removeFromBook o).asks.map PriceLevel.price).Nodup) := by
  unfold OrderBook.removeFromBook
  cases o.side
  · cases hfind : findLevel b.bids o.price with
    | none => exact ⟨hbnd, hand⟩
    | some lvl =>
      dsimp only
      by_cases hemp : ((lvl.removeOrder o).isEmpty) = true
      · rw [if_pos hemp]
        exact ⟨(prices_eraseLevel_sublist _ _).nodup hbnd, hand⟩
      · rw [if_neg hemp]
        refine ⟨?_, hand⟩
        have hp : (updateLevel b.bids o.price (fun _ => lvl.removeOrder o)).map PriceLevel.price = b.bids.map PriceLevel.price := by
          refine prices_updateLevel _ ?_
          intro l hl he
          have hlp : lvl.price = o.price := price_eq_of_findLevel_some hfind
          show (lvl.removeOrder o).price = l.price
          unfold PriceLevel.removeOrder
          by_cases hm : o.id ∈ lvl.orders
          · rw [if_pos hm]
            dsimp only
            rw [hlp, he]
          · rw [if_neg hm]
            rw [hlp, he]
        rw [hp]
        exact hbnd
  · cases hfind : findLevel b.asks o.price with
    | none => exact ⟨hbnd, hand⟩
    | some lvl =>
      dsimp only
      by_cases hemp : ((lvl.removeOrder o).isEmpty) = true
      · rw [if_pos hemp]
        exact ⟨hbnd, (prices_eraseLevel_sublist _ _).nodup hand⟩
      · rw [if_neg hemp]
        refine ⟨hbnd, ?_⟩
        have hp : (updateLevel b.asks o.price (fun _ => lvl.removeOrder o)).map PriceLevel.price = b.asks.map PriceLevel.price := by
          refine prices_updateLevel _ ?_
          intro l hl he
          have hlp : lvl.price = o.price := price_eq_of_findLevel_some hfind
          show (lvl.removeOrder o).price = l.price
          unfold PriceLevel.removeOrder
          by_cases hm : o.id ∈ lvl.orders
          · rw [if_pos hm]
            dsimp only
            rw [hlp, he]
          · rw [if_neg hm]
            rw [hlp, he]
        rw [hp]
        exact hand

/-- After `removeFromBook` of a resident order (on a well-formed book),
no level on either side contains the order's id any more. -/
theorem removeFromBook_clears (b : OrderBook) (o : Order) (hwf : b.WF)
    (lvl : PriceLevel)
    (hfind : findLevel (match o.side with | Side.BUY => b.bids | Side.SELL => b.asks) o.price = some lvl)
    (hmem : o.id ∈ lvl.orders) :
    (∀ l ∈ (b.removeFromBook o).bids, o.id ∉ l.orders) ∧
    (∀ l ∈ (b.removeFromBook o).asks, o.id ∉ l.orders) := by
  obtain ⟨hbs, has, hbl, hal, hdisj, hkeys⟩ := hwf
  have hdisj2 := hdisj
  rw [List.map_append, List.flatten_append, List.nodup_append] at hdisj2
  cases hs : o.side
  case BUY =>
    rw [hs] at hfind
    dsimp only at hfind
    have hlvlmem : lvl ∈ b.bids := mem_of_findLevel_some hfind
    have hlp : lvl.price = o.price := price_eq_of_findLevel_some hfind
    have hlnodup : lvl.orders.Nodup := (hbl lvl hlvlmem).2.1
    have hasks : ∀ l ∈ b.asks, o.id ∉ l.orders :=
      containing_unique_append hdisj hlvlmem hmem
    have hbothers : ∀ l ∈ b.bids, l ≠ lvl → o.id ∉ l.orders :=
      others_not_containing hdisj2.1 hlvlmem hmem
    have hpnd := prices_nodup_of_sorted_desc hbs
    have hpuniq : ∀ l ∈ b.bids, l.price = o.price → l = lvl := by
      intro l hl he
      exact List.inj_on_of_nodup_map hpnd hl hlvlmem (by rw [he, hlp])
    unfold OrderBook.removeFromBook
    rw [hs]
    dsimp only
    rw [hfind]
    dsimp only
    by_cases hemp : ((lvl.removeOrder o).isEmpty) = true
    · rw [if_pos hemp]
      refine ⟨?_, hasks⟩
      intro l hl
      have hl2 := List.mem_filter.mp hl
      refine hbothers l hl2.1 ?_
      intro he
      subst he
      simp [hlp] at hl2
    · rw [if_neg hemp]
      refine ⟨?_, hasks⟩
      intro l' hl'
      obtain ⟨l0, hl0, hleq⟩ := List.mem_map.mp hl'
      by_cases hx : l0.price = o.price
      · rw [if_pos hx] at hleq
        subst hleq
        unfold PriceLevel.removeOrder
        rw [if_pos hmem]
        dsimp only
        intro hcon
        exact absurd ((hlnodup.mem_erase_iff).mp hcon).1 (by simp)
      · rw [if_neg hx] at hleq
        subst hleq
        exact hbothers l0 hl0 (fun he => hx (by rw [he, hlp]))
  case SELL =>
    rw [hs] at hfind
    dsimp only at hfind
    have hlvlmem : lvl ∈ b.asks := mem_of_findLevel_some hfind
    have hlp : lvl.price = o.price := price_eq_of_findLevel_some hfind
    have hlnodup : lvl.orders.Nodup := (hal lvl hlvlmem).2.1
    have hbids : ∀ l ∈ b.bids, o.id ∉ l.orders := by
      intro l hl hmem2
      exact hdisj2.2.2 (flatten_mem_of_level hl hmem2) (flatten_mem_of_level hlvlmem hmem)
    have haothers : ∀ l ∈ b.asks, l ≠ lvl → o.id ∉ l.orders :=
      others_not_containing hdisj2.2.1 hlvlmem hmem
    have hpnd := prices_nodup_of_sorted_asc has
    have hpuniq : ∀ l ∈ b.asks, l.price = o.price → l = lvl := by
      intro l hl he
      exact List.inj_on_of_nodup_map hpnd hl hlvlmem (by rw [he, hlp])
    unfold OrderBook.removeFromBook
    rw [hs]
    dsimp only
    rw [hfind]
    dsimp only
    by_cases hemp : ((lvl.removeOrder o).isEmpty) = true
    · rw [if_pos hemp]
      refine ⟨hbids, ?_⟩
      intro l hl
      have hl2 := List.mem_filter.mp hl
      refine haothers l hl2.1 ?_
      intro he
      subst he
      simp [hlp] at hl2
    · rw [if_neg hemp]
      refine ⟨hbids, ?_⟩
      intro l' hl'
      obtain ⟨l0, hl0, hleq⟩ := List.mem_map.mp hl'
      by_cases hx : l0.price = o.price
      · rw [if_pos hx] at hleq
        subst hleq
        unfold PriceLevel.removeOrder
        rw [if_pos hmem]
        dsimp only
        intro hcon
        exact absurd ((hlnodup.mem_erase_iff).mp hcon).1 (by simp)
      · rw [if_neg hx] at hleq
        subst hleq
        exact haothers l0 hl0 (fun he => hx (by rw [he, hlp]))

/-- `addToBook` of an order whose id is resident nowhere puts it into
exactly one price level: the level at its (side, price). -/
theorem addToBook_creates (b1 : OrderBook) (o : Order) (i : Nat)
    (hid : o.id = i)
    (hbnd : (b1.bids.map PriceLevel.price).Nodup)
    (hand : (b1.asks.map PriceLevel.price).Nodup)
    (hbni : ∀ l ∈ b1.bids, o.id ∉ l.orders)
    (hani : ∀ l ∈ b1.asks, o.id ∉ l.orders) :
    (∃ lvl', findLevel (match o.side with | Side.BUY => (b1.addToBook o).bids | Side.SELL => (b1.addToBook o).asks) o.price = some lvl' ∧ i ∈ lvl'.orders) ∧
    levelsContaining (b1.addToBook o) i = 1 := by
  subst hid
  cases hs : o.side
  case BUY =>
    unfold OrderBook.addToBook
    rw [hs]
    dsimp only
    cases hf : findLevel b1.bids o.price with
    | some l2 =>
      dsimp only
      constructor
      · refine ⟨l2.addOrder o, findLevel_updateLevel_self _ hf rfl, ?_⟩
        unfold PriceLevel.addOrder
        simp
      · unfold levelsContaining
        dsimp only
        rw [List.filter_append, List.length_append]
        rw [count_updateLevel_mem _ hbnd hf hbni (by unfold PriceLevel.addOrder; simp)]
        rw [filter_containing_nil hani]
        rfl
    | none =>
      dsimp only
      have hf2 : findLevel b1.bids ((PriceLevel.addOrder { price := o.price, totalQuantity := 0, orders := [] } o).price) = none := hf
      constructor
      · refine ⟨PriceLevel.addOrder { price := o.price, totalQuantity := 0, orders := [] } o, ?_, ?_⟩
        · have hfl : findLevel (insertLevelDesc b1.bids (PriceLevel.addOrder { price := o.price, totalQuantity := 0, orders := [] } o)) o.price = some (PriceLevel.addOrder { price := o.price, totalQuantity := 0, orders := [] } o) := findLevel_insertLevelDesc_self hf2
          exact hfl
        · unfold PriceLevel.addOrder
          simp
      · unfold levelsContaining
        dsimp only
        rw [List.filter_append, List.length_append]
        rw [count_insertLevelDesc_mem hbni (by unfold PriceLevel.addOrder; simp)]
        rw [filter_containing_nil hani]
        rfl
  case SELL =>
    unfold OrderBook.addToBook
    rw [hs]
    dsimp only
    cases hf : findLevel b1.asks o.price with
    | some l2 =>
      dsimp only
      constructor
      · refine ⟨l2.addOrder o, findLevel_updateLevel_self _ hf rfl, ?_⟩
        unfold PriceLevel.addOrder
        simp
      · unfold levelsContaining
        dsimp only
        rw [List.filter_append, List.length_append]
        rw [count_updateLevel_mem _ hand hf hani (by unfold PriceLevel.addOrder; simp)]
        rw [filter_containing_nil hbni]
        rfl
    | none =>
      dsimp only
      have hf2 : findLevel b1.asks ((PriceLevel.addOrder { price := o.price, totalQuantity := 0, orders := [] } o).price) = none := hf
      constructor
      · refine ⟨PriceLevel.addOrder { price := o.price, totalQuantity := 0, orders := [] } o, ?_, ?_⟩
        · have hfl : findLevel (insertLevelAsc b1.asks (PriceLevel.addOrder { price := o.price, totalQuantity := 0, orders := [] } o)) o.price = some (PriceLevel.addOrder { price := o.price, totalQuantity := 0, orders := [] } o) := findLevel_insertLevelAsc_self hf2
          exact hfl
        · unfold PriceLevel.addOrder
          simp
      · unfold levelsContaining
        dsimp only
        rw [List.filter_append, List.length_append]
        rw [count_insertLevelAsc_mem hani (by unfold PriceLevel.addOrder; simp)]
        rw [filter_containing_nil hbni]
        rfl

/-- C7: on a well-formed book, after `modifyOrderPrice(id, newPrice)`
returns, a resident active order with that id is present in exactly one
price level — the `newPrice` level if the call returned true, its
original price level if the order-level modification failed — and is
never absent from the id index; on an unknown or inactive id the book is
unchanged. -/
theorem modify_price_atomic (b : OrderBook) (i : Nat) (p' : Int)
    (hwf : b.WF) :
    (mapLookup b.orderMap i = none → b.modifyOrderPrice i p' = (false, b)) ∧
    (∀ o, mapLookup b.orderMap i = some o → o.isActive = false →
      b.modifyOrderPrice i p' = (false, b)) ∧
    (∀ o lvl, mapLookup b.orderMap i = some o → o.isActive = true →
      findLevel (match o.side with | Side.BUY => b.bids | Side.SELL => b.asks) o.price = some lvl →
      i ∈ lvl.orders →
      ∃ o', mapLookup ((b.modifyOrderPrice i p').2).orderMap i = some o' ∧
        o'.side = o.side ∧
        ((b.modifyOrderPrice i p').1 = true → o'.price = p') ∧
        ((b.modifyOrderPrice i p').1 = false → o' = o) ∧
        levelsContaining ((b.modifyOrderPrice i p').2) i = 1 ∧
        (∃ lvl', findLevel (match o.side with | Side.BUY => ((b.modifyOrderPrice i p').2).bids | Side.SELL => ((b.modifyOrderPrice i p').2).asks) o'.price = some lvl' ∧ i ∈ lvl'.orders)) := by
  refine ⟨?_, ?_, ?_⟩
  · intro hnone
    unfold OrderBook.modifyOrderPrice
    rw [hnone]
  · intro o hlook hina
    unfold OrderBook.modifyOrderPrice
    rw [hlook]
    dsimp only
    rw [hina]
    rw [if_pos (by simp)]
  · intro o lvl hlook hact hfind hmem
    have hoid : o.id = i := by
      cases hs : o.side with
      | BUY =>
        rw [hs] at hfind
        dsimp only at hfind
        have hb := (hwf.2.2.1 lvl (mem_of_findLevel_some hfind)).2.2.2.2 i hmem
        rw [hlook] at hb
        exact hb.1
      | SELL =>
        rw [hs] at hfind
        dsimp only at hfind
        have hb := (hwf.2.2.2.1 lvl (mem_of_findLevel_some hfind)).2.2.2.2 i hmem
        rw [hlook] at hb
        exact hb.1
    have hmem2 : o.id ∈ lvl.orders := by rw [hoid]; exact hmem
    have hclear := removeFromBook_clears b o hwf lvl hfind hmem2
    have hprices := removeFromBook_prices b o
      (prices_nodup_of_sorted_desc hwf.1) (prices_nodup_of_sorted_asc hwf.2.1)
    by_cases hmpf : o.type ≠ OrderType.LIMIT ∨ 0 < o.filledQty
    · have hmp : o.modifyPrice p' = (false, o) := by
        unfold Order.modifyPrice
        rw [if_pos hmpf]
      have heval : b.modifyOrderPrice i p' =
          (false, (b.removeFromBook o).addToBook o) := by
        unfold OrderBook.modifyOrderPrice
        rw [hlook]
        dsimp only
        rw [hact]
        rw [if_neg (by simp)]
        rw [hmp]
      rw [heval]
      dsimp only
      have hc := addToBook_creates (b.removeFromBook o) o i hoid
        hprices.1 hprices.2 hclear.1 hclear.2
      refine ⟨o, ?_, rfl, ?_, ?_, hc.2, ?_⟩
      · rw [orderMap_addToBook, orderMap_removeFromBook]
        exact hlook
      · intro hcon
        exact absurd hcon (by simp)
      · intro _
        rfl
      · exact hc.1
    · have hmp : o.modifyPrice p' = (true, { o with price := p' }) := by
        unfold Order.modifyPrice
        rw [if_neg hmpf]
      have heval : b.modifyOrderPrice i p' =
          (true, OrderBook.addToBook { (b.removeFromBook o) with orderMap := mapInsert (b.removeFromBook o).orderMap i { o with price := p' } } { o with price := p' }) := by
        unfold OrderBook.modifyOrderPrice
        rw [hlook]
        dsimp only
        rw [hact]
        rw [if_neg (by simp)]
        rw [hmp]
      rw [heval]
      dsimp only
      have hc := addToBook_creates
        { (b.removeFromBook o) with orderMap := mapInsert (b.removeFromBook o).orderMap i { o with price := p' } }
        { o with price := p' } i hoid hprices.1 hprices.2 hclear.1 hclear.2
      refine ⟨{ o with price := p' }, ?_, rfl, ?_, ?_, hc.2, ?_⟩
      · rw [orderMap_addToBook]
        exact mapLookup_insert_self _ _ _
      · intro _
        rfl
      · intro hcon
        exact absurd hcon (by simp)
      · exact hc.1

/-- C7 witness: concrete one-bid book; moving order 1 from price 100 to
105 succeeds and the order sits in exactly one level afterwards. -/
theorem modify_price_atomic_witness :
    levelsContaining ((OrderBook.modifyOrderPrice ⟨[⟨100, 10, [1]⟩], [], [(1, ⟨1, Side.BUY, OrderType.LIMIT, 100, 10, 0, OrderStatus.NEW⟩)]⟩ 1 105).2) 1 = 1 := by
  obtain ⟨o', _, _, _, _, hcount, _⟩ :=
    (modify_price_atomic ⟨[⟨100, 10, [1]⟩], [], [(1, ⟨1, Side.BUY, OrderType.LIMIT, 100, 10, 0, OrderStatus.NEW⟩)]⟩ 1 105 (by decide)).2.2
      ⟨1, Side.BUY, OrderType.LIMIT, 100, 10, 0, OrderStatus.NEW⟩ ⟨100, 10, [1]⟩
      (by decide) (by decide) (by decide) (by decide)
  exact hcount

theorem fill_remaining {o : Order} (h : o.WF) {t : Nat}
    (ht : t ≤ o.quantity - o.filledQty) :
    ((o.fill t).2).getRemainingQty = o.quantity - o.filledQty - t := by
  have h1 := h.1
  rw [fill_eq h ht]
  unfold Order.getRemainingQty
  dsimp only
  rw [sub32_eq_sub (by omega) h.2]
  omega

theorem sumRemaining_congr {m1 m2 : OrderMap} {ids : List Nat}
    (h : ∀ j ∈ ids, mapLookup m1 j = mapLookup m2 j) :
    sumRemaining m1 ids = sumRemaining m2 ids := by
  induction ids with
  | nil => rfl
  | cons x xs ih =>
    rw [sumRemaining_cons, sumRemaining_cons]
    rw [ih (fun j hj => h j (List.mem_cons_of_mem _ hj))]
    have hx : remOf m1 x = remOf m2 x := by
      unfold remOf
      rw [h x (List.mem_cons_self _ _)]
    rw [hx]

/-- Characterization of the FIFO fill loop of
`OrderBook::fillQuantityAtPrice`: it fills exactly
`min q (aggregate remaining)`, consumes a prefix of `k` whole orders
(erasing each from the id index), possibly partially fills the next
order (which keeps positive remaining), and touches no other binding. -/
theorem fillLoop_spec (ids : List Nat) : ∀ (q : Nat) (m : OrderMap),
    (m.map Prod.fst).Nodup → ids.Nodup →
    (∀ i ∈ ids, OptP (mapLookup m i) (fun o => o.id = i ∧ o.WF)) →
    (fillLoop m q ids).1 = min q (sumRemaining m ids) ∧
    ∃ k, k ≤ ids.length ∧
      (fillLoop m q ids).2.1 = ids.drop k ∧
      sumRemaining m (ids.take k) ≤ (fillLoop m q ids).1 ∧
      (∀ j ∈ ids.take k, mapLookup (fillLoop m q ids).2.2 j = none) ∧
      (∀ j, j ∉ ids.take (k+1) → mapLookup (fillLoop m q ids).2.2 j = mapLookup m j) ∧
      (∀ j rest2, ids.drop k = j :: rest2 →
        ((fillLoop m q ids).1 - sumRemaining m (ids.take k) = 0 ∧
          mapLookup (fillLoop m q ids).2.2 j = mapLookup m j) ∨
        OptP (mapLookup m j) (fun o =>
          0 < (fillLoop m q ids).1 - sumRemaining m (ids.take k) ∧
          (fillLoop m q ids).1 - sumRemaining m (ids.take k) < o.getRemainingQty ∧
          mapLookup (fillLoop m q ids).2.2 j =
            some ((o.fill ((fillLoop m q ids).1 - sumRemaining m (ids.take k))).2))) := by
  induction ids with
  | nil =>
    intro q m hknd hnd hbound
    refine ⟨by simp [fillLoop, sumRemaining], 0, by simp, rfl, ?_, ?_, ?_, ?_⟩
    · simp [fillLoop, sumRemaining]
    · intro j hj
      simp at hj
    · intro j hj
      rfl
    · intro j rest2 h
      simp at h
  | cons i rest ih =>
    intro q m hknd hnd hbound
    have hbi := hbound i (List.mem_cons_self _ _)
    have hnd2 := List.nodup_cons.mp hnd
    by_cases hq : q = 0
    · subst hq
      have hstep : fillLoop m 0 (i :: rest) = (0, i :: rest, m) := by
        simp [fillLoop]
      rw [hstep]
      refine ⟨by simp, 0, by simp, rfl, by simp [sumRemaining], ?_, ?_, ?_⟩
      · intro j hj
        simp at hj
      · intro j hj
        rfl
      · intro j rest2 h
        rw [List.drop_zero] at h
        injection h with h1 h2
        subst h1
        left
        exact ⟨by simp [sumRemaining], rfl⟩
    · cases hlk : mapLookup m i with
      | none =>
        rw [hlk] at hbi
        exact absurd hbi (fun h => h)
      | some o =>
        rw [hlk] at hbi
        obtain ⟨hoid, howf⟩ := hbi
        have hremeq : o.getRemainingQty = o.quantity - o.filledQty := remaining_eq howf
        have hsumc : sumRemaining m (i :: rest) = o.getRemainingQty + sumRemaining m rest := by
          rw [sumRemaining_cons]
          unfold remOf
          rw [hlk]
        by_cases hcase : o.getRemainingQty ≤ q
        · -- the front order is fully consumed and popped
          have htmin : min o.getRemainingQty q = o.getRemainingQty := min_eq_left hcase
          have hfz : ((o.fill o.getRemainingQty).2).getRemainingQty = 0 := by
            rw [hremeq]
            rw [fill_remaining howf (le_refl _)]
            omega
          have hstep : fillLoop m q (i :: rest) =
              (o.getRemainingQty + (fillLoop (mapErase m o.id) (q - o.getRemainingQty) rest).1,
               (fillLoop (mapErase m o.id) (q - o.getRemainingQty) rest).2.1,
               (fillLoop (mapErase m o.id) (q - o.getRemainingQty) rest).2.2) := by
            simp only [fillLoop]
            rw [if_neg hq, hlk]
            dsimp only
            rw [htmin, if_pos hfz]
          have hmeq : ∀ j ∈ rest, mapLookup (mapErase m o.id) j = mapLookup m j := by
            intro j hj
            refine mapLookup_erase_ne m ?_
            rw [hoid]
            intro he
            exact hnd2.1 (he ▸ hj)
          have ihh := ih (q - o.getRemainingQty) (mapErase m o.id)
            ((keys_mapErase_sublist m o.id).nodup hknd) hnd2.2
            (fun j hj => by rw [hmeq j hj]; exact hbound j (List.mem_cons_of_mem _ hj))
          obtain ⟨ihA, k0, hk0, ihB1, ihB5, ihB2, ihB3, ihB4⟩ := ihh
          have hsumrest : sumRemaining (mapErase m o.id) rest = sumRemaining m rest :=
            sumRemaining_congr hmeq
          rw [hstep]
          constructor
          · dsimp only
            rw [ihA, hsumrest, hsumc]
            omega
          · refine ⟨k0 + 1, by simp; omega, ?_, ?_, ?_, ?_, ?_⟩
            · rw [List.drop_succ_cons]
              exact ihB1
            · rw [List.take_succ_cons, sumRemaining_cons]
              dsimp only
              have hsumtk : sumRemaining (mapErase m o.id) (rest.take k0) = sumRemaining m (rest.take k0) :=
                sumRemaining_congr (fun j hj => hmeq j (List.mem_of_mem_take hj))
              have hremi : remOf m i = o.getRemainingQty := by
                unfold remOf
                rw [hlk]
              rw [hremi]
              rw [hsumtk] at ihB5
              omega
            · intro j hj
              rw [List.take_succ_cons] at hj
              rcases List.mem_cons.mp hj with he | hj2
              · subst he
                have hne : j ∉ rest.take (k0+1) := fun hc => hnd2.1 (List.mem_of_mem_take hc)
                rw [ihB3 j hne]
                rw [hoid]
                exact mapLookup_erase_self m j hknd
              · exact ihB2 j hj2
            · intro j hj
              rw [List.take_succ_cons] at hj
              have hji : j ≠ i := fun he => hj (he ▸ List.mem_cons_self _ _)
              have hjt : j ∉ rest.take (k0+1) := fun hc => hj (List.mem_cons_of_mem _ hc)
              rw [ihB3 j hjt]
              refine mapLookup_erase_ne m ?_
              rw [hoid]
              exact hji
            · intro j rest2 hdrop
              rw [List.drop_succ_cons] at hdrop
              have hjrest : j ∈ rest := by
                have : j ∈ rest.drop k0 := hdrop ▸ List.mem_cons_self _ _
                exact List.mem_of_mem_drop this
              have hsumtk : sumRemaining (mapErase m o.id) (rest.take k0) = sumRemaining m (rest.take k0) :=
                sumRemaining_congr (fun j2 hj2 => hmeq j2 (List.mem_of_mem_take hj2))
              have hteq : o.getRemainingQty + (fillLoop (mapErase m o.id) (q - o.getRemainingQty) rest).1 -
                  sumRemaining m ((i :: rest).take (k0+1)) =
                  (fillLoop (mapErase m o.id) (q - o.getRemainingQty) rest).1 -
                    sumRemaining (mapErase m o.id) (rest.take k0) := by
                rw [List.take_succ_cons, sumRemaining_cons]
                have hremi : remOf m i = o.getRemainingQty := by
                  unfold remOf
                  rw [hlk]
                rw [hremi, hsumtk]
                omega
              have := ihB4 j rest2 hdrop
              rw [hmeq j hjrest] at this
              dsimp only
              rw [hteq]
              exact this
        · -- the front order is only partially filled; the loop stops
          have hqlt : q < o.getRemainingQty := Nat.lt_of_not_le hcase
          have htmin : min o.getRemainingQty q = q := min_eq_right (le_of_lt hqlt)
          have hfnz : ¬(((o.fill q).2).getRemainingQty = 0) := by
            rw [hremeq] at hqlt
            rw [fill_remaining howf (le_of_lt hqlt)]
            omega
          have hstep : fillLoop m q (i :: rest) =
              (q, i :: rest, mapInsert m i ((o.fill q).2)) := by
            simp only [fillLoop]
            rw [if_neg hq, hlk]
            dsimp only
            rw [htmin, if_neg hfnz]
          rw [hstep]
          constructor
          · dsimp only
            rw [hsumc]
            omega
          · refine ⟨0, by simp, rfl, by simp [sumRemaining], ?_, ?_, ?_⟩
            · intro j hj
              simp at hj
            · intro j hj
              have hji : j ≠ i := by
                intro he
                apply hj
                rw [List.take_succ_cons]
                exact he ▸ List.mem_cons_self _ _
              exact mapLookup_insert_ne m _ hji
            · intro j rest2 hdrop
              rw [List.drop_zero] at hdrop
              injection hdrop with h1 h2
              subst h1
              right
              rw [hlk]
              show 0 < q - sumRemaining m [] ∧ q - sumRemaining m [] < o.getRemainingQty ∧ _
              have hs0 : sumRemaining m ([] : List Nat) = 0 := rfl
              rw [hs0]
              refine ⟨by omega, by omega, ?_⟩
              show mapLookup (mapInsert m i ((o.fill q).2)) i = some ((o.fill (q - 0)).2)
              have hq0 : q - 0 = q := by omega
              rw [hq0]
              exact mapLookup_insert_self m i ((o.fill q).2)

/-- Weakened per-id binding facts extracted from a level's `LevelWF`. -/
theorem levelIds_of_LevelWF {m : OrderMap} {sd : Side} {lvl : PriceLevel}
    (h : LevelWF m sd lvl) :
    ∀ i ∈ lvl.orders, OptP (mapLookup m i) (fun o => o.id = i ∧ o.WF) := by
  intro i hi
  have hb := h.2.2.2.2 i hi
  cases hlk : mapLookup m i with
  | none => rw [hlk] at hb; exact hb
  | some o2 =>
    rw [hlk] at hb
    exact ⟨hb.1, hb.2.2.2⟩

/-- C1: on a well-formed book, `fillQuantityAtPrice(side, price, qty)`
returns 0 and leaves the book unchanged when no level rests at that
price; otherwise it fills exactly `min qty (aggregate remaining)`,
consumes a prefix of `k` whole orders strictly front-to-back — each
fully-consumed order is erased from the id index and unlinked from the
level — at most partially fills the next order (whose remaining stays
positive), touches no other id binding, erases the level once exhausted,
and otherwise leaves the level holding exactly the surviving suffix with
its cached total reduced by the filled amount. -/
theorem fill_quantity_fifo (b : OrderBook) (s : Side) (p : Int) (q : Nat)
    (hwf : b.WF) :
    (findLevel (match s with | Side.BUY => b.bids | Side.SELL => b.asks) p = none →
      b.fillQuantityAtPrice s p q = (0, b)) ∧
    (∀ lvl, findLevel (match s with | Side.BUY => b.bids | Side.SELL => b.asks) p = some lvl →
      (b.fillQuantityAtPrice s p q).1 = min q (sumRemaining b.orderMap lvl.orders) ∧
      ∃ k, k ≤ lvl.orders.length ∧
        (∀ j ∈ lvl.orders.take k, mapLookup ((b.fillQuantityAtPrice s p q).2).orderMap j = none) ∧
        (∀ j, j ∉ lvl.orders.take (k+1) → mapLookup ((b.fillQuantityAtPrice s p q).2).orderMap j = mapLookup b.orderMap j) ∧
        (∀ j rest2, lvl.orders.drop k = j :: rest2 →
          ((b.fillQuantityAtPrice s p q).1 - sumRemaining b.orderMap (lvl.orders.take k) = 0 ∧
            mapLookup ((b.fillQuantityAtPrice s p q).2).orderMap j = mapLookup b.orderMap j) ∨
          OptP (mapLookup b.orderMap j) (fun o =>
            0 < (b.fillQuantityAtPrice s p q).1 - sumRemaining b.orderMap (lvl.orders.take k) ∧
            (b.fillQuantityAtPrice s p q).1 - sumRemaining b.orderMap (lvl.orders.take k) < o.getRemainingQty ∧
            mapLookup ((b.fillQuantityAtPrice s p q).2).orderMap j =
              some ((o.fill ((b.fillQuantityAtPrice s p q).1 - sumRemaining b.orderMap (lvl.orders.take k))).2))) ∧
        (sumRemaining b.orderMap lvl.orders ≤ q →
          findLevel (match s with | Side.BUY => ((b.fillQuantityAtPrice s p q).2).bids | Side.SELL => ((b.fillQuantityAtPrice s p q).2).asks) p = none) ∧
        (q < sumRemaining b.orderMap lvl.orders →
          findLevel (match s with | Side.BUY => ((b.fillQuantityAtPrice s p q).2).bids | Side.SELL => ((b.fillQuantityAtPrice s p q).2).asks) p =
            some { price := lvl.price, totalQuantity := lvl.totalQuantity - q, orders := lvl.orders.drop k })) := by
  cases s
  case BUY =>
    refine ⟨?_, ?_⟩
    · intro hnone
      unfold OrderBook.fillQuantityAtPrice
      rw [hnone]
    · intro lvl hfind
      have hlwf : LevelWF b.orderMap Side.BUY lvl :=
        hwf.2.2.1 lvl (mem_of_findLevel_some hfind)
      obtain ⟨hA, k, hk, hB1, hB5, hB2, hB3, hB4⟩ :=
        fillLoop_spec lvl.orders q b.orderMap hwf.2.2.2.2.2 hlwf.2.1
          (levelIds_of_LevelWF hlwf)
      have hsum : lvl.totalQuantity = sumRemaining b.orderMap lvl.orders := hlwf.2.2.1
      have htw : lvl.totalQuantity < W := hlwf.2.2.2.1
      by_cases hcase : sumRemaining b.orderMap lvl.orders ≤ q
      · have hf1 : (fillLoop b.orderMap q lvl.orders).1 = sumRemaining b.orderMap lvl.orders := by
          rw [hA]
          omega
        have hcond : sub32 lvl.totalQuantity (fillLoop b.orderMap q lvl.orders).1 = 0 := by
          rw [hf1, hsum]
          exact sub32_self
        have hstep : b.fillQuantityAtPrice Side.BUY p q =
            ((fillLoop b.orderMap q lvl.orders).1,
             { b with bids := eraseLevel b.bids p, orderMap := (fillLoop b.orderMap q lvl.orders).2.2 }) := by
          unfold OrderBook.fillQuantityAtPrice
          rw [hfind]
          dsimp only
          rw [hcond]
          rw [if_pos (Or.inl rfl)]
        rw [hstep]
        refine ⟨hA, k, hk, hB2, hB3, hB4, ?_, ?_⟩
        · intro _
          exact findLevel_eraseLevel_self _ _
        · intro hlt
          omega
      · have hqlt : q < sumRemaining b.orderMap lvl.orders := Nat.lt_of_not_le hcase
        have hf1 : (fillLoop b.orderMap q lvl.orders).1 = q := by
          rw [hA]
          omega
        have hne : lvl.orders.drop k ≠ [] := by
          intro hnil
          have hlen : lvl.orders.length ≤ k := List.drop_eq_nil_iff.mp hnil
          have htk : lvl.orders.take k = lvl.orders := List.take_of_length_le hlen
          rw [htk, hf1] at hB5
          omega
        have hcond : ¬(sub32 lvl.totalQuantity (fillLoop b.orderMap q lvl.orders).1 = 0 ∨
            (fillLoop b.orderMap q lvl.orders).2.1 = []) := by
          push_neg
          constructor
          · rw [hf1, hsum, sub32_eq_sub (by omega) (by rw [← hsum]; exact htw)]
            omega
          · rw [hB1]
            exact hne
        have hstep : b.fillQuantityAtPrice Side.BUY p q =
            ((fillLoop b.orderMap q lvl.orders).1,
             { b with
                bids := updateLevel b.bids p (fun l =>
                  { l with totalQuantity := sub32 lvl.totalQuantity (fillLoop b.orderMap q lvl.orders).1,
                           orders := (fillLoop b.orderMap q lvl.orders).2.1 }),
                orderMap := (fillLoop b.orderMap q lvl.orders).2.2 }) := by
          unfold OrderBook.fillQuantityAtPrice
          rw [hfind]
          dsimp only
          rw [if_neg hcond]
        rw [hstep]
        refine ⟨hA, k, hk, hB2, hB3, hB4, ?_, ?_⟩
        · intro hle
          omega
        · intro _
          rw [findLevel_updateLevel_self _ hfind rfl]
          rw [hf1, hB1]
          rw [hsum, sub32_eq_sub (by omega) (by rw [← hsum]; exact htw), ← hsum]
  case SELL =>
    refine ⟨?_, ?_⟩
    · intro hnone
      unfold OrderBook.fillQuantityAtPrice
      rw [hnone]
    · intro lvl hfind
      have hlwf : LevelWF b.orderMap Side.SELL lvl :=
        hwf.2.2.2.1 lvl (mem_of_findLevel_some hfind)
      obtain ⟨hA, k, hk, hB1, hB5, hB2, hB3, hB4⟩ :=
        fillLoop_spec lvl.orders q b.orderMap hwf.2.2.2.2.2 hlwf.2.1
          (levelIds_of_LevelWF hlwf)
      have hsum : lvl.totalQuantity = sumRemaining b.orderMap lvl.orders := hlwf.2.2.1
      have htw : lvl.totalQuantity < W := hlwf.2.2.2.1
      by_cases hcase : sumRemaining b.orderMap lvl.orders ≤ q
      · have hf1 : (fillLoop b.orderMap q lvl.orders).1 = sumRemaining b.orderMap lvl.orders := by
          rw [hA]
          omega
        have hcond : sub32 lvl.totalQuantity (fillLoop b.orderMap q lvl.orders).1 = 0 := by
          rw [hf1, hsum]
          exact sub32_self
        have hstep : b.fillQuantityAtPrice Side.SELL p q =
            ((fillLoop b.orderMap q lvl.orders).1,
             { b with asks := eraseLevel b.asks p, orderMap := (fillLoop b.orderMap q lvl.orders).2.2 }) := by
          unfold OrderBook.fillQuantityAtPrice
          rw [hfind]
          dsimp only
          rw [hcond]
          rw [if_pos (Or.inl rfl)]
        rw [hstep]
        refine ⟨hA, k, hk, hB2, hB3, hB4, ?_, ?_⟩
        · intro _
          exact findLevel_eraseLevel_self _ _
        · intro hlt
          omega
      · have hqlt : q < sumRemaining b.orderMap lvl.orders := Nat.lt_of_not_le hcase
        have hf1 : (fillLoop b.orderMap q lvl.orders).1 = q := by
          rw [hA]
          omega
        have hne : lvl.orders.drop k ≠ [] := by
          intro hnil
          have hlen : lvl.orders.length ≤ k := List.drop_eq_nil_iff.mp hnil
          have htk : lvl.orders.take k = lvl.orders := List.take_of_length_le hlen
          rw [htk, hf1] at hB5
          omega
        have hcond : ¬(sub32 lvl.totalQuantity (fillLoop b.orderMap q lvl.orders).1 = 0 ∨
            (fillLoop b.orderMap q lvl.orders).2.1 = []) := by
          push_neg
          constructor
          · rw [hf1, hsum, sub32_eq_sub (by omega) (by rw [← hsum]; exact htw)]
            omega
          · rw [hB1]
            exact hne
        have hstep : b.fillQuantityAtPrice Side.SELL p q =
            ((fillLoop b.orderMap q lvl.orders).1,
             { b with
                asks := updateLevel b.asks p (fun l =>
                  { l with totalQuantity := sub32 lvl.totalQuantity (fillLoop b.orderMap q lvl.orders).1,
                           orders := (fillLoop b.orderMap q lvl.orders).2.1 }),
                orderMap := (fillLoop b.orderMap q lvl.orders).2.2 }) := by
          unfold OrderBook.fillQuantityAtPrice
          rw [hfind]
          dsimp only
          rw [if_neg hcond]
        rw [hstep]
        refine ⟨hA, k, hk, hB2, hB3, hB4, ?_, ?_⟩
        · intro hle
          omega
        · intro _
          rw [findLevel_updateLevel_self _ hfind rfl]
          rw [hf1, hB1]
          rw [hsum, sub32_eq_sub (by omega) (by rw [← hsum]; exact htw), ← hsum]

/-- C1 witness: the spec's three-order level (ids 1,2,3, qty 50 each at
price 100); a fill of 75 returns min 75 150 = 75. -/
theorem fill_quantity_fifo_witness :
    (OrderBook.fillQuantityAtPrice ⟨[⟨100, 150, [1, 2, 3]⟩], [], [(1, ⟨1, Side.BUY, OrderType.LIMIT, 100, 50, 0, OrderStatus.NEW⟩), (2, ⟨2, Side.BUY, OrderType.LIMIT, 100, 50, 0, OrderStatus.NEW⟩), (3, ⟨3, Side.BUY, OrderType.LIMIT, 100, 50, 0, OrderStatus.NEW⟩)]⟩ Side.BUY 100 75).1 =
      min 75 (sumRemaining [(1, ⟨1, Side.BUY, OrderType.LIMIT, 100, 50, 0, OrderStatus.NEW⟩), (2, ⟨2, Side.BUY, OrderType.LIMIT, 100, 50, 0, OrderStatus.NEW⟩), (3, ⟨3, Side.BUY, OrderType.LIMIT, 100, 50, 0, OrderStatus.NEW⟩)] [1, 2, 3]) :=
  ((fill_quantity_fifo ⟨[⟨100, 150, [1, 2, 3]⟩], [], [(1, ⟨1, Side.BUY, OrderType.LIMIT, 100, 50, 0, OrderStatus.NEW⟩), (2, ⟨2, Side.BUY, OrderType.LIMIT, 100, 50, 0, OrderStatus.NEW⟩), (3, ⟨3, Side.BUY, OrderType.LIMIT, 100, 50, 0, OrderStatus.NEW⟩)]⟩ Side.BUY 100 75 (by decide)).2
    ⟨100, 150, [1, 2, 3]⟩ (by decide)).1

theorem fill_wf {o : Order} (h : o.WF) (t : Nat) : ((o.fill t).2).WF := by
  by_cases hg : t ≤ o.quantity - o.filledQty
  · rw [fill_eq h hg, wf_iff]
    refine ⟨?_, h.2⟩
    simp only
    have h1 := h.1
    omega
  · unfold Order.fill
    rw [remaining_eq h, if_pos (by omega)]
    exact h

theorem sumRemaining_append (m : OrderMap) (a c : List Nat) :
    sumRemaining m (a ++ c) = sumRemaining m a + sumRemaining m c := by
  simp [sumRemaining]

theorem pairwise_prices_iff {R : Int → Int → Prop} {lvls : List PriceLevel} :
    List.Pairwise (fun l1 l2 => R l1.price l2.price) lvls ↔
      List.Pairwise R (lvls.map PriceLevel.price) := by
  rw [List.pairwise_map]

theorem flatten_updateLevel_sublist {lvls : List PriceLevel} {p : Int}
    (f : PriceLevel → PriceLevel)
    (hf : ∀ l ∈ lvls, l.price = p → ((f l).orders).Sublist l.orders) :
    (((updateLevel lvls p f).map PriceLevel.orders).flatten).Sublist
      ((lvls.map PriceLevel.orders).flatten) := by
  induction lvls with
  | nil => simp [updateLevel]
  | cons x xs ih =>
    unfold updateLevel
    rw [List.map_cons, List.map_cons, List.map_cons, List.flatten_cons, List.flatten_cons]
    have ih2 := ih (fun l hl he => hf l (List.mem_cons_of_mem _ hl) he)
    unfold updateLevel at ih2
    by_cases hx : x.price = p
    · rw [if_pos hx]
      exact (hf x (List.mem_cons_self _ _) hx).append ih2
    · rw [if_neg hx]
      exact (List.Sublist.refl _).append ih2

theorem flatten_eraseLevel_sublist (lvls : List PriceLevel) (p : Int) :
    (((eraseLevel lvls p).map PriceLevel.orders).flatten).Sublist
      ((lvls.map PriceLevel.orders).flatten) := by
  induction lvls with
  | nil => simp [eraseLevel]
  | cons x xs ih =>
    unfold eraseLevel
    rw [List.filter_cons]
    by_cases hx : x.price = p
    · rw [if_neg (by simp [hx])]
      rw [List.map_cons, List.flatten_cons]
      unfold eraseLevel at ih
      exact ih.trans (List.sublist_append_right _ _)
    · rw [if_pos (by simp [hx])]
      rw [List.map_cons, List.map_cons, List.flatten_cons, List.flatten_cons]
      unfold eraseLevel at ih
      exact (List.Sublist.refl _).append ih

theorem fillLoop_keys (ids : List Nat) : ∀ (q : Nat) (m : OrderMap),
    (((fillLoop m q ids).2.2).map Prod.fst).Sublist (m.map Prod.fst) := by
  induction ids with
  | nil =>
    intro q m
    simp [fillLoop]
  | cons i rest ih =>
    intro q m
    by_cases hq : q = 0
    · subst hq
      have hstep : fillLoop m 0 (i :: rest) = (0, i :: rest, m) := by
        simp [fillLoop]
      rw [hstep]
    · cases hlk : mapLookup m i with
      | none =>
        have hstep : (fillLoop m q (i :: rest)).2.2 = (fillLoop m q rest).2.2 := by
          simp only [fillLoop]
          rw [if_neg hq, hlk]
        rw [hstep]
        exact ih q m
      | some o =>
        by_cases hfz : ((o.fill (min o.getRemainingQty q)).2).getRemainingQty = 0
        · have hstep : (fillLoop m q (i :: rest)).2.2 =
              (fillLoop (mapErase m o.id) (q - min o.getRemainingQty q) rest).2.2 := by
            simp only [fillLoop]
            rw [if_neg hq, hlk]
            dsimp only
            rw [if_pos hfz]
          rw [hstep]
          exact (ih _ _).trans (keys_mapErase_sublist m o.id)
        · have hstep : (fillLoop m q (i :: rest)).2.2 =
              mapInsert m i ((o.fill (min o.getRemainingQty q)).2) := by
            simp only [fillLoop]
            rw [if_neg hq, hlk]
            dsimp only
            rw [if_neg hfz]
          rw [hstep]
          rw [keys_mapInsert_some m i _ o hlk]

theorem LevelWF_congr {m m' : OrderMap} {sd : Side} {l : PriceLevel}
    (h : LevelWF m sd l)
    (hm : ∀ j ∈ l.orders, mapLookup m' j = mapLookup m j) :
    LevelWF m' sd l := by
  obtain ⟨h1, h2, h3, h4, h5⟩ := h
  refine ⟨h1, h2, ?_, h4, ?_⟩
  · rw [sumRemaining_congr hm]
    exact h3
  · intro j hj
    rw [hm j hj]
    exact h5 j hj

/-- Erasing the level at `p` and replacing the id index by one that
agrees outside the erased level's ids preserves book well-formedness. -/
theorem WF_erase_bids (b : OrderBook) (p : Int) (lvl : PriceLevel)
    (m' : OrderMap) (hwf : b.WF) (hside : findLevel b.bids p = some lvl)
    (hm : ∀ j, j ∉ lvl.orders → mapLookup m' j = mapLookup b.orderMap j)
    (hkeys2 : (m'.map Prod.fst).Nodup) :
    OrderBook.WF { b with bids := eraseLevel b.bids p, orderMap := m' } := by
  obtain ⟨hbs, has, hbl, hal, hdisj, hkeys⟩ := hwf
  have hlvlmem := mem_of_findLevel_some hside
  have hlp := price_eq_of_findLevel_some hside
  have hsplit := hdisj
  rw [List.map_append, List.flatten_append, List.nodup_append] at hsplit
  refine ⟨List.Pairwise.sublist (List.filter_sublist _) hbs, has, ?_, ?_, ?_, hkeys2⟩
  · intro l hl
    have hl2 := List.mem_filter.mp hl
    have hlne : l ≠ lvl := by
      intro he
      subst he
      simp [hlp] at hl2
    refine LevelWF_congr (hbl l hl2.1) ?_
    intro j hj
    refine hm j ?_
    intro hcon
    exact others_not_containing hsplit.1 hl2.1 hj lvl hlvlmem (fun he => hlne he.symm) hcon
  · intro l hl
    refine LevelWF_congr (hal l hl) ?_
    intro j hj
    refine hm j ?_
    intro hcon
    exact hsplit.2.2 (flatten_mem_of_level hlvlmem hcon) (flatten_mem_of_level hl hj)
  · show (((eraseLevel b.bids p ++ b.asks).map PriceLevel.orders).flatten).Nodup
    rw [List.map_append, List.flatten_append]
    refine List.Nodup.sublist ?_ hdisj
    rw [List.map_append, List.flatten_append]
    exact (flatten_eraseLevel_sublist b.bids p).append (List.Sublist.refl _)

theorem WF_erase_asks (b : OrderBook) (p : Int) (lvl : PriceLevel)
    (m' : OrderMap) (hwf : b.WF) (hside : findLevel b.asks p = some lvl)
    (hm : ∀ j, j ∉ lvl.orders → mapLookup m' j = mapLookup b.orderMap j)
    (hkeys2 : (m'.map Prod.fst).Nodup) :
    OrderBook.WF { b with asks := eraseLevel b.asks p, orderMap := m' } := by
  obtain ⟨hbs, has, hbl, hal, hdisj, hkeys⟩ := hwf
  have hlvlmem := mem_of_findLevel_some hside
  have hlp := price_eq_of_findLevel_some hside
  have hsplit := hdisj
  rw [List.map_append, List.flatten_append, List.nodup_append] at hsplit
  refine ⟨hbs, List.Pairwise.sublist (List.filter_sublist _) has, ?_, ?_, ?_, hkeys2⟩
  · intro l hl
    refine LevelWF_congr (hbl l hl) ?_
    intro j hj
    refine hm j ?_
    intro hcon
    exact hsplit.2.2 (flatten_mem_of_level hl hj) (flatten_mem_of_level hlvlmem hcon)
  · intro l hl
    have hl2 := List.mem_filter.mp hl
    have hlne : l ≠ lvl := by
      intro he
      subst he
      simp [hlp] at hl2
    refine LevelWF_congr (hal l hl2.1) ?_
    intro j hj
    refine hm j ?_
    intro hcon
    exact others_not_containing hsplit.2.1 hl2.1 hj lvl hlvlmem (fun he => hlne he.symm) hcon
  · show (((b.bids ++ eraseLevel b.asks p).map PriceLevel.orders).flatten).Nodup
    rw [List.map_append, List.flatten_append]
    refine List.Nodup.sublist ?_ hdisj
    rw [List.map_append, List.flatten_append]
    exact (List.Sublist.refl _).append (flatten_eraseLevel_sublist b.asks p)

/-- Shrinking the level at `p` to a survivor with a sub-FIFO, with an id
index that agrees outside the old level's ids, preserves book
well-formedness, provided the survivor level is itself well-formed. -/
theorem WF_update_bids (b : OrderBook) (p : Int) (lvl : PriceLevel)
    (m' : OrderMap) (T : Nat) (O : List Nat) (hwf : b.WF)
    (hside : findLevel b.bids p = some lvl)
    (hm : ∀ j, j ∉ lvl.orders → mapLookup m' j = mapLookup b.orderMap j)
    (hkeys2 : (m'.map Prod.fst).Nodup) (hOsub : O.Sublist lvl.orders)
    (hlvl2 : LevelWF m' Side.BUY { price := lvl.price, totalQuantity := T, orders := O }) :
    OrderBook.WF { b with
      bids := updateLevel b.bids p (fun l => { l with totalQuantity := T, orders := O }),
      orderMap := m' } := by
  obtain ⟨hbs, has, hbl, hal, hdisj, hkeys⟩ := hwf
  have hlvlmem := mem_of_findLevel_some hside
  have hlp := price_eq_of_findLevel_some hside
  have hsplit := hdisj
  rw [List.map_append, List.flatten_append, List.nodup_append] at hsplit
  have hpnd := prices_nodup_of_sorted_desc hbs
  have hpuniq : ∀ l ∈ b.bids, l.price = p → l = lvl := by
    intro l hl he
    exact List.inj_on_of_nodup_map hpnd hl hlvlmem (by rw [he, hlp])
  refine ⟨?_, has, ?_, ?_, ?_, hkeys2⟩
  · dsimp only
    refine (@pairwise_prices_iff (fun a c => c < a) _).mpr ?_
    rw [prices_updateLevel (fun l => { l with totalQuantity := T, orders := O }) (fun l hl he => rfl)]
    exact (@pairwise_prices_iff (fun a c => c < a) _).mp hbs
  · intro l' hl'
    obtain ⟨l0, hl0, hleq⟩ := List.mem_map.mp hl'
    by_cases hx : l0.price = p
    · rw [if_pos hx] at hleq
      have hl0e : l0 = lvl := hpuniq l0 hl0 hx
      subst hl0e
      subst hleq
      exact hlvl2
    · rw [if_neg hx] at hleq
      subst hleq
      have hlne : l0 ≠ lvl := by
        intro he
        rw [he, hlp] at hx
        exact hx rfl
      refine LevelWF_congr (hbl l0 hl0) ?_
      intro j hj
      refine hm j ?_
      intro hcon
      exact others_not_containing hsplit.1 hl0 hj lvl hlvlmem (fun he => hlne he.symm) hcon
  · intro l hl
    refine LevelWF_congr (hal l hl) ?_
    intro j hj
    refine hm j ?_
    intro hcon
    exact hsplit.2.2 (flatten_mem_of_level hlvlmem hcon) (flatten_mem_of_level hl hj)
  · show (((updateLevel b.bids p _ ++ b.asks).map PriceLevel.orders).flatten).Nodup
    rw [List.map_append, List.flatten_append]
    refine List.Nodup.sublist ?_ hdisj
    rw [List.map_append, List.flatten_append]
    refine (flatten_updateLevel_sublist _ ?_).append (List.Sublist.refl _)
    intro l hl he
    rw [hpuniq l hl he]
    exact hOsub

theorem WF_update_asks (b : OrderBook) (p : Int) (lvl : PriceLevel)
    (m' : OrderMap) (T : Nat) (O : List Nat) (hwf : b.WF)
    (hside : findLevel b.asks p = some lvl)
    (hm : ∀ j, j ∉ lvl.orders → mapLookup m' j = mapLookup b.orderMap j)
    (hkeys2 : (m'.map Prod.fst).Nodup) (hOsub : O.Sublist lvl.orders)
    (hlvl2 : LevelWF m' Side.SELL { price := lvl.price, totalQuantity := T, orders := O }) :
    OrderBook.WF { b with
      asks := updateLevel b.asks p (fun l => { l with totalQuantity := T, orders := O }),
      orderMap := m' } := by
  obtain ⟨hbs, has, hbl, hal, hdisj, hkeys⟩ := hwf
  have hlvlmem := mem_of_findLevel_some hside
  have hlp := price_eq_of_findLevel_some hside
  have hsplit := hdisj
  rw [List.map_append, List.flatten_append, List.nodup_append] at hsplit
  have hpnd := prices_nodup_of_sorted_asc has
  have hpuniq : ∀ l ∈ b.asks, l.price = p → l = lvl := by
    intro l hl he
    exact List.inj_on_of_nodup_map hpnd hl hlvlmem (by rw [he, hlp])
  refine ⟨hbs, ?_, ?_, ?_, ?_, hkeys2⟩
  · dsimp only
    refine (@pairwise_prices_iff (fun a c => a < c) _).mpr ?_
    rw [prices_updateLevel (fun l => { l with totalQuantity := T, orders := O }) (fun l hl he => rfl)]
    exact (@pairwise_prices_iff (fun a c => a < c) _).mp has
  · intro l hl
    refine LevelWF_congr (hbl l hl) ?_
    intro j hj
    refine hm j ?_
    intro hcon
    exact hsplit.2.2 (flatten_mem_of_level hl hj) (flatten_mem_of_level hlvlmem hcon)
  · intro l' hl'
    obtain ⟨l0, hl0, hleq⟩ := List.mem_map.mp hl'
    by_cases hx : l0.price = p
    · rw [if_pos hx] at hleq
      have hl0e : l0 = lvl := hpuniq l0 hl0 hx
      subst hl0e
      subst hleq
      exact hlvl2
    · rw [if_neg hx] at hleq
      subst hleq
      have hlne : l0 ≠ lvl := by
        intro he
        rw [he, hlp] at hx
        exact hx rfl
      refine LevelWF_congr (hal l0 hl0) ?_
      intro j hj
      refine hm j ?_
      intro hcon
      exact others_not_containing hsplit.2.1 hl0 hj lvl hlvlmem (fun he => hlne he.symm) hcon
  · show (((b.bids ++ updateLevel b.asks p _).map PriceLevel.orders).flatten).Nodup
    rw [List.map_append, List.flatten_append]
    refine List.Nodup.sublist ?_ hdisj
    rw [List.map_append, List.flatten_append]
    refine (List.Sublist.refl _).append (flatten_updateLevel_sublist _ ?_)
    intro l hl he
    rw [hpuniq l hl he]
    exact hOsub


/-- `fillQuantityAtPrice` preserves book well-formedness. -/
theorem fill_preserves_WF (b : OrderBook) (s : Side) (p : Int) (q : Nat)
    (hwf : b.WF) : ((b.fillQuantityAtPrice s p q).2).WF := by
  cases s
  case BUY =>
    cases hfind : findLevel b.bids p with
    | none =>
      have hstep : b.fillQuantityAtPrice Side.BUY p q = (0, b) := by
        unfold OrderBook.fillQuantityAtPrice
        rw [hfind]
      rw [hstep]
      exact hwf
    | some lvl =>
      have hlwf : LevelWF b.orderMap Side.BUY lvl :=
        hwf.2.2.1 lvl (mem_of_findLevel_some hfind)
      obtain ⟨hA, k, hk, hB1, hB5, hB2, hB3, hB4⟩ :=
        fillLoop_spec lvl.orders q b.orderMap hwf.2.2.2.2.2 hlwf.2.1
          (levelIds_of_LevelWF hlwf)
      have hsum : lvl.totalQuantity = sumRemaining b.orderMap lvl.orders := hlwf.2.2.1
      have htw : lvl.totalQuantity < W := hlwf.2.2.2.1
      have hm2 : ∀ j, j ∉ lvl.orders →
          mapLookup (fillLoop b.orderMap q lvl.orders).2.2 j = mapLookup b.orderMap j :=
        fun j hj => hB3 j (fun hc => hj (List.mem_of_mem_take hc))
      have hkeys2 : (((fillLoop b.orderMap q lvl.orders).2.2).map Prod.fst).Nodup :=
        (fillLoop_keys lvl.orders q b.orderMap).nodup hwf.2.2.2.2.2
      by_cases hcase : sumRemaining b.orderMap lvl.orders ≤ q
      · have hf1 : (fillLoop b.orderMap q lvl.orders).1 = sumRemaining b.orderMap lvl.orders := by
          rw [hA]
          omega
        have hcond : sub32 lvl.totalQuantity (fillLoop b.orderMap q lvl.orders).1 = 0 := by
          rw [hf1, hsum]
          exact sub32_self
        have hstep : b.fillQuantityAtPrice Side.BUY p q =
            ((fillLoop b.orderMap q lvl.orders).1,
             { b with bids := eraseLevel b.bids p, orderMap := (fillLoop b.orderMap q lvl.orders).2.2 }) := by
          unfold OrderBook.fillQuantityAtPrice
          rw [hfind]
          dsimp only
          rw [hcond]
          rw [if_pos (Or.inl rfl)]
        rw [hstep]
        exact WF_erase_bids b p lvl _ hwf hfind hm2 hkeys2
      · have hqlt : q < sumRemaining b.orderMap lvl.orders := Nat.lt_of_not_le hcase
        have hf1 : (fillLoop b.orderMap q lvl.orders).1 = q := by
          rw [hA]
          omega
        have hne : lvl.orders.drop k ≠ [] := by
          intro hnil
          have hlen : lvl.orders.length ≤ k := List.drop_eq_nil_iff.mp hnil
          have htk : lvl.orders.take k = lvl.orders := List.take_of_length_le hlen
          rw [htk, hf1] at hB5
          omega
        have hcond : ¬(sub32 lvl.totalQuantity (fillLoop b.orderMap q lvl.orders).1 = 0 ∨
            (fillLoop b.orderMap q lvl.orders).2.1 = []) := by
          push_neg
          constructor
          · rw [hf1, hsum, sub32_eq_sub (by omega) (by rw [← hsum]; exact htw)]
            omega
          · rw [hB1]
            exact hne
        have hstep : b.fillQuantityAtPrice Side.BUY p q =
            ((fillLoop b.orderMap q lvl.orders).1,
             { b with
                bids := updateLevel b.bids p (fun l =>
                  { l with totalQuantity := sub32 lvl.totalQuantity (fillLoop b.orderMap q lvl.orders).1,
                           orders := (fillLoop b.orderMap q lvl.orders).2.1 }),
                orderMap := (fillLoop b.orderMap q lvl.orders).2.2 }) := by
          unfold OrderBook.fillQuantityAtPrice
          rw [hfind]
          dsimp only
          rw [if_neg hcond]
        rw [hstep]
        refine WF_update_bids b p lvl _ _ _ hwf hfind hm2 hkeys2 ?_ ?_
        · rw [hB1]
          exact List.drop_sublist _ _
        · -- the survivor level is well-formed
          obtain ⟨j0, rest2, hdk⟩ : ∃ j0 rest2, lvl.orders.drop k = j0 :: rest2 := by
            cases hdknil : lvl.orders.drop k with
            | nil => exact absurd hdknil hne
            | cons a b2 => exact ⟨a, b2, rfl⟩
          have hdk1 : lvl.orders.drop (k+1) = rest2 := by
            rw [← List.tail_drop, hdk]
            rfl
          have hndids := hlwf.2.1
          have hsplitk : lvl.orders.take (k+1) ++ lvl.orders.drop (k+1) = lvl.orders :=
            List.take_append_drop _ _
          have hdisjk : ∀ j ∈ lvl.orders.drop (k+1), j ∉ lvl.orders.take (k+1) := by
            intro j hj hc
            have hnd2 : (lvl.orders.take (k+1) ++ lvl.orders.drop (k+1)).Nodup := by
              rw [hsplitk]
              exact hndids
            rw [List.nodup_append] at hnd2
            exact hnd2.2.2 hc hj
          have htailcongr : sumRemaining (fillLoop b.orderMap q lvl.orders).2.2 rest2 =
              sumRemaining b.orderMap rest2 := by
            refine sumRemaining_congr ?_
            intro j hj
            refine hB3 j ?_
            intro hc
            exact hdisjk j (by rw [hdk1]; exact hj) hc
          have hsumsplit : sumRemaining b.orderMap lvl.orders =
              sumRemaining b.orderMap (lvl.orders.take k) + sumRemaining b.orderMap (lvl.orders.drop k) := by
            rw [← sumRemaining_append]
            rw [List.take_append_drop]
          have hsumdrop : sumRemaining b.orderMap (lvl.orders.drop k) =
              remOf b.orderMap j0 + sumRemaining b.orderMap rest2 := by
            rw [hdk, sumRemaining_cons]
          have hj0mem : j0 ∈ lvl.orders := List.mem_of_mem_drop (hdk ▸ List.mem_cons_self _ _)
          have hbound0 := hlwf.2.2.2.2 j0 hj0mem
          rw [hf1] at hB5
          refine ⟨by rw [hB1, hdk]; simp, ?_, ?_, ?_, ?_⟩
          · show List.Nodup (fillLoop b.orderMap q lvl.orders).2.1
            rw [hB1]
            exact (List.drop_sublist _ _).nodup hndids
          · show sub32 lvl.totalQuantity (fillLoop b.orderMap q lvl.orders).1 =
                sumRemaining (fillLoop b.orderMap q lvl.orders).2.2 (fillLoop b.orderMap q lvl.orders).2.1
            rw [hB1, hf1, hdk, sumRemaining_cons, htailcongr]
            rcases hB4 j0 rest2 hdk with ⟨ht0, hsame⟩ | hopt
            · rw [hf1] at ht0
              have hrm : remOf (fillLoop b.orderMap q lvl.orders).2.2 j0 = remOf b.orderMap j0 := by
                unfold remOf
                rw [hsame]
              rw [hrm]
              rw [sub32_eq_sub (by omega) htw]
              omega
            · cases hlk0 : mapLookup b.orderMap j0 with
              | none => rw [hlk0] at hopt; exact absurd hopt (fun h => h)
              | some o0 =>
                rw [hlk0] at hopt hbound0
                obtain ⟨hpos, hlt, hm'j⟩ := hopt
                rw [hf1] at hpos hlt hm'j
                have ho0wf : o0.WF := hbound0.2.2.2
                have hrm0 : remOf b.orderMap j0 = o0.getRemainingQty := by
                  unfold remOf
                  rw [hlk0]
                have hrm : remOf (fillLoop b.orderMap q lvl.orders).2.2 j0 =
                    o0.getRemainingQty - (q - sumRemaining b.orderMap (lvl.orders.take k)) := by
                  unfold remOf
                  rw [hm'j]
                  show ((o0.fill (q - sumRemaining b.orderMap (List.take k lvl.orders))).2).getRemainingQty = _
                  rw [remaining_eq ho0wf] at hlt
                  have htle : q - sumRemaining b.orderMap (List.take k lvl.orders) ≤
                      o0.quantity - o0.filledQty := by omega
                  rw [fill_remaining ho0wf htle]
                  rw [remaining_eq ho0wf]
                rw [hrm]
                rw [sub32_eq_sub (by omega) htw]
                rw [remaining_eq ho0wf] at hlt hrm0 ⊢
                omega
          · show sub32 lvl.totalQuantity (fillLoop b.orderMap q lvl.orders).1 < W
            unfold sub32 W
            omega
          · intro j hj
            have hjd : j ∈ lvl.orders.drop k := by
              rw [← hB1]
              exact hj
            rw [hdk] at hjd
            rcases List.mem_cons.mp hjd with he | hj2
            · subst he
              rcases hB4 j rest2 hdk with ⟨ht0, hsame⟩ | hopt
              · rw [hsame]
                have hb := hlwf.2.2.2.2 j hj0mem
                cases hlk0 : mapLookup b.orderMap j with
                | none => rw [hlk0] at hb; exact absurd hb (fun h => h)
                | some o0 =>
                  rw [hlk0] at hb
                  exact ⟨hb.1, hb.2.1, hb.2.2.1, hb.2.2.2⟩
              · cases hlk0 : mapLookup b.orderMap j with
                | none => rw [hlk0] at hopt; exact absurd hopt (fun h => h)
                | some o0 =>
                  rw [hlk0] at hopt hbound0
                  obtain ⟨hpos, hlt, hm'j⟩ := hopt
                  rw [hm'j]
                  have hfr := fill_frame o0 ((fillLoop b.orderMap q lvl.orders).1 - sumRemaining b.orderMap (lvl.orders.take k))
                  show _ ∧ _ ∧ _ ∧ _
                  refine ⟨?_, ?_, ?_, fill_wf hbound0.2.2.2 _⟩
                  · rw [hfr.1]
                    exact hbound0.1
                  · rw [hfr.2.1]
                    exact hbound0.2.1
                  · rw [hfr.2.2.2.1]
                    exact hbound0.2.2.1
            · have hjun : mapLookup (fillLoop b.orderMap q lvl.orders).2.2 j = mapLookup b.orderMap j := by
                refine hB3 j ?_
                intro hc
                exact hdisjk j (by rw [hdk1]; exact hj2) hc
              rw [hjun]
              have hjmem : j ∈ lvl.orders :=
                List.mem_of_mem_drop (hdk ▸ List.mem_cons_of_mem _ hj2)
              exact hlwf.2.2.2.2 j hjmem
  case SELL =>
    cases hfind : findLevel b.asks p with
    | none =>
      have hstep : b.fillQuantityAtPrice Side.SELL p q = (0, b) := by
        unfold OrderBook.fillQuantityAtPrice
        rw [hfind]
      rw [hstep]
      exact hwf
    | some lvl =>
      have hlwf : LevelWF b.orderMap Side.SELL lvl :=
        hwf.2.2.2.1 lvl (mem_of_findLevel_some hfind)
      obtain ⟨hA, k, hk, hB1, hB5, hB2, hB3, hB4⟩ :=
        fillLoop_spec lvl.orders q b.orderMap hwf.2.2.2.2.2 hlwf.2.1
          (levelIds_of_LevelWF hlwf)
      have hsum : lvl.totalQuantity = sumRemaining b.orderMap lvl.orders := hlwf.2.2.1
      have htw : lvl.totalQuantity < W := hlwf.2.2.2.1
      have hm2 : ∀ j, j ∉ lvl.orders →
          mapLookup (fillLoop b.orderMap q lvl.orders).2.2 j = mapLookup b.orderMap j :=
        fun j hj => hB3 j (fun hc => hj (List.mem_of_mem_take hc))
      have hkeys2 : (((fillLoop b.orderMap q lvl.orders).2.2).map Prod.fst).Nodup :=
        (fillLoop_keys lvl.orders q b.orderMap).nodup hwf.2.2.2.2.2
      by_cases hcase : sumRemaining b.orderMap lvl.orders ≤ q
      · have hf1 : (fillLoop b.orderMap q lvl.orders).1 = sumRemaining b.orderMap lvl.orders := by
          rw [hA]
          omega
        have hcond : sub32 lvl.totalQuantity (fillLoop b.orderMap q lvl.orders).1 = 0 := by
          rw [hf1, hsum]
          exact sub32_self
        have hstep : b.fillQuantityAtPrice Side.SELL p q =
            ((fillLoop b.orderMap q lvl.orders).1,
             { b with asks := eraseLevel b.asks p, orderMap := (fillLoop b.orderMap q lvl.orders).2.2 }) := by
          unfold OrderBook.fillQuantityAtPrice
          rw [hfind]
          dsimp only
          rw [hcond]
          rw [if_pos (Or.inl rfl)]
        rw [hstep]
        exact WF_erase_asks b p lvl _ hwf hfind hm2 hkeys2
      · have hqlt : q < sumRemaining b.orderMap lvl.orders := Nat.lt_of_not_le hcase
        have hf1 : (fillLoop b.orderMap q lvl.orders).1 = q := by
          rw [hA]
          omega
        have hne : lvl.orders.drop k ≠ [] := by
          intro hnil
          have hlen : lvl.orders.length ≤ k := List.drop_eq_nil_iff.mp hnil
          have htk : lvl.orders.take k = lvl.orders := List.take_of_length_le hlen
          rw [htk, hf1] at hB5
          omega
        have hcond : ¬(sub32 lvl.totalQuantity (fillLoop b.orderMap q lvl.orders).1 = 0 ∨
            (fillLoop b.orderMap q lvl.orders).2.1 = []) := by
          push_neg
          constructor
          · rw [hf1, hsum, sub32_eq_sub (by omega) (by rw [← hsum]; exact htw)]
            omega
          · rw [hB1]
            exact hne
        have hstep : b.fillQuantityAtPrice Side.SELL p q =
            ((fillLoop b.orderMap q lvl.orders).1,
             { b with
                asks := updateLevel b.asks p (fun l =>
                  { l with totalQuantity := sub32 lvl.totalQuantity (fillLoop b.orderMap q lvl.orders).1,
                           orders := (fillLoop b.orderMap q lvl.orders).2.1 }),
                orderMap := (fillLoop b.orderMap q lvl.orders).2.2 }) := by
          unfold OrderBook.fillQuantityAtPrice
          rw [hfind]
          dsimp only
          rw [if_neg hcond]
        rw [hstep]
        refine WF_update_asks b p lvl _ _ _ hwf hfind hm2 hkeys2 ?_ ?_
        · rw [hB1]
          exact List.drop_sublist _ _
        · -- the survivor level is well-formed
          obtain ⟨j0, rest2, hdk⟩ : ∃ j0 rest2, lvl.orders.drop k = j0 :: rest2 := by
            cases hdknil : lvl.orders.drop k with
            | nil => exact absurd hdknil hne
            | cons a b2 => exact ⟨a, b2, rfl⟩
          have hdk1 : lvl.orders.drop (k+1) = rest2 := by
            rw [← List.tail_drop, hdk]
            rfl
          have hndids := hlwf.2.1
          have hsplitk : lvl.orders.take (k+1) ++ lvl.orders.drop (k+1) = lvl.orders :=
            List.take_append_drop _ _
          have hdisjk : ∀ j ∈ lvl.orders.drop (k+1), j ∉ lvl.orders.take (k+1) := by
            intro j hj hc
            have hnd2 : (lvl.orders.take (k+1) ++ lvl.orders.drop (k+1)).Nodup := by
              rw [hsplitk]
              exact hndids
            rw [List.nodup_append] at hnd2
            exact hnd2.2.2 hc hj
          have htailcongr : sumRemaining (fillLoop b.orderMap q lvl.orders).2.2 rest2 =
              sumRemaining b.orderMap rest2 := by
            refine sumRemaining_congr ?_
            intro j hj
            refine hB3 j ?_
            intro hc
            exact hdisjk j (by rw [hdk1]; exact hj) hc
          have hsumsplit : sumRemaining b.orderMap lvl.orders =
              sumRemaining b.orderMap (lvl.orders.take k) + sumRemaining b.orderMap (lvl.orders.drop k) := by
            rw [← sumRemaining_append]
            rw [List.take_append_drop]
          have hsumdrop : sumRemaining b.orderMap (lvl.orders.drop k) =
              remOf b.orderMap j0 + sumRemaining b.orderMap rest2 := by
            rw [hdk, sumRemaining_cons]
          have hj0mem : j0 ∈ lvl.orders := List.mem_of_mem_drop (hdk ▸ List.mem_cons_self _ _)
          have hbound0 := hlwf.2.2.2.2 j0 hj0mem
          rw [hf1] at hB5
          refine ⟨by rw [hB1, hdk]; simp, ?_, ?_, ?_, ?_⟩
          · show List.Nodup (fillLoop b.orderMap q lvl.orders).2.1
            rw [hB1]
            exact (List.drop_sublist _ _).nodup hndids
          · show sub32 lvl.totalQuantity (fillLoop b.orderMap q lvl.orders).1 =
                sumRemaining (fillLoop b.orderMap q lvl.orders).2.2 (fillLoop b.orderMap q lvl.orders).2.1
            rw [hB1, hf1, hdk, sumRemaining_cons, htailcongr]
            rcases hB4 j0 rest2 hdk with ⟨ht0, hsame⟩ | hopt
            · rw [hf1] at ht0
              have hrm : remOf (fillLoop b.orderMap q lvl.orders).2.2 j0 = remOf b.orderMap j0 := by
                unfold remOf
                rw [hsame]
              rw [hrm]
              rw [sub32_eq_sub (by omega) htw]
              omega
            · cases hlk0 : mapLookup b.orderMap j0 with
              | none => rw [hlk0] at hopt; exact absurd hopt (fun h => h)
              | some o0 =>
                rw [hlk0] at hopt hbound0
                obtain ⟨hpos, hlt, hm'j⟩ := hopt
                rw [hf1] at hpos hlt hm'j
                have ho0wf : o0.WF := hbound0.2.2.2
                have hrm0 : remOf b.orderMap j0 = o0.getRemainingQty := by
                  unfold remOf
                  rw [hlk0]
                have hrm : remOf (fillLoop b.orderMap q lvl.orders).2.2 j0 =
                    o0.getRemainingQty - (q - sumRemaining b.orderMap (lvl.orders.take k)) := by
                  unfold remOf
                  rw [hm'j]
                  show ((o0.fill (q - sumRemaining b.orderMap (List.take k lvl.orders))).2).getRemainingQty = _
                  rw [remaining_eq ho0wf] at hlt
                  have htle : q - sumRemaining b.orderMap (List.take k lvl.orders) ≤
                      o0.quantity - o0.filledQty := by omega
                  rw [fill_remaining ho0wf htle]
                  rw [remaining_eq ho0wf]
                rw [hrm]
                rw [sub32_eq_sub (by omega) htw]
                rw [remaining_eq ho0wf] at hlt hrm0 ⊢
                omega
          · show sub32 lvl.totalQuantity (fillLoop b.orderMap q lvl.orders).1 < W
            unfold sub32 W
            omega
          · intro j hj
            have hjd : j ∈ lvl.orders.drop k := by
              rw [← hB1]
              exact hj
            rw [hdk] at hjd
            rcases List.mem_cons.mp hjd with he | hj2
            · subst he
              rcases hB4 j rest2 hdk with ⟨ht0, hsame⟩ | hopt
              · rw [hsame]
                have hb := hlwf.2.2.2.2 j hj0mem
                cases hlk0 : mapLookup b.orderMap j with
                | none => rw [hlk0] at hb; exact absurd hb (fun h => h)
                | some o0 =>
                  rw [hlk0] at hb
                  exact ⟨hb.1, hb.2.1, hb.2.2.1, hb.2.2.2⟩
              · cases hlk0 : mapLookup b.orderMap j with
                | none => rw [hlk0] at hopt; exact absurd hopt (fun h => h)
                | some o0 =>
                  rw [hlk0] at hopt hbound0
                  obtain ⟨hpos, hlt, hm'j⟩ := hopt
                  rw [hm'j]
                  have hfr := fill_frame o0 ((fillLoop b.orderMap q lvl.orders).1 - sumRemaining b.orderMap (lvl.orders.take k))
                  show _ ∧ _ ∧ _ ∧ _
                  refine ⟨?_, ?_, ?_, fill_wf hbound0.2.2.2 _⟩
                  · rw [hfr.1]
                    exact hbound0.1
                  · rw [hfr.2.1]
                    exact hbound0.2.1
                  · rw [hfr.2.2.2.1]
                    exact hbound0.2.2.1
            · have hjun : mapLookup (fillLoop b.orderMap q lvl.orders).2.2 j = mapLookup b.orderMap j := by
                refine hB3 j ?_
                intro hc
                exact hdisjk j (by rw [hdk1]; exact hj2) hc
              rw [hjun]
              have hjmem : j ∈ lvl.orders :=
                List.mem_of_mem_drop (hdk ▸ List.mem_cons_of_mem _ hj2)
              exact hlwf.2.2.2.2 j hjmem



theorem not_mem_keys_of_mapLookup_none {m : OrderMap} {i : Nat}
    (h : mapLookup m i = none) : i ∉ m.map Prod.fst := by
  induction m with
  | nil => simp
  | cons e rest ih =>
    obtain ⟨j, p⟩ := e
    by_cases hj : j = i
    · rw [mapLookup, if_pos hj] at h
      exact absurd h (by simp)
    · rw [mapLookup, if_neg hj] at h
      simp only [List.map_cons, List.mem_cons]
      push_neg
      exact ⟨fun he => hj he.symm, ih h⟩

/-- `fillQuantityAtPrice` never introduces an id into the index: an
absent id stays absent. -/
theorem fill_lookup_none (b : OrderBook) (s : Side) (p : Int) (q j : Nat)
    (h : mapLookup b.orderMap j = none) :
    mapLookup ((b.fillQuantityAtPrice s p q).2).orderMap j = none := by
  have hres : ∀ (q2 : Nat) (ids : List Nat),
      mapLookup (fillLoop b.orderMap q2 ids).2.2 j = none := by
    intro q2 ids
    refine mapLookup_eq_none_of_not_mem _ _ ?_
    intro hc
    exact not_mem_keys_of_mapLookup_none h
      ((fillLoop_keys ids q2 b.orderMap).subset hc)
  cases s
  case BUY =>
    cases hfind : findLevel b.bids p with
    | none =>
      have hstep : b.fillQuantityAtPrice Side.BUY p q = (0, b) := by
        unfold OrderBook.fillQuantityAtPrice
        rw [hfind]
      rw [hstep]
      exact h
    | some lvl =>
      unfold OrderBook.fillQuantityAtPrice
      rw [hfind]
      dsimp only
      split
      · exact hres _ _
      · exact hres _ _
  case SELL =>
    cases hfind : findLevel b.asks p with
    | none =>
      have hstep : b.fillQuantityAtPrice Side.SELL p q = (0, b) := by
        unfold OrderBook.fillQuantityAtPrice
        rw [hfind]
      rw [hstep]
      exact h
    | some lvl =>
      unfold OrderBook.fillQuantityAtPrice
      rw [hfind]
      dsimp only
      split
      · exact hres _ _
      · exact hres _ _

/-- On a price-nodup level list, `findLevel` at a member's price returns
that member. -/
theorem findLevel_mem_self {lvls : List PriceLevel}
    (hnd : (lvls.map PriceLevel.price).Nodup) {l : PriceLevel}
    (hl : l ∈ lvls) : findLevel lvls l.price = some l := by
  induction lvls with
  | nil => simp at hl
  | cons x xs ih =>
    simp only [List.map_cons, List.nodup_cons] at hnd
    rcases List.mem_cons.mp hl with he | hm
    · subst he
      unfold findLevel
      rw [List.find?_cons_of_pos _ (by simp)]
    · by_cases hx : x.price = l.price
      · exfalso
        refine hnd.1 ?_
        rw [hx]
        exact List.mem_map_of_mem _ hm
      · unfold findLevel
        rw [List.find?_cons_of_neg _ (by simp [hx])]
        exact ih hnd.2 hm

/-- The amount actually removed by `fillQuantityAtPrice` on the bid side
is `min(requested, cached level total)` (the cache is accurate under
well-formedness). -/
theorem fill_fst_bids (b : OrderBook) (p : Int) (q : Nat) (hwf : b.WF)
    {lvl : PriceLevel} (hfind : findLevel b.bids p = some lvl) :
    (b.fillQuantityAtPrice Side.BUY p q).1 = min q lvl.totalQuantity := by
  have hlwf : LevelWF b.orderMap Side.BUY lvl :=
    hwf.2.2.1 lvl (mem_of_findLevel_some hfind)
  obtain ⟨hA, _⟩ := fillLoop_spec lvl.orders q b.orderMap hwf.2.2.2.2.2
    hlwf.2.1 (levelIds_of_LevelWF hlwf)
  unfold OrderBook.fillQuantityAtPrice
  rw [hfind]
  dsimp only
  split
  · show (fillLoop b.orderMap q lvl.orders).1 = min q lvl.totalQuantity
    rw [hA, hlwf.2.2.1]
  · show (fillLoop b.orderMap q lvl.orders).1 = min q lvl.totalQuantity
    rw [hA, hlwf.2.2.1]

/-- Ask-side version of `fill_fst_bids`. -/
theorem fill_fst_asks (b : OrderBook) (p : Int) (q : Nat) (hwf : b.WF)
    {lvl : PriceLevel} (hfind : findLevel b.asks p = some lvl) :
    (b.fillQuantityAtPrice Side.SELL p q).1 = min q lvl.totalQuantity := by
  have hlwf : LevelWF b.orderMap Side.SELL lvl :=
    hwf.2.2.2.1 lvl (mem_of_findLevel_some hfind)
  obtain ⟨hA, _⟩ := fillLoop_spec lvl.orders q b.orderMap hwf.2.2.2.2.2
    hlwf.2.1 (levelIds_of_LevelWF hlwf)
  unfold OrderBook.fillQuantityAtPrice
  rw [hfind]
  dsimp only
  split
  · show (fillLoop b.orderMap q lvl.orders).1 = min q lvl.totalQuantity
    rw [hA, hlwf.2.2.1]
  · show (fillLoop b.orderMap q lvl.orders).1 = min q lvl.totalQuantity
    rw [hA, hlwf.2.2.1]

/-- A bid-side fill leaves every other bid price level untouched. -/
theorem fill_findLevel_bids_ne (b : OrderBook) (p p2 : Int) (q : Nat)
    (hne : p2 ≠ p) :
    findLevel (((b.fillQuantityAtPrice Side.BUY p q).2).bids) p2 =
      findLevel b.bids p2 := by
  cases hfind : findLevel b.bids p with
  | none =>
    have hstep : b.fillQuantityAtPrice Side.BUY p q = (0, b) := by
      unfold OrderBook.fillQuantityAtPrice
      rw [hfind]
    rw [hstep]
  | some lvl =>
    unfold OrderBook.fillQuantityAtPrice
    rw [hfind]
    dsimp only
    split
    · exact findLevel_eraseLevel_ne hne
    · exact findLevel_updateLevel_ne _ hne (fun l => rfl)

/-- Ask-side version of `fill_findLevel_bids_ne`. -/
theorem fill_findLevel_asks_ne (b : OrderBook) (p p2 : Int) (q : Nat)
    (hne : p2 ≠ p) :
    findLevel (((b.fillQuantityAtPrice Side.SELL p q).2).asks) p2 =
      findLevel b.asks p2 := by
  cases hfind : findLevel b.asks p with
  | none =>
    have hstep : b.fillQuantityAtPrice Side.SELL p q = (0, b) := by
      unfold OrderBook.fillQuantityAtPrice
      rw [hfind]
    rw [hstep]
  | some lvl =>
    unfold OrderBook.fillQuantityAtPrice
    rw [hfind]
    dsimp only
    split
    · exact findLevel_eraseLevel_ne hne
    · exact findLevel_updateLevel_ne _ hne (fun l => rfl)

theorem matchBuyLoop_cons_stop (p1 : Int) (t1 : Nat)
    (rest : List (Int × Nat)) (o : Order) (b : OrderBook)
    (h0 : o.getRemainingQty = 0) :
    matchBuyLoop ((p1, t1) :: rest) o b = ([], o, b) := by
  simp only [matchBuyLoop]
  rw [if_pos h0]

theorem matchBuyLoop_cons_limit (p1 : Int) (t1 : Nat)
    (rest : List (Int × Nat)) (o : Order) (b : OrderBook)
    (h0 : ¬o.getRemainingQty = 0)
    (hg : o.type = OrderType.LIMIT ∧ o.price < p1) :
    matchBuyLoop ((p1, t1) :: rest) o b = ([], o, b) := by
  simp only [matchBuyLoop]
  rw [if_neg h0, if_pos hg]

theorem matchBuyLoop_cons_skip (p1 : Int) (t1 : Nat)
    (rest : List (Int × Nat)) (o : Order) (b : OrderBook)
    (h0 : ¬o.getRemainingQty = 0)
    (hg : ¬(o.type = OrderType.LIMIT ∧ o.price < p1))
    (hr : (b.fillQuantityAtPrice Side.SELL p1 (min o.getRemainingQty t1)).1 = 0) :
    matchBuyLoop ((p1, t1) :: rest) o b =
      matchBuyLoop rest o
        (b.fillQuantityAtPrice Side.SELL p1 (min o.getRemainingQty t1)).2 := by
  simp only [matchBuyLoop]
  rw [if_neg h0, if_neg hg, if_pos hr]

theorem matchBuyLoop_cons_trade (p1 : Int) (t1 : Nat)
    (rest : List (Int × Nat)) (o : Order) (b : OrderBook)
    (h0 : ¬o.getRemainingQty = 0)
    (hg : ¬(o.type = OrderType.LIMIT ∧ o.price < p1))
    (hr : ¬(b.fillQuantityAtPrice Side.SELL p1 (min o.getRemainingQty t1)).1 = 0) :
    matchBuyLoop ((p1, t1) :: rest) o b =
      ({ buyOrderId := o.id, sellOrderId := 0, price := p1,
         quantity := (b.fillQuantityAtPrice Side.SELL p1 (min o.getRemainingQty t1)).1 } ::
        (matchBuyLoop rest
          ((o.fill (b.fillQuantityAtPrice Side.SELL p1 (min o.getRemainingQty t1)).1).2)
          ((b.fillQuantityAtPrice Side.SELL p1 (min o.getRemainingQty t1)).2)).1,
       (matchBuyLoop rest
          ((o.fill (b.fillQuantityAtPrice Side.SELL p1 (min o.getRemainingQty t1)).1).2)
          ((b.fillQuantityAtPrice Side.SELL p1 (min o.getRemainingQty t1)).2)).2.1,
       (matchBuyLoop rest
          ((o.fill (b.fillQuantityAtPrice Side.SELL p1 (min o.getRemainingQty t1)).1).2)
          ((b.fillQuantityAtPrice Side.SELL p1 (min o.getRemainingQty t1)).2)).2.2) := by
  simp only [matchBuyLoop]
  rw [if_neg h0, if_neg hg, if_neg hr]


theorem matchSellLoop_cons_stop (p1 : Int) (t1 : Nat)
    (rest : List (Int × Nat)) (o : Order) (b : OrderBook)
    (h0 : o.getRemainingQty = 0) :
    matchSellLoop ((p1, t1) :: rest) o b = ([], o, b) := by
  simp only [matchSellLoop]
  rw [if_pos h0]

theorem matchSellLoop_cons_limit (p1 : Int) (t1 : Nat)
    (rest : List (Int × Nat)) (o : Order) (b : OrderBook)
    (h0 : ¬o.getRemainingQty = 0)
    (hg : o.type = OrderType.LIMIT ∧ p1 < o.price) :
    matchSellLoop ((p1, t1) :: rest) o b = ([], o, b) := by
  simp only [matchSellLoop]
  rw [if_neg h0, if_pos hg]

theorem matchSellLoop_cons_skip (p1 : Int) (t1 : Nat)
    (rest : List (Int × Nat)) (o : Order) (b : OrderBook)
    (h0 : ¬o.getRemainingQty = 0)
    (hg : ¬(o.type = OrderType.LIMIT ∧ p1 < o.price))
    (hr : (b.fillQuantityAtPrice Side.BUY p1 (min o.getRemainingQty t1)).1 = 0) :
    matchSellLoop ((p1, t1) :: rest) o b =
      matchSellLoop rest o
        (b.fillQuantityAtPrice Side.BUY p1 (min o.getRemainingQty t1)).2 := by
  simp only [matchSellLoop]
  rw [if_neg h0, if_neg hg, if_pos hr]

theorem matchSellLoop_cons_trade (p1 : Int) (t1 : Nat)
    (rest : List (Int × Nat)) (o : Order) (b : OrderBook)
    (h0 : ¬o.getRemainingQty = 0)
    (hg : ¬(o.type = OrderType.LIMIT ∧ p1 < o.price))
    (hr : ¬(b.fillQuantityAtPrice Side.BUY p1 (min o.getRemainingQty t1)).1 = 0) :
    matchSellLoop ((p1, t1) :: rest) o b =
      ({ buyOrderId := 0, sellOrderId := o.id, price := p1,
         quantity := (b.fillQuantityAtPrice Side.BUY p1 (min o.getRemainingQty t1)).1 } ::
        (matchSellLoop rest
          ((o.fill (b.fillQuantityAtPrice Side.BUY p1 (min o.getRemainingQty t1)).1).2)
          ((b.fillQuantityAtPrice Side.BUY p1 (min o.getRemainingQty t1)).2)).1,
       (matchSellLoop rest
          ((o.fill (b.fillQuantityAtPrice Side.BUY p1 (min o.getRemainingQty t1)).1).2)
          ((b.fillQuantityAtPrice Side.BUY p1 (min o.getRemainingQty t1)).2)).2.1,
       (matchSellLoop rest
          ((o.fill (b.fillQuantityAtPrice Side.BUY p1 (min o.getRemainingQty t1)).1).2)
          ((b.fillQuantityAtPrice Side.BUY p1 (min o.getRemainingQty t1)).2)).2.2) := by
  simp only [matchSellLoop]
  rw [if_neg h0, if_neg hg, if_neg hr]

/-- The buy-side match loop never introduces an id into the index. -/
theorem matchBuyLoop_lookup_none (l : List (Int × Nat)) :
    ∀ (o : Order) (b : OrderBook) (j : Nat),
    mapLookup b.orderMap j = none →
    mapLookup ((matchBuyLoop l o b).2.2).orderMap j = none := by
  induction l with
  | nil => intro o b j h; exact h
  | cons pq rest ih =>
    obtain ⟨p1, t1⟩ := pq
    intro o b j h
    by_cases h0 : o.getRemainingQty = 0
    · rw [matchBuyLoop_cons_stop _ _ _ _ _ h0]
      exact h
    · by_cases hg : o.type = OrderType.LIMIT ∧ o.price < p1
      · rw [matchBuyLoop_cons_limit _ _ _ _ _ h0 hg]
        exact h
      · by_cases hr : (b.fillQuantityAtPrice Side.SELL p1 (min o.getRemainingQty t1)).1 = 0
        · rw [matchBuyLoop_cons_skip _ _ _ _ _ h0 hg hr]
          exact ih _ _ _ (fill_lookup_none b Side.SELL p1 _ j h)
        · rw [matchBuyLoop_cons_trade _ _ _ _ _ h0 hg hr]
          exact ih _ _ _ (fill_lookup_none b Side.SELL p1 _ j h)

/-- The sell-side match loop never introduces an id into the index. -/
theorem matchSellLoop_lookup_none (l : List (Int × Nat)) :
    ∀ (o : Order) (b : OrderBook) (j : Nat),
    mapLookup b.orderMap j = none →
    mapLookup ((matchSellLoop l o b).2.2).orderMap j = none := by
  induction l with
  | nil => intro o b j h; exact h
  | cons pq rest ih =>
    obtain ⟨p1, t1⟩ := pq
    intro o b j h
    by_cases h0 : o.getRemainingQty = 0
    · rw [matchSellLoop_cons_stop _ _ _ _ _ h0]
      exact h
    · by_cases hg : o.type = OrderType.LIMIT ∧ p1 < o.price
      · rw [matchSellLoop_cons_limit _ _ _ _ _ h0 hg]
        exact h
      · by_cases hr : (b.fillQuantityAtPrice Side.BUY p1 (min o.getRemainingQty t1)).1 = 0
        · rw [matchSellLoop_cons_skip _ _ _ _ _ h0 hg hr]
          exact ih _ _ _ (fill_lookup_none b Side.BUY p1 _ j h)
        · rw [matchSellLoop_cons_trade _ _ _ _ _ h0 hg hr]
          exact ih _ _ _ (fill_lookup_none b Side.BUY p1 _ j h)

/-- The buy-side match loop preserves book well-formedness. -/
theorem matchBuyLoop_WF (l : List (Int × Nat)) :
    ∀ (o : Order) (b : OrderBook), b.WF → ((matchBuyLoop l o b).2.2).WF := by
  induction l with
  | nil => intro o b h; exact h
  | cons pq rest ih =>
    obtain ⟨p1, t1⟩ := pq
    intro o b h
    by_cases h0 : o.getRemainingQty = 0
    · rw [matchBuyLoop_cons_stop _ _ _ _ _ h0]
      exact h
    · by_cases hg : o.type = OrderType.LIMIT ∧ o.price < p1
      · rw [matchBuyLoop_cons_limit _ _ _ _ _ h0 hg]
        exact h
      · by_cases hr : (b.fillQuantityAtPrice Side.SELL p1 (min o.getRemainingQty t1)).1 = 0
        · rw [matchBuyLoop_cons_skip _ _ _ _ _ h0 hg hr]
          exact ih _ _ (fill_preserves_WF b Side.SELL p1 _ h)
        · rw [matchBuyLoop_cons_trade _ _ _ _ _ h0 hg hr]
          exact ih _ _ (fill_preserves_WF b Side.SELL p1 _ h)

/-- The sell-side match loop preserves book well-formedness. -/
theorem matchSellLoop_WF (l : List (Int × Nat)) :
    ∀ (o : Order) (b : OrderBook), b.WF → ((matchSellLoop l o b).2.2).WF := by
  induction l with
  | nil => intro o b h; exact h
  | cons pq rest ih =>
    obtain ⟨p1, t1⟩ := pq
    intro o b h
    by_cases h0 : o.getRemainingQty = 0
    · rw [matchSellLoop_cons_stop _ _ _ _ _ h0]
      exact h
    · by_cases hg : o.type = OrderType.LIMIT ∧ p1 < o.price
      · rw [matchSellLoop_cons_limit _ _ _ _ _ h0 hg]
        exact h
      · by_cases hr : (b.fillQuantityAtPrice Side.BUY p1 (min o.getRemainingQty t1)).1 = 0
        · rw [matchSellLoop_cons_skip _ _ _ _ _ h0 hg hr]
          exact ih _ _ (fill_preserves_WF b Side.BUY p1 _ h)
        · rw [matchSellLoop_cons_trade _ _ _ _ _ h0 hg hr]
          exact ih _ _ (fill_preserves_WF b Side.BUY p1 _ h)

/-- The buy-side match loop only fills the incoming order: id, type and
price are untouched. -/
theorem matchBuyLoop_order_frame (l : List (Int × Nat)) :
    ∀ (o : Order) (b : OrderBook),
    ((matchBuyLoop l o b).2.1).id = o.id ∧
    ((matchBuyLoop l o b).2.1).type = o.type ∧
    ((matchBuyLoop l o b).2.1).price = o.price := by
  induction l with
  | nil => intro o b; exact ⟨rfl, rfl, rfl⟩
  | cons pq rest ih =>
    obtain ⟨p1, t1⟩ := pq
    intro o b
    by_cases h0 : o.getRemainingQty = 0
    · rw [matchBuyLoop_cons_stop _ _ _ _ _ h0]
      exact ⟨rfl, rfl, rfl⟩
    · by_cases hg : o.type = OrderType.LIMIT ∧ o.price < p1
      · rw [matchBuyLoop_cons_limit _ _ _ _ _ h0 hg]
        exact ⟨rfl, rfl, rfl⟩
      · by_cases hr : (b.fillQuantityAtPrice Side.SELL p1 (min o.getRemainingQty t1)).1 = 0
        · rw [matchBuyLoop_cons_skip _ _ _ _ _ h0 hg hr]
          exact ih _ _
        · rw [matchBuyLoop_cons_trade _ _ _ _ _ h0 hg hr]
          have hf := fill_frame o
            (b.fillQuantityAtPrice Side.SELL p1 (min o.getRemainingQty t1)).1
          have h2 := ih
            ((o.fill (b.fillQuantityAtPrice Side.SELL p1 (min o.getRemainingQty t1)).1).2)
            ((b.fillQuantityAtPrice Side.SELL p1 (min o.getRemainingQty t1)).2)
          exact ⟨h2.1.trans hf.1, h2.2.1.trans hf.2.2.1, h2.2.2.trans hf.2.2.2.1⟩

/-- The sell-side match loop only fills the incoming order: id, type and
price are untouched. -/
theorem matchSellLoop_order_frame (l : List (Int × Nat)) :
    ∀ (o : Order) (b : OrderBook),
    ((matchSellLoop l o b).2.1).id = o.id ∧
    ((matchSellLoop l o b).2.1).type = o.type ∧
    ((matchSellLoop l o b).2.1).price = o.price := by
  induction l with
  | nil => intro o b; exact ⟨rfl, rfl, rfl⟩
  | cons pq rest ih =>
    obtain ⟨p1, t1⟩ := pq
    intro o b
    by_cases h0 : o.getRemainingQty = 0
    · rw [matchSellLoop_cons_stop _ _ _ _ _ h0]
      exact ⟨rfl, rfl, rfl⟩
    · by_cases hg : o.type = OrderType.LIMIT ∧ p1 < o.price
      · rw [matchSellLoop_cons_limit _ _ _ _ _ h0 hg]
        exact ⟨rfl, rfl, rfl⟩
      · by_cases hr : (b.fillQuantityAtPrice Side.BUY p1 (min o.getRemainingQty t1)).1 = 0
        · rw [matchSellLoop_cons_skip _ _ _ _ _ h0 hg hr]
          exact ih _ _
        · rw [matchSellLoop_cons_trade _ _ _ _ _ h0 hg hr]
          have hf := fill_frame o
            (b.fillQuantityAtPrice Side.BUY p1 (min o.getRemainingQty t1)).1
          have h2 := ih
            ((o.fill (b.fillQuantityAtPrice Side.BUY p1 (min o.getRemainingQty t1)).1).2)
            ((b.fillQuantityAtPrice Side.BUY p1 (min o.getRemainingQty t1)).2)
          exact ⟨h2.1.trans hf.1, h2.2.1.trans hf.2.2.1, h2.2.2.trans hf.2.2.2.1⟩

/-- An id absent from the index is resident in no level of a
well-formed book. -/
theorem levelsContaining_eq_zero {b : OrderBook} (hwf : b.WF) {i : Nat}
    (h : mapLookup b.orderMap i = none) : levelsContaining b i = 0 := by
  have hni : ∀ l ∈ b.bids ++ b.asks, i ∉ l.orders := by
    intro l hl hmem
    rcases List.mem_append.mp hl with hb | ha
    · have hb2 := (hwf.2.2.1 l hb).2.2.2.2 i hmem
      rw [h] at hb2
      exact hb2
    · have ha2 := (hwf.2.2.2.1 l ha).2.2.2.2 i hmem
      rw [h] at ha2
      exact ha2
  unfold levelsContaining
  rw [filter_containing_nil hni]
  rfl

/-- `addToBook` never touches the id index. -/
theorem addToBook_orderMap (b : OrderBook) (o : Order) :
    (b.addToBook o).orderMap = b.orderMap := by
  unfold OrderBook.addToBook
  cases o.side
  · cases findLevel b.bids o.price <;> rfl
  · cases findLevel b.asks o.price <;> rfl


/-- Trade prices of the buy loop are a subsequence of the snapshot
prices (levels are visited in snapshot order, possibly skipped). -/
theorem matchBuyLoop_prices_sublist (l : List (Int × Nat)) :
    ∀ (o : Order) (b : OrderBook),
    ((matchBuyLoop l o b).1.map Trade.price).Sublist (l.map Prod.fst) := by
  induction l with
  | nil => intro o b; simp [matchBuyLoop]
  | cons pq rest ih =>
    obtain ⟨p1, t1⟩ := pq
    intro o b
    by_cases h0 : o.getRemainingQty = 0
    · rw [matchBuyLoop_cons_stop _ _ _ _ _ h0]
      simp
    · by_cases hg : o.type = OrderType.LIMIT ∧ o.price < p1
      · rw [matchBuyLoop_cons_limit _ _ _ _ _ h0 hg]
        simp
      · by_cases hr : (b.fillQuantityAtPrice Side.SELL p1 (min o.getRemainingQty t1)).1 = 0
        · rw [matchBuyLoop_cons_skip _ _ _ _ _ h0 hg hr]
          simp only [List.map_cons]
          exact (ih _ _).trans (List.sublist_cons_self _ _)
        · rw [matchBuyLoop_cons_trade _ _ _ _ _ h0 hg hr]
          simp only [List.map_cons]
          exact List.Sublist.cons₂ _ (ih _ _)

/-- Trade prices of the sell loop are a subsequence of the snapshot
prices. -/
theorem matchSellLoop_prices_sublist (l : List (Int × Nat)) :
    ∀ (o : Order) (b : OrderBook),
    ((matchSellLoop l o b).1.map Trade.price).Sublist (l.map Prod.fst) := by
  induction l with
  | nil => intro o b; simp [matchSellLoop]
  | cons pq rest ih =>
    obtain ⟨p1, t1⟩ := pq
    intro o b
    by_cases h0 : o.getRemainingQty = 0
    · rw [matchSellLoop_cons_stop _ _ _ _ _ h0]
      simp
    · by_cases hg : o.type = OrderType.LIMIT ∧ p1 < o.price
      · rw [matchSellLoop_cons_limit _ _ _ _ _ h0 hg]
        simp
      · by_cases hr : (b.fillQuantityAtPrice Side.BUY p1 (min o.getRemainingQty t1)).1 = 0
        · rw [matchSellLoop_cons_skip _ _ _ _ _ h0 hg hr]
          simp only [List.map_cons]
          exact (ih _ _).trans (List.sublist_cons_self _ _)
        · rw [matchSellLoop_cons_trade _ _ _ _ _ h0 hg hr]
          simp only [List.map_cons]
          exact List.Sublist.cons₂ _ (ih _ _)

/-- A LIMIT buy never trades above its limit price. -/
theorem matchBuyLoop_limit_le (l : List (Int × Nat)) :
    ∀ (o : Order) (b : OrderBook), o.type = OrderType.LIMIT →
    ∀ t ∈ (matchBuyLoop l o b).1, t.price ≤ o.price := by
  induction l with
  | nil => intro o b _ t ht; simp [matchBuyLoop] at ht
  | cons pq rest ih =>
    obtain ⟨p1, t1⟩ := pq
    intro o b htype t ht
    by_cases h0 : o.getRemainingQty = 0
    · rw [matchBuyLoop_cons_stop _ _ _ _ _ h0] at ht
      simp at ht
    · by_cases hg : o.type = OrderType.LIMIT ∧ o.price < p1
      · rw [matchBuyLoop_cons_limit _ _ _ _ _ h0 hg] at ht
        simp at ht
      · have hple : p1 ≤ o.price := by
          rcases not_and_or.mp hg with h | h
          · exact absurd htype h
          · exact le_of_not_lt h
        by_cases hr : (b.fillQuantityAtPrice Side.SELL p1 (min o.getRemainingQty t1)).1 = 0
        · rw [matchBuyLoop_cons_skip _ _ _ _ _ h0 hg hr] at ht
          exact ih _ _ htype t ht
        · rw [matchBuyLoop_cons_trade _ _ _ _ _ h0 hg hr] at ht
          rcases List.mem_cons.mp ht with he | hm
          · subst he
            exact hple
          · have htype2 : ((o.fill (b.fillQuantityAtPrice Side.SELL p1 (min o.getRemainingQty t1)).1).2).type = OrderType.LIMIT := by
              rw [(fill_frame o (b.fillQuantityAtPrice Side.SELL p1 (min o.getRemainingQty t1)).1).2.2.1]
              exact htype
            have h2 := ih _ _ htype2 t hm
            rw [(fill_frame o (b.fillQuantityAtPrice Side.SELL p1 (min o.getRemainingQty t1)).1).2.2.2.1] at h2
            exact h2

/-- A LIMIT sell never trades below its limit price. -/
theorem matchSellLoop_limit_ge (l : List (Int × Nat)) :
    ∀ (o : Order) (b : OrderBook), o.type = OrderType.LIMIT →
    ∀ t ∈ (matchSellLoop l o b).1, o.price ≤ t.price := by
  induction l with
  | nil => intro o b _ t ht; simp [matchSellLoop] at ht
  | cons pq rest ih =>
    obtain ⟨p1, t1⟩ := pq
    intro o b htype t ht
    by_cases h0 : o.getRemainingQty = 0
    · rw [matchSellLoop_cons_stop _ _ _ _ _ h0] at ht
      simp at ht
    · by_cases hg : o.type = OrderType.LIMIT ∧ p1 < o.price
      · rw [matchSellLoop_cons_limit _ _ _ _ _ h0 hg] at ht
        simp at ht
      · have hple : o.price ≤ p1 := by
          rcases not_and_or.mp hg with h | h
          · exact absurd htype h
          · exact le_of_not_lt h
        by_cases hr : (b.fillQuantityAtPrice Side.BUY p1 (min o.getRemainingQty t1)).1 = 0
        · rw [matchSellLoop_cons_skip _ _ _ _ _ h0 hg hr] at ht
          exact ih _ _ htype t ht
        · rw [matchSellLoop_cons_trade _ _ _ _ _ h0 hg hr] at ht
          rcases List.mem_cons.mp ht with he | hm
          · subst he
            exact hple
          · have htype2 : ((o.fill (b.fillQuantityAtPrice Side.BUY p1 (min o.getRemainingQty t1)).1).2).type = OrderType.LIMIT := by
              rw [(fill_frame o (b.fillQuantityAtPrice Side.BUY p1 (min o.getRemainingQty t1)).1).2.2.1]
              exact htype
            have h2 := ih _ _ htype2 t hm
            rw [(fill_frame o (b.fillQuantityAtPrice Side.BUY p1 (min o.getRemainingQty t1)).1).2.2.2.1] at h2
            exact h2


/-- A MARKET buy consumes `min(remaining, total snapshot liquidity)`:
it is never stopped by a price check. -/
theorem matchBuyLoop_market_sum (l : List (Int × Nat)) :
    ∀ (o : Order) (b : OrderBook),
    o.type = OrderType.MARKET → o.WF → b.WF →
    List.Pairwise (fun a c => a.1 < c.1) l →
    (∀ pq ∈ l, OptP (findLevel b.asks pq.1) (fun lv => lv.totalQuantity = pq.2)) →
    ((matchBuyLoop l o b).1.map Trade.quantity).sum =
      min o.getRemainingQty (l.map Prod.snd).sum := by
  induction l with
  | nil =>
    intro o b _ _ _ _ _
    simp [matchBuyLoop]
  | cons pq rest ih =>
    obtain ⟨p1, t1⟩ := pq
    intro o b htype howf hwf hpw hacc
    have hacc1 : OptP (findLevel b.asks p1) (fun lv => lv.totalQuantity = t1) :=
      hacc (p1, t1) (List.mem_cons_self _ _)
    by_cases h0 : o.getRemainingQty = 0
    · rw [matchBuyLoop_cons_stop _ _ _ _ _ h0]
      simp [h0]
    · cases hfind : findLevel b.asks p1 with
      | none =>
        rw [hfind] at hacc1
        exact absurd hacc1 (fun h => h)
      | some lvl =>
        rw [hfind] at hacc1
        have ht1 : lvl.totalQuantity = t1 := hacc1
        have hg : ¬(o.type = OrderType.LIMIT ∧ o.price < p1) := by
          rintro ⟨hl, _⟩
          rw [htype] at hl
          exact absurd hl (by decide)
        have hfst2 : (b.fillQuantityAtPrice Side.SELL p1 (min o.getRemainingQty t1)).1 =
            min o.getRemainingQty t1 := by
          rw [fill_fst_asks b p1 _ hwf hfind, ht1]
          omega
        have hwf2 : ((b.fillQuantityAtPrice Side.SELL p1 (min o.getRemainingQty t1)).2).WF :=
          fill_preserves_WF b Side.SELL p1 _ hwf
        have hpw2 : List.Pairwise (fun a c => a.1 < c.1) rest :=
          (List.pairwise_cons.mp hpw).2
        have hacc2 : ∀ pq ∈ rest,
            OptP (findLevel ((b.fillQuantityAtPrice Side.SELL p1 (min o.getRemainingQty t1)).2).asks pq.1)
              (fun lv => lv.totalQuantity = pq.2) := by
          intro pq hpq
          have hlt : p1 < pq.1 := (List.pairwise_cons.mp hpw).1 pq hpq
          rw [fill_findLevel_asks_ne b p1 pq.1 _ (ne_of_gt hlt)]
          exact hacc pq (List.mem_cons_of_mem _ hpq)
        by_cases hr : (b.fillQuantityAtPrice Side.SELL p1 (min o.getRemainingQty t1)).1 = 0
        · rw [matchBuyLoop_cons_skip _ _ _ _ _ h0 hg hr]
          rw [ih o _ htype howf hwf2 hpw2 hacc2]
          show min o.getRemainingQty (List.map Prod.snd rest).sum =
            min o.getRemainingQty (t1 + (List.map Prod.snd rest).sum)
          rw [hfst2] at hr
          omega
        · rw [matchBuyLoop_cons_trade _ _ _ _ _ h0 hg hr]
          have hrle : (b.fillQuantityAtPrice Side.SELL p1 (min o.getRemainingQty t1)).1 ≤
              o.quantity - o.filledQty := by
            rw [hfst2, ← remaining_eq howf]
            omega
          have hrem2 : ((o.fill (b.fillQuantityAtPrice Side.SELL p1 (min o.getRemainingQty t1)).1).2).getRemainingQty =
              o.quantity - o.filledQty - (b.fillQuantityAtPrice Side.SELL p1 (min o.getRemainingQty t1)).1 :=
            fill_remaining howf hrle
          have htype2 : ((o.fill (b.fillQuantityAtPrice Side.SELL p1 (min o.getRemainingQty t1)).1).2).type =
              OrderType.MARKET := by
            rw [(fill_frame o (b.fillQuantityAtPrice Side.SELL p1 (min o.getRemainingQty t1)).1).2.2.1]
            exact htype
          show (b.fillQuantityAtPrice Side.SELL p1 (min o.getRemainingQty t1)).1 +
              ((matchBuyLoop rest
                ((o.fill (b.fillQuantityAtPrice Side.SELL p1 (min o.getRemainingQty t1)).1).2)
                ((b.fillQuantityAtPrice Side.SELL p1 (min o.getRemainingQty t1)).2)).1.map Trade.quantity).sum =
            min o.getRemainingQty (t1 + (List.map Prod.snd rest).sum)
          rw [ih _ _ htype2 (fill_wf howf _) hwf2 hpw2 hacc2]
          rw [hrem2, hfst2, remaining_eq howf]
          omega

/-- A MARKET sell consumes `min(remaining, total snapshot liquidity)`:
it is never stopped by a price check. -/
theorem matchSellLoop_market_sum (l : List (Int × Nat)) :
    ∀ (o : Order) (b : OrderBook),
    o.type = OrderType.MARKET → o.WF → b.WF →
    List.Pairwise (fun a c => c.1 < a.1) l →
    (∀ pq ∈ l, OptP (findLevel b.bids pq.1) (fun lv => lv.totalQuantity = pq.2)) →
    ((matchSellLoop l o b).1.map Trade.quantity).sum =
      min o.getRemainingQty (l.map Prod.snd).sum := by
  induction l with
  | nil =>
    intro o b _ _ _ _ _
    simp [matchSellLoop]
  | cons pq rest ih =>
    obtain ⟨p1, t1⟩ := pq
    intro o b htype howf hwf hpw hacc
    have hacc1 : OptP (findLevel b.bids p1) (fun lv => lv.totalQuantity = t1) :=
      hacc (p1, t1) (List.mem_cons_self _ _)
    by_cases h0 : o.getRemainingQty = 0
    · rw [matchSellLoop_cons_stop _ _ _ _ _ h0]
      simp [h0]
    · cases hfind : findLevel b.bids p1 with
      | none =>
        rw [hfind] at hacc1
        exact absurd hacc1 (fun h => h)
      | some lvl =>
        rw [hfind] at hacc1
        have ht1 : lvl.totalQuantity = t1 := hacc1
        have hg : ¬(o.type = OrderType.LIMIT ∧ p1 < o.price) := by
          rintro ⟨hl, _⟩
          rw [htype] at hl
          exact absurd hl (by decide)
        have hfst2 : (b.fillQuantityAtPrice Side.BUY p1 (min o.getRemainingQty t1)).1 =
            min o.getRemainingQty t1 := by
          rw [fill_fst_bids b p1 _ hwf hfind, ht1]
          omega
        have hwf2 : ((b.fillQuantityAtPrice Side.BUY p1 (min o.getRemainingQty t1)).2).WF :=
          fill_preserves_WF b Side.BUY p1 _ hwf
        have hpw2 : List.Pairwise (fun a c => c.1 < a.1) rest :=
          (List.pairwise_cons.mp hpw).2
        have hacc2 : ∀ pq ∈ rest,
            OptP (findLevel ((b.fillQuantityAtPrice Side.BUY p1 (min o.getRemainingQty t1)).2).bids pq.1)
              (fun lv => lv.totalQuantity = pq.2) := by
          intro pq hpq
          have hlt : pq.1 < p1 := (List.pairwise_cons.mp hpw).1 pq hpq
          rw [fill_findLevel_bids_ne b p1 pq.1 _ (ne_of_lt hlt)]
          exact hacc pq (List.mem_cons_of_mem _ hpq)
        by_cases hr : (b.fillQuantityAtPrice Side.BUY p1 (min o.getRemainingQty t1)).1 = 0
        · rw [matchSellLoop_cons_skip _ _ _ _ _ h0 hg hr]
          rw [ih o _ htype howf hwf2 hpw2 hacc2]
          show min o.getRemainingQty (List.map Prod.snd rest).sum =
            min o.getRemainingQty (t1 + (List.map Prod.snd rest).sum)
          rw [hfst2] at hr
          omega
        · rw [matchSellLoop_cons_trade _ _ _ _ _ h0 hg hr]
          have hrle : (b.fillQuantityAtPrice Side.BUY p1 (min o.getRemainingQty t1)).1 ≤
              o.quantity - o.filledQty := by
            rw [hfst2, ← remaining_eq howf]
            omega
          have hrem2 : ((o.fill (b.fillQuantityAtPrice Side.BUY p1 (min o.getRemainingQty t1)).1).2).getRemainingQty =
              o.quantity - o.filledQty - (b.fillQuantityAtPrice Side.BUY p1 (min o.getRemainingQty t1)).1 :=
            fill_remaining howf hrle
          have htype2 : ((o.fill (b.fillQuantityAtPrice Side.BUY p1 (min o.getRemainingQty t1)).1).2).type =
              OrderType.MARKET := by
            rw [(fill_frame o (b.fillQuantityAtPrice Side.BUY p1 (min o.getRemainingQty t1)).1).2.2.1]
            exact htype
          show (b.fillQuantityAtPrice Side.BUY p1 (min o.getRemainingQty t1)).1 +
              ((matchSellLoop rest
                ((o.fill (b.fillQuantityAtPrice Side.BUY p1 (min o.getRemainingQty t1)).1).2)
                ((b.fillQuantityAtPrice Side.BUY p1 (min o.getRemainingQty t1)).2)).1.map Trade.quantity).sum =
            min o.getRemainingQty (t1 + (List.map Prod.snd rest).sum)
          rw [ih _ _ htype2 (fill_wf howf _) hwf2 hpw2 hacc2]
          rw [hrem2, hfst2, remaining_eq howf]
          omega


/-- C2: for an incoming order, opposing levels are visited best-price
first (trade prices strictly ascend for a buy against the ascending ask
snapshot, strictly descend for a sell against the descending bid
snapshot); a LIMIT order never trades at a price worse than its limit
(it stops at the first unacceptable level); a MARKET order is never
stopped by price: it consumes exactly `min(remaining, total snapshot
liquidity)`. -/
theorem match_price_priority (b : OrderBook) (o : Order)
    (hwf : b.WF) (howf : o.WF) :
    List.Pairwise (fun a c => a < c) ((matchBuyOrder b o).1.map Trade.price) ∧
    List.Pairwise (fun a c => c < a) ((matchSellOrder b o).1.map Trade.price) ∧
    (o.type = OrderType.LIMIT →
      (∀ t ∈ (matchBuyOrder b o).1, t.price ≤ o.price) ∧
      (∀ t ∈ (matchSellOrder b o).1, o.price ≤ t.price)) ∧
    (o.type = OrderType.MARKET →
      ((matchBuyOrder b o).1.map Trade.quantity).sum =
        min o.getRemainingQty (((b.getTopAsks 100).map Prod.snd).sum) ∧
      ((matchSellOrder b o).1.map Trade.quantity).sum =
        min o.getRemainingQty (((b.getTopBids 100).map Prod.snd).sum)) := by
  have hpwa : List.Pairwise (fun a c => a.1 < c.1) (b.getTopAsks 100) := by
    unfold OrderBook.getTopAsks
    rw [List.pairwise_map]
    exact List.Pairwise.sublist (List.take_sublist _ _) hwf.2.1
  have hpwb : List.Pairwise (fun a c => c.1 < a.1) (b.getTopBids 100) := by
    unfold OrderBook.getTopBids
    rw [List.pairwise_map]
    exact List.Pairwise.sublist (List.take_sublist _ _) hwf.1
  have hacca : ∀ pq ∈ b.getTopAsks 100,
      OptP (findLevel b.asks pq.1) (fun lv => lv.totalQuantity = pq.2) := by
    intro pq hpq
    unfold OrderBook.getTopAsks at hpq
    rw [List.mem_map] at hpq
    obtain ⟨l, hlmem, he⟩ := hpq
    subst he
    have hf := findLevel_mem_self (prices_nodup_of_sorted_asc hwf.2.1)
      ((List.take_sublist 100 b.asks).subset hlmem)
    show OptP (findLevel b.asks l.price) (fun lv => lv.totalQuantity = l.totalQuantity)
    rw [hf]
    exact rfl
  have haccb : ∀ pq ∈ b.getTopBids 100,
      OptP (findLevel b.bids pq.1) (fun lv => lv.totalQuantity = pq.2) := by
    intro pq hpq
    unfold OrderBook.getTopBids at hpq
    rw [List.mem_map] at hpq
    obtain ⟨l, hlmem, he⟩ := hpq
    subst he
    have hf := findLevel_mem_self (prices_nodup_of_sorted_desc hwf.1)
      ((List.take_sublist 100 b.bids).subset hlmem)
    show OptP (findLevel b.bids l.price) (fun lv => lv.totalQuantity = l.totalQuantity)
    rw [hf]
    exact rfl
  refine ⟨?_, ?_, ?_, ?_⟩
  · have hsub := matchBuyLoop_prices_sublist (b.getTopAsks 100) o b
    have hpw2 : List.Pairwise (fun a c => a < c) ((b.getTopAsks 100).map Prod.fst) := by
      unfold OrderBook.getTopAsks
      rw [List.map_map, List.pairwise_map]
      exact List.Pairwise.sublist (List.take_sublist _ _) hwf.2.1
    exact List.Pairwise.sublist hsub hpw2
  · have hsub := matchSellLoop_prices_sublist (b.getTopBids 100) o b
    have hpw2 : List.Pairwise (fun a c => c < a) ((b.getTopBids 100).map Prod.fst) := by
      unfold OrderBook.getTopBids
      rw [List.map_map, List.pairwise_map]
      exact List.Pairwise.sublist (List.take_sublist _ _) hwf.1
    exact List.Pairwise.sublist hsub hpw2
  · intro htype
    exact ⟨fun t ht => matchBuyLoop_limit_le (b.getTopAsks 100) o b htype t ht,
      fun t ht => matchSellLoop_limit_ge (b.getTopBids 100) o b htype t ht⟩
  · intro htype
    exact ⟨matchBuyLoop_market_sum (b.getTopAsks 100) o b htype howf hwf hpwa hacca,
      matchSellLoop_market_sum (b.getTopBids 100) o b htype howf hwf hpwb haccb⟩

theorem match_price_priority_witness :
    ((matchBuyOrder ⟨[⟨95, 10, [6]⟩], [⟨105, 30, [4]⟩, ⟨110, 20, [5]⟩], [(4, ⟨4, Side.SELL, OrderType.LIMIT, 105, 30, 0, OrderStatus.NEW⟩), (5, ⟨5, Side.SELL, OrderType.LIMIT, 110, 20, 0, OrderStatus.NEW⟩), (6, ⟨6, Side.BUY, OrderType.LIMIT, 95, 10, 0, OrderStatus.NEW⟩)]⟩ ⟨9, Side.BUY, OrderType.MARKET, 0, 40, 0, OrderStatus.NEW⟩).1.map Trade.quantity).sum =
      min (Order.getRemainingQty ⟨9, Side.BUY, OrderType.MARKET, 0, 40, 0, OrderStatus.NEW⟩) (((OrderBook.getTopAsks ⟨[⟨95, 10, [6]⟩], [⟨105, 30, [4]⟩, ⟨110, 20, [5]⟩], [(4, ⟨4, Side.SELL, OrderType.LIMIT, 105, 30, 0, OrderStatus.NEW⟩), (5, ⟨5, Side.SELL, OrderType.LIMIT, 110, 20, 0, OrderStatus.NEW⟩), (6, ⟨6, Side.BUY, OrderType.LIMIT, 95, 10, 0, OrderStatus.NEW⟩)]⟩ 100).map Prod.snd).sum) :=
  ((match_price_priority ⟨[⟨95, 10, [6]⟩], [⟨105, 30, [4]⟩, ⟨110, 20, [5]⟩], [(4, ⟨4, Side.SELL, OrderType.LIMIT, 105, 30, 0, OrderStatus.NEW⟩), (5, ⟨5, Side.SELL, OrderType.LIMIT, 110, 20, 0, OrderStatus.NEW⟩), (6, ⟨6, Side.BUY, OrderType.LIMIT, 95, 10, 0, OrderStatus.NEW⟩)]⟩ ⟨9, Side.BUY, OrderType.MARKET, 0, 40, 0, OrderStatus.NEW⟩ (by decide) (by decide)).2.2.2 rfl).1


/-- C6: after matching, `processOrder` adds the order to the book as a
resting order exactly when it is a LIMIT order with remaining
quantity > 0 (it then sits in the id index and in exactly one price
level); a MARKET order is never added — the post-matching book is the
final book and the unfilled remainder is dropped — and a fully filled
LIMIT order is not added either.  The incoming id is assumed fresh
(unique ids). -/
theorem process_order_remainder (b : OrderBook) (o : Order)
    (hwf : b.WF) (hfresh : mapLookup b.orderMap o.id = none) :
    (o.side = Side.BUY →
      (o.type = OrderType.MARKET →
        (processOrder b o).2.2 = (matchBuyOrder b o).2.2 ∧
        mapLookup ((processOrder b o).2.2).orderMap o.id = none ∧
        levelsContaining ((processOrder b o).2.2) o.id = 0) ∧
      (o.type = OrderType.LIMIT → 0 < ((matchBuyOrder b o).2.1).getRemainingQty →
        mapLookup ((processOrder b o).2.2).orderMap o.id = some ((matchBuyOrder b o).2.1) ∧
        levelsContaining ((processOrder b o).2.2) o.id = 1) ∧
      (o.type = OrderType.LIMIT → ((matchBuyOrder b o).2.1).getRemainingQty = 0 →
        (processOrder b o).2.2 = (matchBuyOrder b o).2.2)) ∧
    (o.side = Side.SELL →
      (o.type = OrderType.MARKET →
        (processOrder b o).2.2 = (matchSellOrder b o).2.2 ∧
        mapLookup ((processOrder b o).2.2).orderMap o.id = none ∧
        levelsContaining ((processOrder b o).2.2) o.id = 0) ∧
      (o.type = OrderType.LIMIT → 0 < ((matchSellOrder b o).2.1).getRemainingQty →
        mapLookup ((processOrder b o).2.2).orderMap o.id = some ((matchSellOrder b o).2.1) ∧
        levelsContaining ((processOrder b o).2.2) o.id = 1) ∧
      (o.type = OrderType.LIMIT → ((matchSellOrder b o).2.1).getRemainingQty = 0 →
        (processOrder b o).2.2 = (matchSellOrder b o).2.2)) := by
  constructor
  · intro hside
    have hfr : ((matchBuyOrder b o).2.1).id = o.id ∧
        ((matchBuyOrder b o).2.1).type = o.type ∧
        ((matchBuyOrder b o).2.1).price = o.price :=
      matchBuyLoop_order_frame (b.getTopAsks 100) o b
    have hwf2 : ((matchBuyOrder b o).2.2).WF :=
      matchBuyLoop_WF (b.getTopAsks 100) o b hwf
    have hlk2 : mapLookup ((matchBuyOrder b o).2.2).orderMap o.id = none :=
      matchBuyLoop_lookup_none (b.getTopAsks 100) o b o.id hfresh
    have hlkid : mapLookup ((matchBuyOrder b o).2.2).orderMap ((matchBuyOrder b o).2.1).id = none := by
      rw [hfr.1]
      exact hlk2
    refine ⟨?_, ?_, ?_⟩
    · intro htype
      have hcond : ¬(0 < ((matchBuyOrder b o).2.1).getRemainingQty ∧
          ((matchBuyOrder b o).2.1).type = OrderType.LIMIT) := by
        rintro ⟨_, hl⟩
        rw [hfr.2.1, htype] at hl
        exact absurd hl (by decide)
      have hstep : (processOrder b o).2.2 = (matchBuyOrder b o).2.2 := by
        unfold processOrder
        dsimp only
        rw [if_pos hside, if_neg hcond]
      refine ⟨hstep, ?_, ?_⟩
      · rw [hstep]
        exact hlk2
      · rw [hstep]
        exact levelsContaining_eq_zero hwf2 hlk2
    · intro htype hrem
      have hcond : 0 < ((matchBuyOrder b o).2.1).getRemainingQty ∧
          ((matchBuyOrder b o).2.1).type = OrderType.LIMIT := by
        refine ⟨hrem, ?_⟩
        rw [hfr.2.1]
        exact htype
      have hstep : (processOrder b o).2.2 =
          ({ (matchBuyOrder b o).2.2 with
              orderMap := mapInsert ((matchBuyOrder b o).2.2).orderMap
                ((matchBuyOrder b o).2.1).id ((matchBuyOrder b o).2.1) }).addToBook
            ((matchBuyOrder b o).2.1) := by
        unfold processOrder
        dsimp only
        rw [if_pos hside, if_pos hcond]
        unfold OrderBook.addOrder
        rw [hlkid]
      constructor
      · rw [hstep, addToBook_orderMap]
        show mapLookup (mapInsert ((matchBuyOrder b o).2.2).orderMap
            ((matchBuyOrder b o).2.1).id ((matchBuyOrder b o).2.1)) o.id =
          some ((matchBuyOrder b o).2.1)
        rw [hfr.1]
        exact mapLookup_insert_self _ _ _
      · rw [hstep]
        have hni_b : ∀ l ∈ ((matchBuyOrder b o).2.2).bids,
            ((matchBuyOrder b o).2.1).id ∉ l.orders := by
          intro l hl hmem
          have hx := (hwf2.2.2.1 l hl).2.2.2.2 _ hmem
          rw [hlkid] at hx
          exact hx
        have hni_a : ∀ l ∈ ((matchBuyOrder b o).2.2).asks,
            ((matchBuyOrder b o).2.1).id ∉ l.orders := by
          intro l hl hmem
          have hx := (hwf2.2.2.2.1 l hl).2.2.2.2 _ hmem
          rw [hlkid] at hx
          exact hx
        exact (addToBook_creates
          { (matchBuyOrder b o).2.2 with
              orderMap := mapInsert ((matchBuyOrder b o).2.2).orderMap
                ((matchBuyOrder b o).2.1).id ((matchBuyOrder b o).2.1) }
          ((matchBuyOrder b o).2.1) o.id hfr.1
          (prices_nodup_of_sorted_desc hwf2.1)
          (prices_nodup_of_sorted_asc hwf2.2.1) hni_b hni_a).2
    · intro htype hrem0
      have hcond : ¬(0 < ((matchBuyOrder b o).2.1).getRemainingQty ∧
          ((matchBuyOrder b o).2.1).type = OrderType.LIMIT) := by
        rintro ⟨h1, _⟩
        omega
      unfold processOrder
      dsimp only
      rw [if_pos hside, if_neg hcond]
  · intro hside
    have hfr : ((matchSellOrder b o).2.1).id = o.id ∧
        ((matchSellOrder b o).2.1).type = o.type ∧
        ((matchSellOrder b o).2.1).price = o.price :=
      matchSellLoop_order_frame (b.getTopBids 100) o b
    have hwf2 : ((matchSellOrder b o).2.2).WF :=
      matchSellLoop_WF (b.getTopBids 100) o b hwf
    have hlk2 : mapLookup ((matchSellOrder b o).2.2).orderMap o.id = none :=
      matchSellLoop_lookup_none (b.getTopBids 100) o b o.id hfresh
    have hlkid : mapLookup ((matchSellOrder b o).2.2).orderMap ((matchSellOrder b o).2.1).id = none := by
      rw [hfr.1]
      exact hlk2
    have hsideB : ¬o.side = Side.BUY := by
      rw [hside]
      exact fun h => absurd h (by decide)
    refine ⟨?_, ?_, ?_⟩
    · intro htype
      have hcond : ¬(0 < ((matchSellOrder b o).2.1).getRemainingQty ∧
          ((matchSellOrder b o).2.1).type = OrderType.LIMIT) := by
        rintro ⟨_, hl⟩
        rw [hfr.2.1, htype] at hl
        exact absurd hl (by decide)
      have hstep : (processOrder b o).2.2 = (matchSellOrder b o).2.2 := by
        unfold processOrder
        dsimp only
        rw [if_neg hsideB, if_neg hcond]
      refine ⟨hstep, ?_, ?_⟩
      · rw [hstep]
        exact hlk2
      · rw [hstep]
        exact levelsContaining_eq_zero hwf2 hlk2
    · intro htype hrem
      have hcond : 0 < ((matchSellOrder b o).2.1).getRemainingQty ∧
          ((matchSellOrder b o).2.1).type = OrderType.LIMIT := by
        refine ⟨hrem, ?_⟩
        rw [hfr.2.1]
        exact htype
      have hstep : (processOrder b o).2.2 =
          ({ (matchSellOrder b o).2.2 with
              orderMap := mapInsert ((matchSellOrder b o).2.2).orderMap
                ((matchSellOrder b o).2.1).id ((matchSellOrder b o).2.1) }).addToBook
            ((matchSellOrder b o).2.1) := by
        unfold processOrder
        dsimp only
        rw [if_neg hsideB, if_pos hcond]
        unfold OrderBook.addOrder
        rw [hlkid]
      constructor
      · rw [hstep, addToBook_orderMap]
        show mapLookup (mapInsert ((matchSellOrder b o).2.2).orderMap
            ((matchSellOrder b o).2.1).id ((matchSellOrder b o).2.1)) o.id =
          some ((matchSellOrder b o).2.1)
        rw [hfr.1]
        exact mapLookup_insert_self _ _ _
      · rw [hstep]
        have hni_b : ∀ l ∈ ((matchSellOrder b o).2.2).bids,
            ((matchSellOrder b o).2.1).id ∉ l.orders := by
          intro l hl hmem
          have hx := (hwf2.2.2.1 l hl).2.2.2.2 _ hmem
          rw [hlkid] at hx
          exact hx
        have hni_a : ∀ l ∈ ((matchSellOrder b o).2.2).asks,
            ((matchSellOrder b o).2.1).id ∉ l.orders := by
          intro l hl hmem
          have hx := (hwf2.2.2.2.1 l hl).2.2.2.2 _ hmem
          rw [hlkid] at hx
          exact hx
        exact (addToBook_creates
          { (matchSellOrder b o).2.2 with
              orderMap := mapInsert ((matchSellOrder b o).2.2).orderMap
                ((matchSellOrder b o).2.1).id ((matchSellOrder b o).2.1) }
          ((matchSellOrder b o).2.1) o.id hfr.1
          (prices_nodup_of_sorted_desc hwf2.1)
          (prices_nodup_of_sorted_asc hwf2.2.1) hni_b hni_a).2
    · intro htype hrem0
      have hcond : ¬(0 < ((matchSellOrder b o).2.1).getRemainingQty ∧
          ((matchSellOrder b o).2.1).type = OrderType.LIMIT) := by
        rintro ⟨h1, _⟩
        omega
      unfold processOrder
      dsimp only
      rw [if_neg hsideB, if_neg hcond]

theorem process_order_remainder_witness :
    mapLookup ((processOrder ⟨[⟨95, 10, [6]⟩], [⟨105, 30, [4]⟩, ⟨110, 20, [5]⟩], [(4, ⟨4, Side.SELL, OrderType.LIMIT, 105, 30, 0, OrderStatus.NEW⟩), (5, ⟨5, Side.SELL, OrderType.LIMIT, 110, 20, 0, OrderStatus.NEW⟩), (6, ⟨6, Side.BUY, OrderType.LIMIT, 95, 10, 0, OrderStatus.NEW⟩)]⟩ ⟨9, Side.BUY, OrderType.LIMIT, 106, 50, 0, OrderStatus.NEW⟩).2.2).orderMap 9 =
      some ((matchBuyOrder ⟨[⟨95, 10, [6]⟩], [⟨105, 30, [4]⟩, ⟨110, 20, [5]⟩], [(4, ⟨4, Side.SELL, OrderType.LIMIT, 105, 30, 0, OrderStatus.NEW⟩), (5, ⟨5, Side.SELL, OrderType.LIMIT, 110, 20, 0, OrderStatus.NEW⟩), (6, ⟨6, Side.BUY, OrderType.LIMIT, 95, 10, 0, OrderStatus.NEW⟩)]⟩ ⟨9, Side.BUY, OrderType.LIMIT, 106, 50, 0, OrderStatus.NEW⟩).2.1) ∧
    levelsContaining ((processOrder ⟨[⟨95, 10, [6]⟩], [⟨105, 30, [4]⟩, ⟨110, 20, [5]⟩], [(4, ⟨4, Side.SELL, OrderType.LIMIT, 105, 30, 0, OrderStatus.NEW⟩), (5, ⟨5, Side.SELL, OrderType.LIMIT, 110, 20, 0, OrderStatus.NEW⟩), (6, ⟨6, Side.BUY, OrderType.LIMIT, 95, 10, 0, OrderStatus.NEW⟩)]⟩ ⟨9, Side.BUY, OrderType.LIMIT, 106, 50, 0, OrderStatus.NEW⟩).2.2) 9 = 1 :=
  ((process_order_remainder ⟨[⟨95, 10, [6]⟩], [⟨105, 30, [4]⟩, ⟨110, 20, [5]⟩], [(4, ⟨4, Side.SELL, OrderType.LIMIT, 105, 30, 0, OrderStatus.NEW⟩), (5, ⟨5, Side.SELL, OrderType.LIMIT, 110, 20, 0, OrderStatus.NEW⟩), (6, ⟨6, Side.BUY, OrderType.LIMIT, 95, 10, 0, OrderStatus.NEW⟩)]⟩ ⟨9, Side.BUY, OrderType.LIMIT, 106, 50, 0, OrderStatus.NEW⟩ (by decide) (by decide)).1 rfl).2.1 rfl (by decide)

end orderbook
